import Mathlib

/-!
# Wachk2: card generator, account ledger and command dispatcher

A shallow embedding of `src/config.js`, `src/backup/index.js` and the ledger
helpers of `src/index.js`, followed by the theorems that settle the
specification's claims against it.

Conventions of the embedding

* A JavaScript string is a list of characters (`Str`), one character for each
  UTF-16 code unit; every text the code compares against or splits on is ASCII.
* `Math.floor(Math.random() * n)` is a draw from a list of raw random values,
  reduced into `0 .. n-1`; an exhausted list keeps answering `0`.
* Credits and timestamps are integers (`Int`).
* `while (true)` is a loop with fuel: `none` is "still looping when the fuel
  ran out".
* A handler is a computation over a `World`: the stores of the process, the
  clock, what the surroundings will answer, and the log of what the handler did
  to the outside.  An awaited transport call may throw.
* Inbound events are handled one at a time.
-/

namespace Wachk

/-! ## Strings -/

/-- A JavaScript string. -/
abbrev Str := List Char

/-- ECMAScript `WhiteSpace` and `LineTerminator` code points, the characters
removed by `String.prototype.trim`. -/
def isWhiteSpace (c : Char) : Bool :=
  c.toNat = 0x09 || c.toNat = 0x0A || c.toNat = 0x0B || c.toNat = 0x0C || c.toNat = 0x0D ||
  c.toNat = 0x20 || c.toNat = 0xA0 || c.toNat = 0x1680 ||
  (0x2000 ≤ c.toNat && c.toNat ≤ 0x200A) ||
  c.toNat = 0x2028 || c.toNat = 0x2029 || c.toNat = 0x202F || c.toNat = 0x205F ||
  c.toNat = 0x3000 || c.toNat = 0xFEFF

/-- The method `s.trim()`. -/
def trim (s : Str) : Str :=
  (s.dropWhile isWhiteSpace).rdropWhile isWhiteSpace

/-- The call `s.split(sep)` for a one-character separator: the pieces between
the separators, `[""]` for the empty string. -/
def split (sep : Char) : Str → List Str
  | [] => [[]]
  | c :: rest =>
    if c = sep then [] :: split sep rest
    else
      match split sep rest with
      | [] => [[c]]
      | piece :: pieces => (c :: piece) :: pieces

/-- The call `parts.join(sep)`. -/
def join (sep : Str) (parts : List Str) : Str :=
  sep.intercalate parts

/-- The call `s.substring(0, n)`. -/
def substring0 (n : Nat) (s : Str) : Str :=
  s.take n

/-- The call `s.startsWith(p)`. -/
def startsWith (s p : Str) : Bool :=
  p.isPrefixOf s

/-- The call `s.includes(p)`. -/
def includes (s p : Str) : Bool :=
  s.tails.any (fun t => p.isPrefixOf t)

/-- `String(n)` for a non-negative integer. -/
def natToStr (n : Nat) : Str :=
  Nat.toDigits 10 n

/-- `String(i)` for an integer. -/
def intToStr : Int → Str
  | Int.ofNat n => natToStr n
  | Int.negSucc n => '-' :: natToStr (n + 1)

/-- `parseInt(c)` of a one-character string: the digit, or `none` for `NaN`. -/
def parseIntChar (c : Char) : Option Nat :=
  if c.isDigit then some (c.toNat - 48) else none

/-! ## Random source -/

/-- The random source: the raw values still to be handed out. -/
abbrev Rand := List Nat

/-- `Math.floor(Math.random() * n)`: the next value, reduced into `0 .. n-1`. -/
def draw (n : Nat) : Rand → Nat × Rand
  | [] => (0, [])
  | r :: rest => (r % n, rest)

/-! ## `src/config.js`: card generator -/

/-- The loop of `checkLuhn`, walking the characters from the last one to the
first: `nSum` is the running sum and `isSecond` the doubling flag.  A `NaN`
digit makes the sum `NaN` for good, which is `none`. -/
def checkLuhnLoop : List Char → Nat → Bool → Option Nat
  | [], nSum, _ => some nSum
  | c :: rest, nSum, isSecond =>
    match parseIntChar c with
    | none => none
    | some d =>
      let d := if isSecond then d * 2 else d
      checkLuhnLoop rest (nSum + d / 10 + d % 10) (!isSecond)

/-- `checkLuhn(cardNo)`. -/
def checkLuhn (cardNo : Str) : Bool :=
  match checkLuhnLoop cardNo.reverse 0 false with
  | some nSum => nSum % 10 == 0
  | none => false

/-- Exchange of `numbers[i]` and `numbers[j]`. -/
def swap (numbers : List Char) (i j : Nat) : List Char :=
  (numbers.set i (numbers.getD j '0')).set j (numbers.getD i '0')

/-- The shuffle loop of `ccGenerator`: `for (i = k; i > 0; i--)` with
`j = Math.floor(Math.random() * (i + 1))`. -/
def shuffleLoop : Nat → List Char → Rand → List Char × Rand
  | 0, numbers, rnd => (numbers, rnd)
  | i + 1, numbers, rnd =>
    let (j, rnd) := draw (i + 2) rnd
    shuffleLoop i (swap numbers (i + 1) j) rnd

/-- The replacement `cc.replace(/x/gi, () => Math.floor(Math.random() * 10))`. -/
def replaceX : Str → Rand → Str × Rand
  | [], rnd => ([], rnd)
  | c :: rest, rnd =>
    if c = 'x' ∨ c = 'X' then
      let (d, rnd) := draw 10 rnd
      let (rest, rnd) := replaceX rest rnd
      (natToStr d ++ rest, rnd)
    else
      let (rest, rnd) := replaceX rest rnd
      (c :: rest, rnd)

/-- The test `/[xX]|rnd/.test(s)`. -/
def isWildcard (s : Str) : Bool :=
  s.any (fun c => c = 'x' || c = 'X') || includes s "rnd".toList

/-- True when the prefix asks for a 15-digit number:
`cc.startsWith("37") || cc.startsWith("34")`. -/
def isAmex (cc : Str) : Bool :=
  startsWith cc "37".toList || startsWith cc "34".toList

/-- The month argument after `if (mes !== "None" && mes.length === 1)`. -/
def padMes (mes : Str) : Str :=
  if mes ≠ "None".toList ∧ mes.length = 1 then '0' :: mes else mes

/-- The year argument after `if (ano !== "None" && ano.length === 2)`. -/
def expandAno (ano : Str) : Str :=
  if ano ≠ "None".toList ∧ ano.length = 2 then "20".toList ++ ano else ano

/-- The number block of `ccGenerator`: the shuffled digits are appended to the
prefix, the result is cut to 15 or 16 characters and every `x` is replaced. -/
def genNumber (cc : Str) (rnd : Rand) : Str × Rand :=
  let (numbers, rnd) := shuffleLoop 9 "0123456789".toList rnd
  let result := cc ++ numbers
  let cc := if isAmex cc then substring0 15 result else substring0 16 result
  replaceX cc rnd

/-- The month block of `ccGenerator`. -/
def genMes (mes : Str) (rnd : Rand) : Str × Rand :=
  if mes = "None".toList ∨ isWildcard mes then
    let (r, rnd) := draw 12 rnd
    let m := r + 1
    ((if m < 10 then '0' :: natToStr m else natToStr m), rnd)
  else (mes, rnd)

/-- The year block of `ccGenerator`. -/
def genAno (ano : Str) (rnd : Rand) : Str × Rand :=
  if ano = "None".toList ∨ isWildcard ano then
    let (r, rnd) := draw (2035 - 2024 + 1) rnd
    (natToStr (r + 2024), rnd)
  else (ano, rnd)

/-- The CVV block of `ccGenerator`; `cc` is the finished number. -/
def genCvv (cc cvv : Str) (rnd : Rand) : Str × Rand :=
  if cvv = "None".toList ∨ isWildcard cvv then
    if isAmex cc then
      let (r, rnd) := draw 9000 rnd
      (natToStr (r + 1000), rnd)
    else
      let (r, rnd) := draw 900 rnd
      (natToStr (r + 100), rnd)
  else (cvv, rnd)

/-- `ccGenerator(cc, mes, ano, cvv)`: one candidate `cc|mes|ano|cvv`. -/
def ccGenerator (cc mes ano cvv : Str) (rnd : Rand) : Str × Rand :=
  let mes := padMes mes
  let ano := expandAno ano
  let (cc, rnd) := genNumber cc rnd
  let (mes, rnd) := genMes mes rnd
  let (ano, rnd) := genAno ano rnd
  let (cvv, rnd) := genCvv cc cvv rnd
  (cc ++ '|' :: mes ++ '|' :: ano ++ '|' :: cvv, rnd)

/-- The `while (true)` loop of `luhnCardGenerator` for one card: candidates
are drawn until one passes `checkLuhn`; the line appended to `allCards` is
returned.  `none` when the fuel is spent. -/
def luhnRetry (cc mes ano cvv : Str) : Nat → Rand → Option (Str × Rand)
  | 0, _ => none
  | fuel + 1, rnd =>
    let (result, rnd) := ccGenerator cc mes ano cvv rnd
    match split '|' result with
    | ccx :: mesx :: anox :: cvvx :: _ =>
      if checkLuhn ccx then
        some (ccx ++ '|' :: mesx ++ '|' :: anox ++ '|' :: cvvx ++ ['\n'], rnd)
      else luhnRetry cc mes ano cvv fuel rnd
    | _ => none

/-- The `for` loop of `luhnCardGenerator`: `n` cards still to produce. -/
def luhnLoop (fuel : Nat) (cc mes ano cvv : Str) : Nat → Str → Rand → Option (Str × Rand)
  | 0, allCards, rnd => some (allCards, rnd)
  | n + 1, allCards, rnd =>
    match luhnRetry cc mes ano cvv fuel rnd with
    | none => none
    | some (line, rnd) => luhnLoop fuel cc mes ano cvv n (allCards ++ line) rnd

/-- `luhnCardGenerator(cc, mes, ano, cvv, amount)`; `fuel` bounds the
candidates tried for each card. -/
def luhnCardGenerator (fuel : Nat) (cc mes ano cvv : Str) (amount : Int) (rnd : Rand) :
    Option (Str × Rand) :=
  match luhnLoop fuel cc mes ano cvv amount.toNat [] rnd with
  | none => none
  | some (allCards, rnd) => some (trim allCards, rnd)

/-- `generateCodeBlocks(allCards)`: every non-blank line between backticks. -/
def generateCodeBlocks (allCards : Str) : Str :=
  (split '\n' allCards).foldl
    (fun codeBlocks card =>
      if trim card ≠ [] then codeBlocks ++ ('\x60' :: card ++ ['\x60', '\n']) else codeBlocks)
    []

/-! ## `src/config.js`: the `Map` stores -/

/-- `map.get(key)` on a `Map` with string keys, kept in insertion order. -/
def mapGet {α : Type} : List (Str × α) → Str → Option α
  | [], _ => none
  | (k, v) :: rest, key => if k = key then some v else mapGet rest key

/-- `map.set(key, value)`: an existing key keeps its place. -/
def mapSet {α : Type} : List (Str × α) → Str → α → List (Str × α)
  | [], key, value => [(key, value)]
  | (k, v) :: rest, key, value =>
    if k = key then (k, value) :: rest else (k, v) :: mapSet rest key value

/-- `map.delete(key)`. -/
def mapDelete {α : Type} : List (Str × α) → Str → List (Str × α)
  | [], _ => []
  | (k, v) :: rest, key => if k = key then rest else (k, v) :: mapDelete rest key

/-- An account record of `users`.  `reg_at` holds the instant whose locale
date string the code stores. -/
structure User where
  id : Str
  username : Str
  status : Str
  credit : Int
  antispam_time : Int
  reg_at : Int
  role : Str
deriving DecidableEq, Repr

/-- The `users` map. -/
abbrev Users := List (Str × User)

/-- `registerUser(userId, username)` when `Date.now()` is `now`. -/
def registerUser (users : Users) (now : Int) (userId username : Str) : Users :=
  mapSet users userId
    { id := userId
      username := if username = [] then "Unknown".toList else username
      status := "FREE".toList
      credit := 100
      antispam_time := now
      reg_at := now
      role := "FREE".toList }

/-- `getUser(userId)`. -/
def getUser (users : Users) (userId : Str) : Option User :=
  mapGet users userId

/-- `deductCredit(userId, amount)`: the returned flag and the store afterwards. -/
def deductCredit (users : Users) (userId : Str) (amount : Int) : Bool × Users :=
  match mapGet users userId with
  | some user =>
    if user.credit ≥ amount then
      (true, mapSet users userId { user with credit := user.credit - amount })
    else (false, users)
  | none => (false, users)

/-- `setAntispamTime(userId)` when `Date.now()` is `now`. -/
def setAntispamTime (users : Users) (now : Int) (userId : Str) : Users :=
  match mapGet users userId with
  | some user => mapSet users userId { user with antispam_time := now }
  | none => users

/-- `checkAntispam(userId)` when `Date.now()` is `now`. -/
def checkAntispam (users : Users) (now : Int) (userId : Str) : Bool :=
  match mapGet users userId with
  | none => false
  | some user =>
    let timeDiff := now - user.antispam_time
    decide (timeDiff > 10000)

/-- A record of `vbvDatabase`. -/
structure VbvInfo where
  status : Str
  response : Str
deriving DecidableEq, Repr

/-- The `vbvDatabase` map, keyed by BIN. -/
abbrev VbvDb := List (Str × VbvInfo)

/-- `getVbvInfo(bin)`. -/
def getVbvInfo (db : VbvDb) (bin : Str) : Option VbvInfo :=
  mapGet db bin

/-- The text written to `vbvbin.txt`: one `bin|status|response` per record. -/
def vbvFileContent (db : VbvDb) : Str :=
  join ['\n'] (db.map fun e => e.1 ++ '|' :: e.2.status ++ '|' :: e.2.response)

/-- `addVbvToken(token)`: the flag, the table and, when written, the new file
content. -/
def addVbvToken (db : VbvDb) (token : Str) : Bool × VbvDb × Option Str :=
  match split '|' token with
  | bin :: status :: response :: _ =>
    let db := mapSet db bin { status := status, response := response }
    (true, db, some (vbvFileContent db))
  | _ => (false, db, none)

/-- `removeVbvToken(bin)`: the flag, the table and, when written, the new file
content. -/
def removeVbvToken (db : VbvDb) (bin : Str) : Bool × VbvDb × Option Str :=
  if (mapGet db bin).isSome then
    let db := mapDelete db bin
    (true, db, some (vbvFileContent db))
  else (false, db, none)

/-- The `forEach` of `loadVbvDatabase`: every line whose trimmed text has at
least three pipe-separated fields sets a record. -/
def loadVbvLines (db : VbvDb) (lines : List Str) : VbvDb :=
  lines.foldl
    (fun db line =>
      match split '|' (trim line) with
      | p0 :: p1 :: p2 :: _ => mapSet db p0 { status := p1, response := p2 }
      | _ => db)
    db

/-- `loadVbvDatabase()` on the table `db`; `file` is the content of
`vbvbin.txt`, `none` when the file does not exist. -/
def loadVbvDatabase (db : VbvDb) : Option Str → VbvDb
  | none => db
  | some data => loadVbvLines db (split '\n' data)

/-- A record of `binDatabase`. -/
structure BinInfo where
  country : Str
  flag : Str
  vendor : Str
  type : Str
  level : Str
  bank_name : Str
deriving DecidableEq, Repr

/-- The `binDatabase` map. -/
abbrev BinDb := List (Str × BinInfo)

/-- `value || fallback` on strings. -/
def orElse (value fallback : Str) : Str :=
  if value = [] then fallback else value

/-- `getBinInfo(bin)`: brand, type, level, bank, country, flag, currency. -/
def getBinInfo (db : BinDb) (bin : Str) : List Str :=
  match mapGet db bin with
  | some binInfo =>
    [orElse binInfo.vendor "Unknown".toList, orElse binInfo.type "Unknown".toList,
     orElse binInfo.level "Unknown".toList, orElse binInfo.bank_name "Unknown".toList,
     orElse binInfo.country "Unknown".toList, orElse binInfo.flag "🏳️".toList,
     "Unknown".toList]
  | none =>
    ["Unknown".toList, "Unknown".toList, "Unknown".toList, "Unknown".toList,
     "Unknown".toList, "🏳️".toList, "Unknown".toList]

/-! ## `src/config.js`: card extraction -/

/-- The longest run of at most `max` leading digits of `s`, and what follows. -/
def takeDigits : Nat → Str → Str × Str
  | 0, s => ([], s)
  | _ + 1, [] => ([], [])
  | max + 1, c :: rest =>
    if c.isDigit then
      let (ds, tail) := takeDigits max rest
      (c :: ds, tail)
    else ([], c :: rest)

/-- The pattern piece `\|?`. -/
def optPipe : Str → Str
  | '|' :: rest => rest
  | s => s

/-- An optional group `(\d{lo,hi})?`: the captured digits (`none` when the
group does not take part) and what follows. -/
def optDigits (lo hi : Nat) (s : Str) : Option Str × Str :=
  let (ds, tail) := takeDigits hi s
  if ds.length < lo then (none, s) else (some ds, tail)

/-- The value of `extractCC`: `cc`, `mes`, `ano`, `cvv`. -/
structure CcData where
  cc : Str
  mes : Str
  ano : Str
  cvv : Str
deriving DecidableEq, Repr

/-- The pattern `(\d{4,6})\|?(\d{1,2})?\|?(\d{2,4})?\|?(\d{3,4})?` tried at the
start of `s`.  Every piece after the first group may match nothing, so the
greedy choice at each piece is the one the matcher keeps. -/
def matchHere (s : Str) : Option CcData :=
  let (g1, tail) := takeDigits 6 s
  if g1.length < 4 then none
  else
    let (g2, tail) := optDigits 1 2 (optPipe tail)
    let (g3, tail) := optDigits 2 4 (optPipe tail)
    let (g4, _) := optDigits 3 4 (optPipe tail)
    some { cc := g1, mes := g2.getD "None".toList, ano := g3.getD "None".toList,
           cvv := g4.getD "None".toList }

/-- `extractCC(text)`: the leftmost match, `none` for `null`. -/
def extractCC : Str → Option CcData
  | [] => none
  | c :: rest =>
    match matchHere (c :: rest) with
    | some data => some data
    | none => extractCC rest

/-! ## More string helpers used by the entry points -/

/-- `s.toLowerCase()`; letters outside ASCII are left as they are, which no
command name can tell apart. -/
def toLowerCase (s : Str) : Str :=
  s.map Char.toLower

/-- `s.replace(pat, "")` for a non-empty text `pat`: the first occurrence is
removed. -/
def removeFirst (pat : Str) : Str → Str
  | [] => []
  | c :: rest =>
    if pat.isPrefixOf (c :: rest) then (c :: rest).drop pat.length
    else c :: removeFirst pat rest

/-- Value of a digit of `parseInt` in the given radix. -/
def digitValue (radix : Nat) (c : Char) : Option Nat :=
  let v :=
    if c.isDigit then some (c.toNat - 48)
    else if 'a'.toNat ≤ c.toNat ∧ c.toNat ≤ 'f'.toNat then some (c.toNat - 'a'.toNat + 10)
    else if 'A'.toNat ≤ c.toNat ∧ c.toNat ≤ 'F'.toNat then some (c.toNat - 'A'.toNat + 10)
    else none
  match v with
  | some d => if d < radix then some d else none
  | none => none

/-- The digits of `parseInt`: the longest run of leading digits is folded into
`acc`; `seen` tells whether a digit was read. -/
def parseDigits (radix : Nat) : Str → Nat → Bool → Option Nat
  | [], acc, seen => if seen then some acc else none
  | c :: rest, acc, seen =>
    match digitValue radix c with
    | some d => parseDigits radix rest (acc * radix + d) true
    | none => if seen then some acc else none

/-- `parseInt(s)`, `none` for `NaN`: leading white space, a sign, a `0x`
marker, then digits. -/
def parseInt (s : Str) : Option Int :=
  let s := s.dropWhile isWhiteSpace
  let (negative, s) :=
    match s with
    | '-' :: rest => (true, rest)
    | '+' :: rest => (false, rest)
    | _ => (false, s)
  let (radix, s) :=
    match s with
    | '0' :: 'x' :: rest => (16, rest)
    | '0' :: 'X' :: rest => (16, rest)
    | _ => (10, s)
  match parseDigits radix s 0 false with
  | some n => some (if negative then -(n : Int) else (n : Int))
  | none => none

/-! ## `src/index.js`: the ledger helpers -/

/-- An account record of `usersDb`. -/
structure Account where
  id : Str
  username : Str
  firstName : Str
  credits : Int
  status : Str
  registeredAt : Int
  lastUsed : Int
deriving DecidableEq, Repr

/-- The `usersDb` object. -/
abbrev UsersDb := List (Str × Account)

/-- `createUser(userId, username, firstName)` of `src/index.js` when the
clock reads `now`. -/
def createUser (usersDb : UsersDb) (now : Int) (userId username firstName : Str) : UsersDb :=
  mapSet usersDb userId
    { id := userId
      username := orElse username "N/A".toList
      firstName := orElse firstName "User".toList
      credits := 100
      status := "FREE".toList
      registeredAt := now
      lastUsed := now }

/-- `deductCredits(userId, amount)` of `src/index.js`. -/
def deductCredits (usersDb : UsersDb) (userId : Str) (amount : Int) : UsersDb :=
  match mapGet usersDb userId with
  | some account =>
    mapSet usersDb userId { account with credits := max 0 (account.credits - amount) }
  | none => usersDb

/-! ## `src/backup/index.js`: the world the handlers run in -/

/-- Outcome category of the gate simulator. -/
inductive GateStatus where
  | approved
  | declined
deriving DecidableEq, Repr

/-- An element of `responses` in `simulatePaymentGate`. -/
structure GateReply where
  status : GateStatus
  response : Str
  hits : Str
deriving DecidableEq, Repr

/-- The texts the bot sends, one constructor for each template of
`src/backup/index.js`, with the values interpolated into it, and (the
constructors named after a `...Command` handler) for the templates of
`src/index.js` that differ from them.  Elapsed-time figures are left out. -/
inductive Msg where
  | registerFirst
  | unknownCommand (command : Str)
  | errorOccurred
  | startFrame (i : Nat)
  | welcome (senderName : Str)
  | alreadyRegistered
  | registrationSuccessful (senderName userId : Str)
  | pingChecking
  | pingResult (ms : Int)
  | genUsage
  | genLimit
  | generating
  | genResult (cc : Str) (amount : Int) (codeBlocks : Str) (binDetails : List Str)
      (senderName : Str)
  | genCaption (cc : Str) (amount : Int) (binDetails : List Str) (senderName : Str)
  | binUsage
  | binResult (bin : Str) (binDetails : List Str)
  | idInfo (senderName userId chat : Str)
  | antispamActive
  | needOneCredit
  | noCcFound (gatewayName command : Str)
  | checking (frame : Nat) (fullcc gatewayName : Str)
  | gateResult (result : GateReply) (fullcc gatewayName : Str) (binDetails : List Str)
  | noValidCards
  | massLimit10
  | massLimit25 (provided : Nat)
  | needCredits (need : Nat) (balance : Int)
  | massProcessing (gatewayName : Str) (amount : Nat) (senderName : Str)
  | massGateResults (gatewayName : Str) (entries : List (Str × GateReply)) (final : Bool)
  | processing
  | unsupportedCard
  | vbvResult (passed : Bool) (responseMessage fullcc : Str) (binDetails : List Str)
  | massVbvResults (amount : Nat) (entries : List (Str × Str × Str)) (final : Bool)
  | permissionDenied
  | addVbvUsage
  | addVbvOk (token : Str)
  | addVbvInvalid
  | rmVbvUsage
  | rmVbvOk (bin : Str)
  | rmVbvNotFound (bin : Str)
  | genCommandUsage
  | genCommandError
  | binCommandUsage
  | binCommandResult (bin : Str) (binDetails : List Str)
  | binCommandError
  | permissionDeniedCommand
  | rmVbvCommandUsage
  | rmVbvCommandOk (bin : Str)
  | rmVbvCommandNotFound (bin : Str)
deriving DecidableEq, Repr

/-- What a handler does to the outside, in order: transport calls (`send` a
new message, `edit` or `delete` the message with the given key, send a
`document`) and calls of the gate simulator and of the VBV table. -/
inductive Event where
  | send (chat : Str) (msg : Msg)
  | edit (chat : Str) (key : Nat) (msg : Msg)
  | delete (chat : Str) (key : Nat)
  | document (chat : Str) (content fileName : Str) (caption : Msg)
  | gate (card gateway : Str)
  | vbv (bin : Str)
deriving DecidableEq, Repr

/-- The state of the process and of its surroundings.  `users`,
`vbvDatabase`, `binDatabase` and `ownerNumbers` are the stores of
`src/config.js`; `usersDb` and `ownerIds` (the `OWNER_ID` list of
`FILES/config.json`) are those of `src/index.js`, whose JSON copy of `usersDb`
on disk is left out.  `rnd`, `lag` and `net`
are what the surroundings will answer: random values, the extra delay of each
suspension, and whether each transport call is delivered (`false` makes the
call throw; an exhausted list delivers). -/
structure World where
  users : Users
  vbvDatabase : VbvDb
  binDatabase : BinDb
  ownerNumbers : List Str
  usersDb : UsersDb
  ownerIds : List Str
  files : List (Str × Str)
  now : Int
  rnd : Rand
  lag : List Nat
  net : List Bool
  log : List Event
deriving DecidableEq, Repr

/-- How a run ends: normally with a value, by a thrown exception, or never
(the fuel of a `while (true)` loop ran out). -/
inductive Res (α : Type) where
  | ok (value : α) (w : World)
  | threw (w : World)
  | diverged
deriving DecidableEq, Repr

/-- A computation over the world. -/
def M (α : Type) : Type := World → Res α

/-- Sequencing: an exception or a divergence ends the run. -/
def M.bind {α β : Type} (x : M α) (f : α → M β) : M β := fun w =>
  match x w with
  | .ok a w => f a w
  | .threw w => .threw w
  | .diverged => .diverged

instance : Monad M where
  pure a := fun w => .ok a w
  bind := M.bind

/-- The current world. -/
def getW : M World := fun w => .ok w w

/-- Replace the world. -/
def setW (w : World) : M Unit := fun _ => .ok () w

/-- A thrown exception. -/
def throwM {α : Type} : M α := fun w => .threw w

/-- A loop that never ends. -/
def divergeM {α : Type} : M α := fun _ => .diverged

/-- A suspension of at least `ms` milliseconds: the clock moves on. -/
def sleep (ms : Nat) : M Unit := fun w =>
  .ok () { w with now := w.now + ms + w.lag.headD 0, lag := w.lag.tail }

/-- `Math.floor(Math.random() * n)` on the world's random source. -/
def drawM (n : Nat) : M Nat := fun w =>
  let (r, rnd) := draw n w.rnd
  .ok r { w with rnd := rnd }

/-- Record an event. -/
def logEvent (e : Event) : M Unit := fun w =>
  .ok () { w with log := w.log ++ [e] }

/-- An awaited transport call: time passes, the call is recorded, and it
either returns the key of the message or throws. -/
def transport (e : Nat → Event) : M Nat := fun w =>
  let key := w.log.length
  let w1 := { w with now := w.now + w.lag.headD 0, lag := w.lag.tail,
                     log := w.log ++ [e key], net := w.net.tail }
  if w.net.headD true then .ok key w1 else .threw w1

/-- `await sock.sendMessage(from, { text })`. -/
def sendText (chat : Str) (msg : Msg) : M Nat :=
  transport fun _ => .send chat msg

/-- `await sock.sendMessage(from, { text, edit: key })`. -/
def editText (chat : Str) (key : Nat) (msg : Msg) : M Unit := do
  let _ ← transport fun _ => .edit chat key msg

/-- Frames edited into one message, each after a pause of `delay` ms. -/
def editFrames (chat : Str) (key delay : Nat) : List Msg → M Unit
  | [] => pure ()
  | frame :: frames => do
    sleep delay
    editText chat key frame
    editFrames chat key delay frames

/-- `simulatePaymentGate(fullcc, gateway)`. -/
def simulatePaymentGate (fullcc gateway : Str) : M GateReply := do
  logEvent (.gate fullcc gateway)
  let delay ← drawM 2000
  sleep (delay + 1000)
  let p ← drawM 10
  if p = 0 then
    pure { status := .approved, response := "1000: Approved".toList, hits := "YES".toList }
  else
    let k ← drawM 3
    match k with
    | 0 => pure { status := .declined, response := "Insufficient Funds".toList,
                  hits := "NO".toList }
    | 1 => pure { status := .declined, response := "Card Declined".toList,
                  hits := "NO".toList }
    | _ => pure { status := .declined, response := "Invalid Card".toList,
                  hits := "NO".toList }

/-- `try { x } catch (error) { h }`. -/
def tryCatch {α : Type} (x h : M α) : M α := fun w =>
  match x w with
  | .threw w => h w
  | r => r

/-- The gateway name of a gate command: `Adyen Auth` for `first`, else
`Braintree Auth 3`. -/
def gatewayNameOf (command first : Str) : Str :=
  if command = first then "Adyen Auth".toList else "Braintree Auth 3".toList

/-- The string `cc|mes|ano|cvv` built from an extraction. -/
def fullccOf (d : CcData) : Str :=
  d.cc ++ '|' :: d.mes ++ '|' :: d.ano ++ '|' :: d.cvv

/-- The card list of the mass commands: one extraction for each line of the
message that has a match, in line order. -/
def extractCards (messageText : Str) : List Str :=
  (split '\n' messageText).filterMap fun line => (extractCC line).map fullccOf

/-- `handleStart`. -/
def handleStart (chat senderName : Str) : M Unit := do
  let key ← sendText chat (.startFrame 0)
  editFrames chat key 200 ((List.range 9).map fun i => .startFrame (i + 1))
  sleep 500
  editText chat key (.welcome senderName)

/-- `handleRegister`. -/
def handleRegister (chat senderName userId : Str) : M Unit := do
  let w ← getW
  match getUser w.users userId with
  | some _ =>
    let _ ← sendText chat .alreadyRegistered
  | none =>
    setW { w with users := registerUser w.users w.now userId senderName }
    let _ ← sendText chat (.registrationSuccessful senderName userId)

/-- `handlePing`. -/
def handlePing (chat : Str) : M Unit := do
  let start := (← getW).now
  let key ← sendText chat .pingChecking
  let stop := (← getW).now
  editText chat key (.pingResult (stop - start))

/-- `handleGen`; `fuel` bounds the candidates tried for each card. -/
def handleGen (fuel : Nat) (chat messageText senderName userId : Str) : M Unit := do
  match split ' ' messageText with
  | _ :: ccsdata :: more =>
    let ccParts := split '|' ccsdata
    let cc := ccParts.headD []
    let mes := orElse (ccParts.getD 1 []) "None".toList
    let ano := orElse (ccParts.getD 2 []) "None".toList
    let cvv := orElse (ccParts.getD 3 []) "None".toList
    let amount : Int :=
      match more with
      | [] => 10
      | third :: _ => (parseInt third).getD 10
    if amount > 10000 then
      let _ ← sendText chat .genLimit
    else
      let deleteMsg ← sendText chat .generating
      let w ← getW
      let binDetails := getBinInfo w.binDatabase (substring0 6 cc)
      match luhnCardGenerator fuel cc mes ano cvv amount w.rnd with
      | none => divergeM
      | some (allCards, rnd) =>
        setW { w with rnd := rnd }
        let _ ← transport fun _ => .delete chat deleteMsg
        if amount = 10 then
          let _ ← sendText chat
            (.genResult cc amount (generateCodeBlocks allCards) binDetails senderName)
        else
          let filename :=
            "downloads/".toList ++ intToStr amount ++ "x_CC_Generated_By_".toList ++ userId ++
              ".txt".toList
          let w ← getW
          setW { w with files := mapSet w.files filename allCards }
          let w ← getW
          let _ ← transport fun _ =>
            .document chat ((mapGet w.files filename).getD [])
              (intToStr amount ++ "x_CC_Generated.txt".toList)
              (.genCaption cc amount binDetails senderName)
          let w ← getW
          setW { w with files := mapDelete w.files filename }
  | _ =>
    let _ ← sendText chat .genUsage

/-- `handleBin`. -/
def handleBin (chat messageText : Str) : M Unit := do
  match split ' ' messageText with
  | _ :: second :: _ =>
    let bin := substring0 6 second
    let w ← getW
    let _ ← sendText chat (.binResult bin (getBinInfo w.binDatabase bin))
  | _ =>
    let _ ← sendText chat .binUsage

/-- `handleId`. -/
def handleId (chat userId senderName : Str) : M Unit := do
  let _ ← sendText chat (.idInfo senderName userId chat)

/-- The last two statements of every check handler:
`deductCredit(userId, amount); setAntispamTime(userId);`. -/
def chargeAndTouch (userId : Str) (amount : Int) : M Unit := do
  let w ← getW
  setW { w with users := (deductCredit w.users userId amount).2 }
  let w ← getW
  setW { w with users := setAntispamTime w.users w.now userId }

/-- `handleSingleGate`. -/
def handleSingleGate (chat messageText userId command : Str) : M Unit := do
  let w ← getW
  let user := getUser w.users userId
  if !checkAntispam w.users w.now userId then
    let _ ← sendText chat .antispamActive
  else
    match user with
    | none => throwM
    | some user =>
      if user.credit < 1 then
        let _ ← sendText chat .needOneCredit
      else
        let gatewayName := gatewayNameOf command "/ad".toList
        match extractCC messageText with
        | none =>
          let _ ← sendText chat (.noCcFound gatewayName command)
        | some ccData =>
          let fullcc := fullccOf ccData
          let checkMsg ← sendText chat (.checking 0 fullcc gatewayName)
          editFrames chat checkMsg 500
            [.checking 1 fullcc gatewayName, .checking 2 fullcc gatewayName]
          let result ← simulatePaymentGate fullcc gatewayName
          let w ← getW
          let binDetails := getBinInfo w.binDatabase (substring0 6 ccData.cc)
          editText chat checkMsg (.gateResult result fullcc gatewayName binDetails)
          chargeAndTouch userId 1

/-- The card loop of `handleMassGate`: `i` cards done, `resultText` holding
their entries; returns the entries of all cards. -/
def massGateLoop (chat gatewayName : Str) (key total : Nat) :
    Nat → List Str → List (Str × GateReply) → M (List (Str × GateReply))
  | _, [], resultText => pure resultText
  | i, card :: cards, resultText => do
    let result ← simulatePaymentGate card gatewayName
    let resultText := resultText ++ [(card, result)]
    if (i + 1) % 3 = 0 ∨ i + 1 = total then
      editText chat key (.massGateResults gatewayName resultText false)
    sleep 1000
    massGateLoop chat gatewayName key total (i + 1) cards resultText

/-- `handleMassGate`. -/
def handleMassGate (chat messageText senderName userId command : Str) : M Unit := do
  let w ← getW
  let user := getUser w.users userId
  let cards := extractCards messageText
  if cards.length = 0 then
    let _ ← sendText chat .noValidCards
  else if cards.length > 10 then
    let _ ← sendText chat .massLimit10
  else
    match user with
    | none => throwM
    | some user =>
      if user.credit < cards.length then
        let _ ← sendText chat (.needCredits cards.length user.credit)
      else
        let gatewayName := gatewayNameOf command "/mad".toList
        let processingMsg ← sendText chat (.massProcessing gatewayName cards.length senderName)
        let resultText ← massGateLoop chat gatewayName processingMsg cards.length 0 cards []
        editText chat processingMsg (.massGateResults gatewayName resultText true)
        chargeAndTouch userId cards.length

/-- `getVbvInfo(bin)` as the handlers call it: the lookup is recorded. -/
def lookupVbv (bin : Str) : M (Option VbvInfo) := do
  logEvent (.vbv bin)
  let w ← getW
  pure (getVbvInfo w.vbvDatabase bin)

/-- `handleVbv`. -/
def handleVbv (chat messageText userId : Str) : M Unit := do
  let w ← getW
  let user := getUser w.users userId
  if !checkAntispam w.users w.now userId then
    let _ ← sendText chat .antispamActive
  else
    match user with
    | none => throwM
    | some user =>
      if user.credit < 1 then
        let _ ← sendText chat .needOneCredit
      else
        match extractCC messageText with
        | none =>
          let _ ← sendText chat (.noCcFound "3DS Lookup".toList "/vbv".toList)
        | some ccData =>
          let fullcc := fullccOf ccData
          let bin := substring0 6 ccData.cc
          if startsWith ccData.cc "3".toList then
            let _ ← sendText chat .unsupportedCard
          else
            let processingMsg ← sendText chat .processing
            let vbvInfo ← lookupVbv bin
            let w ← getW
            let binDetails := getBinInfo w.binDatabase bin
            let (passed, responseMessage) :=
              match vbvInfo with
              | some info => (!includes info.status "3D TRUE".toList, info.response)
              | none => (false, "Lookup Card Error".toList)
            editText chat processingMsg (.vbvResult passed responseMessage fullcc binDetails)
            chargeAndTouch userId 1

/-- The card loop of `handleMassVbv`: `i` cards done, `resultText` holding
their entries (card, status, response). -/
def massVbvLoop (chat : Str) (key total : Nat) :
    Nat → List Str → List (Str × Str × Str) → M (List (Str × Str × Str))
  | _, [], resultText => pure resultText
  | i, card :: cards, resultText => do
    let bin := substring0 6 ((split '|' card).headD [])
    let (status, response) ←
      if startsWith card "3".toList then
        pure ("Card Error".toList, "Unsupported card type.".toList)
      else do
        match ← lookupVbv bin with
        | some info => pure (info.status, info.response)
        | none => pure ("Error".toList, "Lookup Card Error".toList)
    let resultText := resultText ++ [(card, status, response)]
    if (i + 1) % 5 = 0 ∨ i + 1 = total then
      editText chat key (.massVbvResults total resultText false)
    sleep 500
    massVbvLoop chat key total (i + 1) cards resultText

/-- `handleMassVbv`. -/
def handleMassVbv (chat messageText userId : Str) : M Unit := do
  let w ← getW
  let user := getUser w.users userId
  let cards := extractCards messageText
  if cards.length = 0 then
    let _ ← sendText chat .noValidCards
  else if cards.length > 25 then
    let _ ← sendText chat (.massLimit25 cards.length)
  else
    match user with
    | none => throwM
    | some user =>
      if user.credit < cards.length then
        let _ ← sendText chat (.needCredits cards.length user.credit)
      else
        let processingMsg ← sendText chat .processing
        let resultText ← massVbvLoop chat processingMsg cards.length 0 cards []
        editText chat processingMsg (.massVbvResults cards.length resultText true)
        chargeAndTouch userId cards.length

/-- The file `vbvbin.txt`. -/
def vbvFile : Str := "vbvbin.txt".toList

/-- `handleAddVbv`. -/
def handleAddVbv (chat messageText userId : Str) : M Unit := do
  let w ← getW
  if !w.ownerNumbers.contains userId then
    let _ ← sendText chat .permissionDenied
  else
    match split ' ' messageText with
    | _ :: second :: more =>
      let token := join [' '] (second :: more)
      match addVbvToken w.vbvDatabase token with
      | (true, db, content) =>
        setW { w with vbvDatabase := db,
                      files := match content with
                        | some text => mapSet w.files vbvFile text
                        | none => w.files }
        let _ ← sendText chat (.addVbvOk token)
      | (false, _, _) =>
        let _ ← sendText chat .addVbvInvalid
    | _ =>
      let _ ← sendText chat .addVbvUsage

/-- `handleRemoveVbv`. -/
def handleRemoveVbv (chat messageText userId : Str) : M Unit := do
  let w ← getW
  if !w.ownerNumbers.contains userId then
    let _ ← sendText chat .permissionDenied
  else
    match split ' ' messageText with
    | _ :: bin :: _ =>
      match removeVbvToken w.vbvDatabase bin with
      | (true, db, content) =>
        setW { w with vbvDatabase := db,
                      files := match content with
                        | some text => mapSet w.files vbvFile text
                        | none => w.files }
        let _ ← sendText chat (.rmVbvOk bin)
      | (false, _, _) =>
        let _ ← sendText chat (.rmVbvNotFound bin)
    | _ =>
      let _ ← sendText chat .rmVbvUsage

/-- The first word of the message in lower case:
`messageText.split(' ')[0].toLowerCase()`. -/
def commandOf (messageText : Str) : Str :=
  toLowerCase ((split ' ' messageText).headD [])

/-- The `switch (command)` of `handleCommand`. -/
def dispatch (fuel : Nat) (chat messageText senderName userId command : Str) : M Unit :=
  if command = "/start".toList then handleStart chat senderName
  else if command = "/register".toList then handleRegister chat senderName userId
  else if command = "/ping".toList then handlePing chat
  else if command = "/gen".toList then handleGen fuel chat messageText senderName userId
  else if command = "/bin".toList then handleBin chat messageText
  else if command = "/id".toList then handleId chat userId senderName
  else if command = "/ad".toList ∨ command = "/b4".toList then
    handleSingleGate chat messageText userId command
  else if command = "/mad".toList ∨ command = "/mb4".toList then
    handleMassGate chat messageText senderName userId command
  else if command = "/vbv".toList then handleVbv chat messageText userId
  else if command = "/mvbv".toList then handleMassVbv chat messageText userId
  else if command = "/addvbv".toList then handleAddVbv chat messageText userId
  else if command = "/rmvbv".toList then handleRemoveVbv chat messageText userId
  else do
    let _ ← sendText chat (.unknownCommand command)

/-- `handleCommand`: the registration check, then the `switch`. -/
def handleCommand (fuel : Nat) (chat messageText senderName userId : Str) : M Unit := do
  let command := commandOf messageText
  let w ← getW
  if command.drop 1 ≠ "start".toList ∧ command.drop 1 ≠ "register".toList ∧
      (getUser w.users userId).isNone then
    let _ ← sendText chat .registerFirst
  else
    dispatch fuel chat messageText senderName userId command

/-- An inbound message event.  `participant` and `pushName` are empty when
the event does not carry them; `text` is the conversation text or `""`. -/
structure InMsg where
  hasMessage : Bool
  fromMe : Bool
  remoteJid : Str
  participant : Str
  pushName : Str
  text : Str
deriving DecidableEq, Repr

/-- The user id the backup entry point derives from an event. -/
def userIdOf (m : InMsg) : Str :=
  removeFirst "@s.whatsapp.net".toList (orElse m.participant m.remoteJid)

/-- The `messages.upsert` callback of `src/backup/index.js`. -/
def onMessage (fuel : Nat) (m : InMsg) : M Unit :=
  if !m.hasMessage || m.fromMe then pure ()
  else if startsWith m.text "/".toList then
    tryCatch
      (handleCommand fuel m.remoteJid m.text (orElse m.pushName "User".toList) (userIdOf m))
      (do let _ ← sendText m.remoteJid .errorOccurred)
  else pure ()

/-! ## `src/backup/index.js`: the gate handlers with their suspension points

The `messages.upsert` listener is an `async` callback that nobody awaits: a
second event starts its own activation while the first is suspended at an
`await`.  Here an activation is cut at its `await`s, so that the stretches of
several activations can be run in any order the event loop may choose.  The
clock adds up the pauses of all activations. -/

/-- What is left of an activation of an `async` function.  `next after rest`:
the code up to the next `await` (the awaited call included) takes the world `w`
to `after w`, and `rest w` is what runs once the activation is resumed. -/
inductive Activation where
  | done
  | threw
  | diverged
  | next (after : World → World) (rest : World → Activation)

/-- An activation that, once resumed, runs `m` (code without an `await` in it, up
to and including the next awaited call) and is then what `m` returns. -/
def Activation.resume (m : M Activation) : Activation :=
  .next
    (fun w =>
      match m w with
      | .ok _ w' => w'
      | .threw w' => w'
      | .diverged => w)
    (fun w =>
      match m w with
      | .ok rest _ => rest
      | .threw _ => .threw
      | .diverged => .diverged)

/-- One turn of the event loop for an activation: its code up to its next
`await`. -/
def Activation.step : Activation → World → Activation × World
  | .next after rest, w => (rest w, after w)
  | a, w => (a, w)

/-- The activation has returned. -/
def Activation.isDone : Activation → Bool
  | .done => true
  | _ => false

/-- The activation run to its end with nothing else in between. -/
def Activation.run : Activation → M Unit
  | .done => pure ()
  | .threw => throwM
  | .diverged => divergeM
  | .next after rest => fun w => Activation.run (rest w) (after w)

/-- The turns of the event loop: `schedule` lists, in order, which activation
of `pool` runs its next stretch. -/
def runSchedule : List Nat → List Activation → World → List Activation × World
  | [], pool, w => (pool, w)
  | i :: schedule, pool, w =>
    let (a, w) := (pool.getD i .done).step w
    runSchedule schedule (pool.set i a) w

/-- The loop of `handleSingleGate` over the frames after the first, followed by
`k`: `await` of the timer, then `await` of the edit. -/
def editFramesAsync (chat : Str) (key delay : Nat) : List Msg → Activation → Activation
  | [], k => k
  | frame :: frames, k =>
    .resume do
      sleep delay
      pure (.resume do
        editText chat key frame
        pure (editFramesAsync chat key delay frames k))

/-- The call `await simulatePaymentGate(fullcc, gateway)` followed by `k`: the
function runs up to its timer, and draws the response when the timer has
fired. -/
def simulatePaymentGateAsync (fullcc gateway : Str) (k : GateReply → Activation) :
    Activation :=
  .resume do
    logEvent (.gate fullcc gateway)
    let delay ← drawM 2000
    sleep (delay + 1000)
    pure (.resume do
      let p ← drawM 10
      if p = 0 then
        pure (k { status := .approved, response := "1000: Approved".toList,
                  hits := "YES".toList })
      else
        let i ← drawM 3
        match i with
        | 0 => pure (k { status := .declined, response := "Insufficient Funds".toList,
                         hits := "NO".toList })
        | 1 => pure (k { status := .declined, response := "Card Declined".toList,
                         hits := "NO".toList })
        | _ => pure (k { status := .declined, response := "Invalid Card".toList,
                         hits := "NO".toList }))

/-- The call `handleSingleGate(...)`: the code up to the first `await`, giving
what is left of the activation. -/
def handleSingleGateAsync (chat messageText userId command : Str) : M Activation := do
  let w ← getW
  let user := getUser w.users userId
  if !checkAntispam w.users w.now userId then
    let _ ← sendText chat .antispamActive
    pure .done
  else
    match user with
    | none => throwM
    | some user =>
      if user.credit < 1 then
        let _ ← sendText chat .needOneCredit
        pure .done
      else
        let gatewayName := gatewayNameOf command "/ad".toList
        match extractCC messageText with
        | none =>
          let _ ← sendText chat (.noCcFound gatewayName command)
          pure .done
        | some ccData =>
          let fullcc := fullccOf ccData
          let checkMsg ← sendText chat (.checking 0 fullcc gatewayName)
          pure (editFramesAsync chat checkMsg 500
            [.checking 1 fullcc gatewayName, .checking 2 fullcc gatewayName]
            (simulatePaymentGateAsync fullcc gatewayName fun result =>
              .resume do
                let w ← getW
                let binDetails := getBinInfo w.binDatabase (substring0 6 ccData.cc)
                editText chat checkMsg (.gateResult result fullcc gatewayName binDetails)
                pure (.resume do
                  chargeAndTouch userId 1
                  pure .done)))

/-- The card loop of `handleMassGate`, followed by `k` on the entries of all
cards. -/
def massGateLoopAsync (chat gatewayName : Str) (key total : Nat) :
    Nat → List Str → List (Str × GateReply) → (List (Str × GateReply) → Activation) →
      Activation
  | _, [], resultText, k => k resultText
  | i, card :: cards, resultText, k =>
    simulatePaymentGateAsync card gatewayName fun result =>
      if (i + 1) % 3 = 0 ∨ i + 1 = total then
        .resume do
          editText chat key
            (.massGateResults gatewayName (resultText ++ [(card, result)]) false)
          pure (.resume do
            sleep 1000
            pure (massGateLoopAsync chat gatewayName key total (i + 1) cards
              (resultText ++ [(card, result)]) k))
      else
        .resume do
          sleep 1000
          pure (massGateLoopAsync chat gatewayName key total (i + 1) cards
            (resultText ++ [(card, result)]) k)

/-- The call `handleMassGate(...)`: the code up to the first `await`, giving
what is left of the activation. -/
def handleMassGateAsync (chat messageText senderName userId command : Str) :
    M Activation := do
  let w ← getW
  let user := getUser w.users userId
  let cards := extractCards messageText
  if cards.length = 0 then
    let _ ← sendText chat .noValidCards
    pure .done
  else if cards.length > 10 then
    let _ ← sendText chat .massLimit10
    pure .done
  else
    match user with
    | none => throwM
    | some user =>
      if user.credit < cards.length then
        let _ ← sendText chat (.needCredits cards.length user.credit)
        pure .done
      else
        let gatewayName := gatewayNameOf command "/mad".toList
        let processingMsg ← sendText chat (.massProcessing gatewayName cards.length senderName)
        pure (massGateLoopAsync chat gatewayName processingMsg cards.length 0 cards []
          fun resultText =>
            .resume do
              editText chat processingMsg (.massGateResults gatewayName resultText true)
              pure (.resume do
                chargeAndTouch userId cards.length
                pure .done))

/-! ## `src/index.js`: handlers -/

/-- `getBinDetails(bin)` as `src/index.js` calls it.  The name is imported from
`./config`, and `src/config.js` exports no `getBinDetails` (its lookup is
`getBinInfo`): the value is `undefined` and the call throws a `TypeError`. -/
def getBinDetails (_bin : Str) : M (List Str) :=
  throwM

/-- `handleRegisterCommand` of `src/index.js`.  `response` is declared with
`const` inside the two branches, so the `sendMessage` statement after them
throws a `ReferenceError` before any call is made; the `catch` logs it. -/
def handleRegisterCommand (_chat senderName userId : Str) : M Unit :=
  tryCatch
    (do
      let w ← getW
      match mapGet w.usersDb userId with
      | some _ => pure ()
      | none =>
        setW { w with usersDb := createUser w.usersDb w.now userId "N/A".toList senderName }
      throwM)
    (pure ())

/-- `handleGenCommand` of `src/index.js`; `fuel` bounds the candidates tried
for each card. -/
def handleGenCommand (fuel : Nat) (chat messageText senderName userId : Str) : M Unit :=
  tryCatch
    (do
      match split ' ' messageText with
      | _ :: ccsdata :: more =>
        let ccParts := split '|' ccsdata
        let cc := ccParts.headD []
        let mes := orElse (ccParts.getD 1 []) "None".toList
        let ano := orElse (ccParts.getD 2 []) "None".toList
        let cvv := orElse (ccParts.getD 3 []) "None".toList
        let amount : Int :=
          match more with
          | [] => 10
          | third :: _ => (parseInt third).getD 10
        if amount > 10000 then
          let _ ← sendText chat .genLimit
        else
          let deleteMsg ← sendText chat .generating
          let binDetails ← getBinDetails (substring0 6 cc)
          let w ← getW
          match luhnCardGenerator fuel cc mes ano cvv amount w.rnd with
          | none => divergeM
          | some (allCards, rnd) =>
            setW { w with rnd := rnd }
            let _ ← transport fun _ => .delete chat deleteMsg
            if amount = 10 then
              let _ ← sendText chat
                (.genResult cc amount (generateCodeBlocks allCards) binDetails senderName)
            else
              let filename :=
                "downloads/".toList ++ intToStr amount ++ "x_CC_Generated_By_".toList ++
                  userId ++ ".txt".toList
              let w ← getW
              setW { w with files := mapSet w.files filename allCards }
              let w ← getW
              let _ ← transport fun _ =>
                .document chat ((mapGet w.files filename).getD [])
                  (intToStr amount ++ "x_CC_Generated.txt".toList)
                  (.genCaption cc amount binDetails senderName)
              let w ← getW
              setW { w with files := mapDelete w.files filename }
      | _ =>
        let _ ← sendText chat .genCommandUsage)
    (do let _ ← sendText chat .genCommandError)

/-- `handleBinCommand` of `src/index.js`. -/
def handleBinCommand (chat messageText : Str) : M Unit :=
  tryCatch
    (do
      match split ' ' messageText with
      | _ :: second :: _ =>
        let bin := substring0 6 second
        let binDetails ← getBinDetails bin
        let _ ← sendText chat (.binCommandResult bin binDetails)
      | _ =>
        let _ ← sendText chat .binCommandUsage)
    (do let _ ← sendText chat .binCommandError)

/-- The file `FILES/vbvbin.txt` of `src/index.js`. -/
def vbvBinFile : Str := "FILES/vbvbin.txt".toList

/-- `isOwner(userId)` of `src/index.js`. -/
def isOwner (w : World) (userId : Str) : Bool :=
  w.ownerIds.contains userId

/-- `handleRemoveVbvCommand` of `src/index.js`; reading a file that does not
exist throws. -/
def handleRemoveVbvCommand (chat messageText userId : Str) : M Unit :=
  tryCatch
    (do
      let w ← getW
      if !isOwner w userId then
        let _ ← sendText chat .permissionDeniedCommand
      else
        match split ' ' messageText with
        | _ :: second :: _ =>
          let binToRemove := trim second
          match mapGet w.files vbvBinFile with
          | none => throwM
          | some data =>
            let vbvData := split '\n' data
            let updatedTokens := vbvData.filter fun line => !startsWith line binToRemove
            if updatedTokens.length = vbvData.length then
              let _ ← sendText chat (.rmVbvCommandNotFound binToRemove)
            else
              setW { w with files := mapSet w.files vbvBinFile (join ['\n'] updatedTokens) }
              let _ ← sendText chat (.rmVbvCommandOk binToRemove)
        | _ =>
          let _ ← sendText chat .rmVbvCommandUsage)
    (pure ())

/-! ## Notions used to state the properties -/

/-- The lines of a text; the empty text has none. -/
def textLines (text : Str) : List Str :=
  if text = [] then [] else split '\n' text

/-- A line of the form `number|month|year|cvv` whose number passes
`checkLuhn`. -/
def isCardLine (line : Str) : Bool :=
  match split '|' line with
  | [number, _, _, _] => checkLuhn number
  | _ => false

/-- A line as `luhnCardGenerator` appends it, before the line feed: four fields
without a pipe, the first passing `checkLuhn`, and no line feed anywhere. -/
def RawLine (l : Str) : Prop :=
  ∃ ccx mesx anox cvvx : Str,
    l = ccx ++ '|' :: (mesx ++ '|' :: (anox ++ '|' :: cvvx)) ∧ checkLuhn ccx = true ∧
      '|' ∉ ccx ∧ '|' ∉ mesx ∧ '|' ∉ anox ∧ '|' ∉ cvvx ∧ '\n' ∉ l

/-- The text built from the lines `ls`, each followed by a line feed. -/
def linesText (ls : List Str) : Str :=
  (ls.map fun l => l ++ ['\n']).flatten

/-- Reference Luhn sum, from the specification's words: the contribution of
the digit `d` standing `i` places from the right.  Every second digit (odd
`i`) is doubled, and a doubled value above 9 is replaced by the sum of its two
digits. -/
def luhnRefTerm (i d : Nat) : Nat :=
  if i % 2 = 1 then
    if 2 * d > 9 then (2 * d) / 10 + (2 * d) % 10 else 2 * d
  else d

/-- Reference Luhn sum of digits listed from the rightmost one, the first of
them standing `i` places from the right. -/
def luhnRefWalk : Nat → List Nat → Nat
  | _, [] => 0
  | i, d :: rest => luhnRefTerm i d + luhnRefWalk (i + 1) rest

/-- Reference Luhn sum of a digit sequence written left to right. -/
def luhnRefSum (digits : List Nat) : Nat :=
  luhnRefWalk 0 digits.reverse

/-- The digit values of a string of decimal digits. -/
def digitsOf (s : Str) : List Nat :=
  s.map fun c => c.toNat - 48

/-- The account of user `u` with the given balance and cooldown timestamp,
used in the examples. -/
def sampleUser (credit antispam_time : Int) : User :=
  { id := "u".toList
    username := "Al".toList
    status := "FREE".toList
    credit := credit
    antispam_time := antispam_time
    reg_at := 0
    role := "FREE".toList }

/-- The `usersDb` record of user `u` with the given balance, used in the
examples. -/
def sampleAccount (credits : Int) : Account :=
  { id := "u".toList
    username := "N/A".toList
    firstName := "Al".toList
    credits := credits
    status := "FREE".toList
    registeredAt := 0
    lastUsed := 0 }

/-- The check commands: the gate and VBV checks, single and mass. -/
def isCheckCommand (command : Str) : Bool :=
  command = "/ad".toList || command = "/b4".toList || command = "/mad".toList ||
  command = "/mb4".toList || command = "/vbv".toList || command = "/mvbv".toList

/-- The world a run ends in, when it ends. -/
def Res.world? {α : Type} : Res α → Option World
  | .ok _ w => some w
  | .threw w => some w
  | .diverged => none

/-- A result meets `Q` when it is a value, `E` when it is an exception and `D`
when the run never ends. -/
def Res.sat {α : Type} (Q : α → World → Prop) (E : World → Prop) (D : Prop) : Res α → Prop
  | .ok a w => Q a w
  | .threw w => E w
  | .diverged => D

/-- From a world meeting `P` the computation `x` ends as `Res.sat Q E D`
says. -/
def Triple {α : Type} (P : World → Prop) (x : M α) (Q : α → World → Prop) (E : World → Prop)
    (D : Prop) : Prop :=
  ∀ w, P w → (x w).sat Q E D

/-- A property of worlds that only looks at the accounts and at the transport
answers still to come, and survives the loss of some of those answers. -/
def Stable (I : World → Prop) : Prop :=
  ∀ w w' : World, I w → w'.users = w.users → (∀ b ∈ w'.net, b ∈ w.net) → I w'

/-- The worlds an exception of the transport leaves behind. -/
def Exc (I : World → Prop) (w' : World) : Prop :=
  I w' ∧ ∃ w, I w ∧ w.net.headD true = false

/-- Every transport call still to come is delivered. -/
def Smooth (w : World) : Prop :=
  ∀ b ∈ w.net, b = true

/-- The account stores reachable from the empty store.  A step is one
inbound event handled to its end, normally or by an exception, in any world
that holds the store. -/
inductive ReachableUsers : Users → Prop where
  | empty : ReachableUsers []
  | step (w w' : World) (fuel : Nat) (m : InMsg) :
      ReachableUsers w.users → (onMessage fuel m w).world? = some w' → ReachableUsers w'.users

/-- Every account holds between 0 and 100 credits. -/
def CreditsBounded (users : Users) : Prop :=
  ∀ id u, getUser users id = some u → 0 ≤ u.credit ∧ u.credit ≤ 100

/-- Every account of `before` is still there with no more credits than it had. -/
def NotRaised (before users : Users) : Prop :=
  ∀ id u, getUser before id = some u → ∃ u', getUser users id = some u' ∧ u'.credit ≤ u.credit

/-- Every account of `before` is still there, unchanged. -/
def Untouched (before users : Users) : Prop :=
  ∀ id u, getUser before id = some u → getUser users id = some u

/-- An empty world: no account, no table, the clock at `now`, the given random
values, and surroundings that answer at once and deliver every call. -/
def emptyWorld (now : Int) (rnd : Rand) : World :=
  { users := []
    vbvDatabase := []
    binDatabase := []
    ownerNumbers := []
    usersDb := []
    ownerIds := []
    files := []
    now := now
    rnd := rnd
    lag := []
    net := []
    log := [] }

/-- The inbound event carrying `text`, sent by user `u` in a private chat. -/
def textFromU (text : Str) : InMsg :=
  { hasMessage := true
    fromMe := false
    remoteJid := "u@s.whatsapp.net".toList
    participant := []
    pushName := "Al".toList
    text := text }

/-- The world after user `u` registered in the empty world at time 0. -/
def registeredWorld : World :=
  ((onMessage 1 (textFromU "/register".toList) (emptyWorld 0 [])).world?).getD (emptyWorld 0 [])

/-- The world after user `u`, registered, sent `/gen 447697 5` with random
values that make every first candidate pass. -/
def generatedWorld : World :=
  ((onMessage 1 (textFromU "/gen 447697 5".toList)
      { registeredWorld with
        rnd := (List.replicate 5 [1, 1, 0, 0, 0, 0, 0, 0, 0, 0, 0, 0]).flatten }).world?).getD
    registeredWorld

/-- A world at time 20000 whose only account is user `u` with the given balance
and a cooldown touched at time `touched`. -/
def gateWorld (credit touched : Int) (rnd : Rand) : World :=
  { emptyWorld 20000 rnd with users := [("u".toList, sampleUser credit touched)] }

/-- The run `r`, started in `w`, ended (normally, or by the exception of its
one transport call) after a single transport call, the reply `msg`; no gate
call and no VBV lookup was made, no random value was drawn, and the accounts,
the VBV table and the files are as in `w`. -/
def RejectedWith (r : Res Unit) (w : World) (chat : Str) (msg : Msg) : Prop :=
  ∃ w', r.world? = some w' ∧ w'.log = w.log ++ [Event.send chat msg] ∧
    w'.users = w.users ∧ w'.vbvDatabase = w.vbvDatabase ∧ w'.files = w.files ∧
    w'.rnd = w.rnd

/-- Every event of the log of `w'` that is not in the log of `w` is something
else than the register-first reply. -/
def NoRegisterFirst (w w' : World) : Prop :=
  ∀ e ∈ w'.log, e ∈ w.log ∨ ∀ chat, e ≠ Event.send chat Msg.registerFirst

/-- Twelve outcomes of the nine draws of the shuffle of `ccGenerator`.  For
every `k` from 1 to 10 the Luhn sums of the first `k` shuffled digits reach
every residue modulo 10 over these outcomes. -/
def shuffleOutcomes : List Rand :=
  [[4, 2, 5, 4, 2, 4, 1, 0, 0], [9, 7, 1, 3, 2, 1, 0, 2, 1], [5, 5, 6, 2, 0, 3, 3, 0, 0],
   [2, 5, 1, 2, 2, 4, 2, 2, 0], [5, 0, 3, 3, 5, 0, 3, 1, 0], [2, 0, 5, 6, 1, 3, 1, 2, 1],
   [7, 3, 5, 6, 0, 0, 1, 2, 1], [5, 0, 4, 6, 1, 2, 0, 2, 0], [5, 7, 3, 3, 4, 2, 0, 2, 1],
   [7, 1, 0, 3, 1, 3, 3, 2, 0], [3, 5, 2, 2, 3, 3, 2, 1, 1], [5, 8, 1, 4, 2, 1, 2, 0, 0]]

/-- A world at time 20000 with two accounts: the owner `o` and user `u`, who
holds 5 credits and whose cooldown was touched at time 0. -/
def ownerWorld : World :=
  { emptyWorld 20000 [] with
    users := [("u".toList, sampleUser 5 0), ("o".toList, { sampleUser 5 0 with id := "o".toList })]
    ownerNumbers := ["o".toList] }

/-- The world after the owner sent `/addvbv 411111|3D TRUE|Enrolled` in
`ownerWorld`. -/
def enrolledWorld : World :=
  ((handleCommand 1 "o@s.whatsapp.net".toList "/addvbv 411111|3D TRUE|Enrolled".toList
      "Owner".toList "o".toList ownerWorld).world?).getD ownerWorld

/-- The line of `vbvbin.txt` that holds a record. -/
def recordLine (e : Str × VbvInfo) : Str :=
  e.1 ++ '|' :: e.2.status ++ '|' :: e.2.response

/-- A line of text that survives `split('\n')` and `trim()` as it is: it holds
no line feed and has no white space at either end. -/
def CleanLine (line : Str) : Prop :=
  '\n' ∉ line ∧ trim line = line

/-- The tables built from the empty one by `addVbvToken` and `removeVbvToken`
calls, every stored record giving a clean line. -/
inductive BuiltVbv : VbvDb → Prop where
  | empty : BuiltVbv []
  | add (db : VbvDb) (token : Str) :
      BuiltVbv db →
      (∀ bin status response more, split '|' token = bin :: status :: response :: more →
        CleanLine (recordLine (bin, { status := status, response := response }))) →
      BuiltVbv (addVbvToken db token).2.1
  | remove (db : VbvDb) (bin : Str) : BuiltVbv db → BuiltVbv (removeVbvToken db bin).2.1

/-- The activation of `/ad 4000000000000000|12|25|123` from user `u`, not yet
started. -/
def adActivation : Activation :=
  .resume (handleSingleGateAsync "u@s.whatsapp.net".toList
    "/ad 4000000000000000|12|25|123".toList "u".toList "/ad".toList)

/-- Two `/ad` events of user `u`, who holds 1 credit and whose cooldown has
elapsed.  The second event arrives while the first activation is suspended at
its first `await`; `turns` is the number of later turns of the event loop, the
first activation running its eight remaining stretches before the second. -/
def overlappedAd (turns : Nat) : List Activation × World :=
  runSchedule ([0, 1] ++ (List.replicate 8 0 ++ List.replicate 8 1).take turns)
    [adActivation, adActivation] (gateWorld 1 0 [])

/-- The activation of a `/mad` message from user `u`, not yet started. -/
def madActivation (messageText : Str) : Activation :=
  .resume (handleMassGateAsync "u@s.whatsapp.net".toList messageText "Al".toList "u".toList
    "/mad".toList)

/-- A `/mad` message with five card lines, used in the examples. -/
def fiveCards : Str :=
  "/mad 4111\n4112\n4113\n4114\n4115".toList

/-- A `/mad` of one card followed at once by a `/mad` of five cards, both from
user `u`, who holds 5 credits.  The second event arrives while the first
activation is suspended at its first `await`; `turns` is the number of later
turns of the event loop, the first activation running its six remaining
stretches before the nineteen of the second. -/
def overlappedMad (turns : Nat) : List Activation × World :=
  runSchedule ([0, 1] ++ (List.replicate 6 0 ++ List.replicate 19 1).take turns)
    [madActivation "/mad 4111".toList, madActivation fiveCards] (gateWorld 5 0 [])

/-- The texts of the edits recorded in a log, in order. -/
def editsOf (log : List Event) : List Msg :=
  log.filterMap fun e =>
    match e with
    | .edit _ _ msg => some msg
    | _ => none

/-- The card counts `k` with `i < k ≤ i + m` after which a mass loop that has
done `i` of `total` cards edits the running message: the multiples of `step`
and `total` itself. -/
def editPoints (step total i m : Nat) : List Nat :=
  ((List.range m).map fun j => i + j + 1).filter fun k => k % step = 0 ∨ k = total

/-- A `/mad` message with four card lines, used in the examples. -/
def fourCards : Str :=
  "/mad 4111\n4112\n4113\n4114".toList

/-- The entry of a card the gate simulator approved, used in the examples. -/
def approvedEntry (card : Str) : Str × GateReply :=
  (card ++ "|None|None|None".toList,
   { status := .approved, response := "1000: Approved".toList, hits := "YES".toList })

/-- A run of at least four decimal digits starts at the head of `s`. -/
def startsRun4 (s : Str) : Bool :=
  4 ≤ (s.takeWhile Char.isDigit).length

/-- The text `s` contains four consecutive decimal digits. -/
def hasRun4 (s : Str) : Bool :=
  s.tails.any startsRun4

/-- A field of an extraction: the sentinel `"None"`, or `lo` to `hi` decimal
digits. -/
def FieldShape (lo hi : Nat) (field : Str) : Prop :=
  field = "None".toList ∨ ((∀ c ∈ field, c.isDigit = true) ∧ lo ≤ field.length ∧
    field.length ≤ hi)

/-- The world of `src/index.js` after its first start: `FILES/vbvbin.txt` and
the `OWNER_ID` list hold the defaults the program writes. -/
def indexWorld : World :=
  { emptyWorld 0 [] with
    ownerIds := ["1234567890".toList]
    files := [(vbvBinFile,
      ("# VBV BIN Database\n# Format: BIN|STATUS|RESPONSE\n" ++
        "447697|3D TRUE ❌|3D Secure Required\n" ++
        "424242|3D FALSE ✅|3D Secure Not Required\n").toList)] }

/-- The stores and the random source of `w'` are those of `w`: no account and no
VBV entry changed, and no random value was drawn. -/
def SameStores (w w' : World) : Prop :=
  w'.users = w.users ∧ w'.usersDb = w.usersDb ∧ w'.vbvDatabase = w.vbvDatabase ∧
    w'.rnd = w.rnd

/-- The calls of the gate simulator recorded in a log, in order: the card and
the gateway of each. -/
def gateCalls (log : List Event) : List (Str × Str) :=
  log.filterMap fun e =>
    match e with
    | .gate card gateway => some (card, gateway)
    | _ => none

/-- A `/mad` message with three card lines, used in the examples. -/
def threeCards : Str :=
  "/mad 4111\n4112\n4113".toList

/-- A `/mad` message with eleven card lines, used in the examples. -/
def elevenCards : Str :=
  "/mad 4111\n4112\n4113\n4114\n4115\n4116\n4117\n4118\n4119\n4120\n4121".toList

/-- The number field of a candidate `cc|mes|ano|cvv`: what
`luhnCardGenerator` takes as `ccx`. -/
def cardNumberOf (candidate : Str) : Str :=
  (split '|' candidate).headD []

/-- The length `ccGenerator` cuts the number to: 15 for a prefix starting with
34 or 37, else 16. -/
def numberLength (cc : Str) : Nat :=
  if isAmex cc then 15 else 16

/-! # Theorems -/

/-! ## Lemmas on strings -/

theorem split_ne_nil (sep : Char) (s : Str) : split sep s ≠ [] := by
  cases s with
  | nil => simp [split]
  | cons c rest =>
    rw [split]
    split
    · simp
    · split <;> simp

theorem split_of_not_mem {sep : Char} {s : Str} (h : sep ∉ s) : split sep s = [s] := by
  induction s with
  | nil => rfl
  | cons c rest ih =>
    have hc : c ≠ sep := fun e => h (by simp [e])
    have hr : sep ∉ rest := fun e => h (by simp [e])
    rw [split, if_neg hc, ih hr]

theorem split_append_sep {sep : Char} {xs : Str} (h : sep ∉ xs) (ys : Str) :
    split sep (xs ++ sep :: ys) = xs :: split sep ys := by
  induction xs with
  | nil => simp [split]
  | cons c rest ih =>
    have hc : c ≠ sep := fun e => h (by simp [e])
    have hr : sep ∉ rest := fun e => h (by simp [e])
    rw [List.cons_append, split, if_neg hc, ih hr]

theorem mem_split {sep : Char} {s p : Str} (h : p ∈ split sep s) :
    sep ∉ p ∧ ∀ c ∈ p, c ∈ s := by
  induction s generalizing p with
  | nil =>
    simp [split] at h
    subst h
    simp
  | cons c rest ih =>
    rw [split] at h
    by_cases hc : c = sep
    · rw [if_pos hc] at h
      rcases List.mem_cons.1 h with h | h
      · subst h; simp
      · have := ih h
        exact ⟨this.1, fun d hd => List.mem_cons_of_mem _ (this.2 d hd)⟩
    · rw [if_neg hc] at h
      cases hs : split sep rest with
      | nil => exact absurd hs (split_ne_nil _ _)
      | cons piece pieces =>
        rw [hs] at h
        simp only [List.mem_cons] at h
        rcases h with h | h
        · subst h
          have := ih (p := piece) (by simp [hs])
          refine ⟨?_, ?_⟩
          · intro hm
            rcases List.mem_cons.1 hm with e | e
            · exact hc e.symm
            · exact this.1 e
          · intro d hd
            rcases List.mem_cons.1 hd with e | e
            · simp [e]
            · exact List.mem_cons_of_mem _ (this.2 d e)
        · have := ih (p := p) (by simp [hs, h])
          exact ⟨this.1, fun d hd => List.mem_cons_of_mem _ (this.2 d hd)⟩

theorem digitChar_isDigit {d : Nat} (h : d < 10) : (Nat.digitChar d).isDigit = true := by
  interval_cases d <;> rfl

theorem toDigitsCore_isDigit (fuel : Nat) : ∀ (n : Nat) (acc : List Char),
    (∀ c ∈ acc, c.isDigit = true) → ∀ c ∈ Nat.toDigitsCore 10 fuel n acc, c.isDigit = true := by
  induction fuel with
  | zero => intro n acc h; simpa [Nat.toDigitsCore] using h
  | succ fuel ih =>
    intro n acc h
    rw [Nat.toDigitsCore]
    have hd : ∀ c ∈ Nat.digitChar (n % 10) :: acc, c.isDigit = true := by
      intro c hc
      rcases List.mem_cons.1 hc with e | e
      · rw [e]; exact digitChar_isDigit (Nat.mod_lt _ (by decide))
      · exact h c e
    split
    · exact hd
    · exact ih _ _ hd

theorem natToStr_isDigit (n : Nat) : ∀ c ∈ natToStr n, c.isDigit = true :=
  toDigitsCore_isDigit _ _ _ (by simp)

/-! ## The characters of a generated candidate -/

theorem swap_all (P : Char → Prop) (numbers : List Char) (i j : Nat) (h0 : P '0')
    (h : ∀ c ∈ numbers, P c) : ∀ c ∈ swap numbers i j, P c := by
  have hget : ∀ k, P (numbers.getD k '0') := by
    intro k
    rw [List.getD_eq_getElem?_getD]
    cases hk : numbers[k]? with
    | none => simpa using h0
    | some v => simpa using h v (List.getElem?_mem hk)
  intro c hc
  unfold swap at hc
  rcases List.mem_or_eq_of_mem_set hc with hc | hc
  · rcases List.mem_or_eq_of_mem_set hc with hc | hc
    · exact h c hc
    · rw [hc]; exact hget j
  · rw [hc]; exact hget i

theorem shuffleLoop_all (P : Char → Prop) (h0 : P '0') : ∀ (k : Nat) (numbers : List Char)
    (rnd : Rand), (∀ c ∈ numbers, P c) → ∀ c ∈ (shuffleLoop k numbers rnd).1, P c := by
  intro k
  induction k with
  | zero => intro numbers rnd h; simpa [shuffleLoop] using h
  | succ k ih =>
    intro numbers rnd h
    rw [shuffleLoop]
    exact ih _ _ (swap_all P _ _ _ h0 h)

theorem replaceX_all (P : Char → Prop) (hd : ∀ c : Char, c.isDigit = true → P c) :
    ∀ (s : Str) (rnd : Rand), (∀ c ∈ s, P c) → ∀ c ∈ (replaceX s rnd).1, P c := by
  intro s
  induction s with
  | nil => intro rnd _; simp [replaceX]
  | cons a rest ih =>
    intro rnd h c hc
    rw [replaceX] at hc
    have hrest : ∀ c ∈ rest, P c := fun c hc => h c (List.mem_cons_of_mem _ hc)
    split at hc
    · simp only [List.mem_append] at hc
      rcases hc with hc | hc
      · exact hd c (natToStr_isDigit _ c hc)
      · exact ih _ hrest c hc
    · rcases List.mem_cons.1 hc with e | e
      · rw [e]; exact h a (List.mem_cons_self _ _)
      · exact ih _ hrest c e

theorem padMes_all (P : Char → Prop) (h0 : P '0') {mes : Str} (h : ∀ c ∈ mes, P c) :
    ∀ c ∈ padMes mes, P c := by
  unfold padMes
  split
  · intro c hc
    rcases List.mem_cons.1 hc with e | e
    · rw [e]; exact h0
    · exact h c e
  · exact h

theorem expandAno_all (P : Char → Prop) (h0 : P '0') (h2 : P '2') {ano : Str}
    (h : ∀ c ∈ ano, P c) : ∀ c ∈ expandAno ano, P c := by
  unfold expandAno
  split
  · intro c hc
    simp only [String.toList, List.cons_append, List.nil_append, List.mem_cons] at hc
    rcases hc with e | e | e
    · rw [e]; exact h2
    · rw [e]; exact h0
    · exact h c e
  · exact h

theorem genNumber_all (P : Char → Prop) (hd : ∀ c : Char, c.isDigit = true → P c) {cc : Str}
    (h : ∀ c ∈ cc, P c) (rnd : Rand) : ∀ c ∈ (genNumber cc rnd).1, P c := by
  have hdig : ∀ d ∈ "0123456789".toList, d.isDigit = true := by decide
  have hs : ∀ c ∈ (shuffleLoop 9 "0123456789".toList rnd).1, P c :=
    shuffleLoop_all P (hd '0' rfl) _ _ _ (fun d hd' => hd d (hdig d hd'))
  unfold genNumber
  generalize shuffleLoop 9 "0123456789".toList rnd = p at hs ⊢
  obtain ⟨numbers, rnd1⟩ := p
  have hres : ∀ n, ∀ c ∈ substring0 n (cc ++ numbers), P c := by
    intro n c hc
    rcases List.mem_append.1 (List.mem_of_mem_take hc) with e | e
    · exact h c e
    · exact hs c e
  refine replaceX_all P hd _ _ ?_
  split
  · exact hres _
  · exact hres _

theorem genMes_all (P : Char → Prop) (hd : ∀ c : Char, c.isDigit = true → P c) {mes : Str}
    (h : ∀ c ∈ mes, P c) (rnd : Rand) : ∀ c ∈ (genMes mes rnd).1, P c := by
  unfold genMes
  split
  · intro c hc
    simp only at hc
    split at hc
    · rcases List.mem_cons.1 hc with e | e
      · rw [e]; exact hd '0' rfl
      · exact hd c (natToStr_isDigit _ c e)
    · exact hd c (natToStr_isDigit _ c hc)
  · exact h

theorem genAno_all (P : Char → Prop) (hd : ∀ c : Char, c.isDigit = true → P c) {ano : Str}
    (h : ∀ c ∈ ano, P c) (rnd : Rand) : ∀ c ∈ (genAno ano rnd).1, P c := by
  unfold genAno
  split
  · intro c hc
    exact hd c (natToStr_isDigit _ c hc)
  · exact h

theorem genCvv_all (P : Char → Prop) (hd : ∀ c : Char, c.isDigit = true → P c) {cvv : Str}
    (h : ∀ c ∈ cvv, P c) (cc : Str) (rnd : Rand) : ∀ c ∈ (genCvv cc cvv rnd).1, P c := by
  unfold genCvv
  split
  · split
    · intro c hc
      exact hd c (natToStr_isDigit _ c hc)
    · intro c hc
      exact hd c (natToStr_isDigit _ c hc)
  · exact h

theorem ccGenerator_all (P : Char → Prop) (hd : ∀ c : Char, c.isDigit = true → P c)
    (hpipe : P '|') {cc mes ano cvv : Str} (hcc : ∀ c ∈ cc, P c) (hmes : ∀ c ∈ mes, P c)
    (hano : ∀ c ∈ ano, P c) (hcvv : ∀ c ∈ cvv, P c) (rnd : Rand) :
    ∀ c ∈ (ccGenerator cc mes ano cvv rnd).1, P c := by
  intro c hc
  unfold ccGenerator at hc
  simp only [List.mem_append, List.mem_cons] at hc
  rcases hc with ((hc | hc | hc) | hc | hc) | hc | hc
  · exact genNumber_all P hd hcc _ c hc
  · rw [hc]; exact hpipe
  · exact genMes_all P hd (padMes_all P (hd '0' rfl) hmes) _ c hc
  · rw [hc]; exact hpipe
  · exact genAno_all P hd (expandAno_all P (hd '0' rfl) (hd '2' rfl) hano) _ c hc
  · rw [hc]; exact hpipe
  · exact genCvv_all P hd hcvv _ _ c hc


/-! ## Luhn check -/

theorem isDigit_iff (c : Char) : c.isDigit = true ↔ 48 ≤ c.toNat ∧ c.toNat ≤ 57 := by
  simp only [Char.isDigit, Char.toNat, Bool.and_eq_true, decide_eq_true_eq]
  rfl

theorem isWhiteSpace_of_isDigit {c : Char} (h : c.isDigit = true) : isWhiteSpace c = false := by
  rw [isDigit_iff] at h
  simp only [isWhiteSpace, Bool.or_eq_false_iff, decide_eq_false_iff_not, Bool.and_eq_false_imp,
    decide_eq_true_eq]
  omega

theorem checkLuhnLoop_digits : ∀ (s : List Char) (nSum : Nat) (isSecond : Bool) (r : Nat),
    checkLuhnLoop s nSum isSecond = some r → ∀ c ∈ s, c.isDigit = true := by
  intro s
  induction s with
  | nil => intro _ _ _ _ c hc; simp at hc
  | cons a rest ih =>
    intro nSum isSecond r h c hc
    rw [checkLuhnLoop] at h
    by_cases ha : a.isDigit = true
    · rcases List.mem_cons.1 hc with e | e
      · rw [e]; exact ha
      · simp only [parseIntChar, ha, if_true] at h
        exact ih _ _ _ h c e
    · simp [parseIntChar, ha] at h

theorem checkLuhn_digits {s : Str} (h : checkLuhn s = true) : ∀ c ∈ s, c.isDigit = true := by
  unfold checkLuhn at h
  cases hl : checkLuhnLoop s.reverse 0 false with
  | none => simp [hl] at h
  | some r =>
    intro c hc
    exact checkLuhnLoop_digits _ _ _ _ hl c (List.mem_reverse.2 hc)

/-! ## Shape of the generated text -/

theorem RawLine.isCardLine {l : Str} (h : RawLine l) : isCardLine l = true := by
  obtain ⟨ccx, mesx, anox, cvvx, rfl, hl, h1, h2, h3, h4, _⟩ := h
  unfold Wachk.isCardLine
  rw [split_append_sep h1, split_append_sep h2, split_append_sep h3, split_of_not_mem h4]
  exact hl

theorem RawLine.head {l : Str} (h : RawLine l) :
    ∃ c rest, l = c :: rest ∧ isWhiteSpace c = false := by
  obtain ⟨ccx, mesx, anox, cvvx, rfl, hl, _⟩ := h
  cases ccx with
  | nil => exact ⟨'|', _, rfl, by decide⟩
  | cons c rest =>
    exact ⟨c, _, rfl, isWhiteSpace_of_isDigit (checkLuhn_digits hl c (List.mem_cons_self _ _))⟩

theorem dropWhile_append_cons {p : Char → Bool} {a : Char} (ha : p a = false) (u v : List Char) :
    (u ++ a :: v).dropWhile p = u.dropWhile p ++ a :: v := by
  induction u with
  | nil => simp [List.dropWhile, ha]
  | cons c rest ih =>
    by_cases hc : p c = true
    · simp [List.dropWhile, hc, ih]
    · simp [List.dropWhile, hc]

theorem rdropWhile_append_cons {p : Char → Bool} {a : Char} (ha : p a = false)
    (u v : List Char) : (u ++ a :: v).rdropWhile p = u ++ a :: v.rdropWhile p := by
  simp only [List.rdropWhile, List.reverse_append, List.reverse_cons, List.append_assoc,
    List.singleton_append]
  rw [dropWhile_append_cons ha]
  simp

theorem RawLine.rdropWhile {l : Str} (h : RawLine l) (front : Str) :
    (front ++ l).rdropWhile isWhiteSpace = front ++ l.rdropWhile isWhiteSpace ∧
      RawLine (l.rdropWhile isWhiteSpace) := by
  obtain ⟨ccx, mesx, anox, cvvx, rfl, hl, h1, h2, h3, h4, h5⟩ := h
  have hp : isWhiteSpace '|' = false := by decide
  have e1 : ccx ++ '|' :: (mesx ++ '|' :: (anox ++ '|' :: cvvx)) =
      (ccx ++ '|' :: (mesx ++ '|' :: anox)) ++ '|' :: cvvx := by simp
  have hpre : cvvx.rdropWhile isWhiteSpace <+: cvvx := List.rdropWhile_prefix _ _
  have hsub : ∀ c ∈ cvvx.rdropWhile isWhiteSpace, c ∈ cvvx := fun c hc => hpre.subset hc
  refine ⟨?_, ?_⟩
  · rw [e1, ← List.append_assoc, rdropWhile_append_cons hp, rdropWhile_append_cons hp]
    simp
  · rw [e1, rdropWhile_append_cons hp]
    refine ⟨ccx, mesx, anox, _, by simp, hl, h1, h2, h3, fun hm => h4 (hsub _ hm), ?_⟩
    intro hm
    apply h5
    simp only [List.mem_append, List.mem_cons] at hm ⊢
    have := hsub '\n'
    tauto

theorem split_linesText (ls : List Str) (last : Str) (h : ∀ l ∈ ls, '\n' ∉ l)
    (hlast : '\n' ∉ last) : split '\n' (linesText ls ++ last) = ls ++ [last] := by
  induction ls with
  | nil => simpa [linesText] using split_of_not_mem hlast
  | cons l rest ih =>
    have hl : '\n' ∉ l := h l (List.mem_cons_self _ _)
    have hr : ∀ l ∈ rest, '\n' ∉ l := fun x hx => h x (List.mem_cons_of_mem _ hx)
    have e : linesText (l :: rest) ++ last = l ++ '\n' :: (linesText rest ++ last) := by
      simp [linesText]
    rw [e, split_append_sep hl, ih hr]
    rfl

theorem trim_linesText (ls : List Str) (last : Str) (h : ∀ l ∈ ls, RawLine l)
    (hlast : RawLine last) :
    textLines (trim (linesText (ls ++ [last]))) = ls ++ [last.rdropWhile isWhiteSpace] := by
  have hall : ∀ l ∈ ls ++ [last], RawLine l := by
    intro l hl
    rcases List.mem_append.1 hl with e | e
    · exact h l e
    · rw [List.mem_singleton.1 e]; exact hlast
  have e : linesText (ls ++ [last]) = (linesText ls ++ last) ++ ['\n'] := by
    simp [linesText]
  -- the text starts with a character that is not white space
  obtain ⟨c, rest, hc, hws⟩ : ∃ c rest, linesText ls ++ last = c :: rest ∧
      isWhiteSpace c = false := by
    cases ls with
    | nil =>
      obtain ⟨c, rest, hc, hws⟩ := hlast.head
      exact ⟨c, rest, by simpa [linesText] using hc, hws⟩
    | cons l more =>
      obtain ⟨c, rest, hc, hws⟩ := (h l (List.mem_cons_self _ _)).head
      exact ⟨c, rest ++ '\n' :: (linesText more ++ last), by simp [linesText, hc], hws⟩
  have h1 : (linesText (ls ++ [last])).dropWhile isWhiteSpace = linesText (ls ++ [last]) := by
    rw [e, hc]
    simp [List.dropWhile, hws]
  have h2 : (linesText (ls ++ [last])).rdropWhile isWhiteSpace =
      linesText ls ++ last.rdropWhile isWhiteSpace := by
    rw [e, List.rdropWhile_concat_pos _ _ _ (by decide)]
    exact (hlast.rdropWhile _).1
  have hraw := (hlast.rdropWhile []).2
  have hne : linesText ls ++ last.rdropWhile isWhiteSpace ≠ [] := by
    obtain ⟨c, rest, hc, _⟩ := hraw.head
    simp [hc]
  unfold trim textLines
  rw [h1, h2, if_neg hne]
  refine split_linesText _ _ (fun l hl => ?_) ?_
  · obtain ⟨_, _, _, _, _, _, _, _, _, _, h5⟩ := h l hl
    exact h5
  · obtain ⟨_, _, _, _, _, _, _, _, _, _, h5⟩ := hraw
    exact h5

/-! ## C1: lines of the generated text -/

theorem luhnRetry_spec {cc mes ano cvv : Str} (hcc : '\n' ∉ cc) (hmes : '\n' ∉ mes)
    (hano : '\n' ∉ ano) (hcvv : '\n' ∉ cvv) : ∀ (fuel : Nat) (rnd : Rand) (line : Str)
    (rnd' : Rand), luhnRetry cc mes ano cvv fuel rnd = some (line, rnd') →
      ∃ l, line = l ++ ['\n'] ∧ RawLine l := by
  intro fuel
  induction fuel with
  | zero => intro rnd line rnd' h; simp [luhnRetry] at h
  | succ fuel ih =>
    intro rnd line rnd' h
    have hnl : ∀ c ∈ (ccGenerator cc mes ano cvv rnd).1, c ≠ '\n' :=
      ccGenerator_all (fun c => c ≠ '\n') (fun c hc e => by rw [e] at hc; exact absurd hc (by decide))
        (by decide) (fun c hc e => hcc (e ▸ hc)) (fun c hc e => hmes (e ▸ hc))
        (fun c hc e => hano (e ▸ hc)) (fun c hc e => hcvv (e ▸ hc)) rnd
    rw [luhnRetry] at h
    generalize ccGenerator cc mes ano cvv rnd = g at h hnl
    obtain ⟨result, rnd1⟩ := g
    simp only at h hnl
    split at h
    · rename_i ccx mesx anox cvvx more heq
      by_cases hl : checkLuhn ccx = true
      · rw [if_pos hl] at h
        have hm : ∀ p ∈ [ccx, mesx, anox, cvvx], '|' ∉ p ∧ '\n' ∉ p := by
          intro p hp
          have hp' : p ∈ split '|' result := by
            rw [heq]
            simp only [List.mem_cons, List.mem_singleton, List.not_mem_nil, or_false] at hp ⊢
            tauto
          exact ⟨(mem_split hp').1, fun hn => hnl _ ((mem_split hp').2 _ hn) rfl⟩
        have h1 := hm ccx (by simp)
        have h2 := hm mesx (by simp)
        have h3 := hm anox (by simp)
        have h4 := hm cvvx (by simp)
        simp only [Option.some.injEq, Prod.mk.injEq] at h
        refine ⟨ccx ++ '|' :: (mesx ++ '|' :: (anox ++ '|' :: cvvx)), ?_,
          ccx, mesx, anox, cvvx, rfl, hl, h1.1, h2.1, h3.1, h4.1, ?_⟩
        · rw [← h.1]; simp
        · simp only [List.mem_append, List.mem_cons]
          have : '\n' ≠ '|' := by decide
          tauto
      · rw [if_neg hl] at h
        exact ih _ _ _ h
    · simp at h

theorem luhnLoop_spec {cc mes ano cvv : Str} (hcc : '\n' ∉ cc) (hmes : '\n' ∉ mes)
    (hano : '\n' ∉ ano) (hcvv : '\n' ∉ cvv) (fuel : Nat) : ∀ (n : Nat) (allCards : Str)
    (rnd : Rand) (text : Str) (rnd' : Rand),
    luhnLoop fuel cc mes ano cvv n allCards rnd = some (text, rnd') →
      ∃ ls : List Str, ls.length = n ∧ text = allCards ++ linesText ls ∧
        ∀ l ∈ ls, RawLine l := by
  intro n
  induction n with
  | zero =>
    intro allCards rnd text rnd' h
    simp only [luhnLoop, Option.some.injEq, Prod.mk.injEq] at h
    exact ⟨[], rfl, by simp [linesText, h.1], by simp⟩
  | succ n ih =>
    intro allCards rnd text rnd' h
    rw [luhnLoop] at h
    cases hr : luhnRetry cc mes ano cvv fuel rnd with
    | none => simp [hr] at h
    | some p =>
      obtain ⟨line, rnd1⟩ := p
      rw [hr] at h
      obtain ⟨l, hline, hraw⟩ := luhnRetry_spec hcc hmes hano hcvv _ _ _ _ hr
      obtain ⟨ls, hlen, htext, hall⟩ := ih _ _ _ _ h
      refine ⟨l :: ls, by simp [hlen], ?_, ?_⟩
      · rw [htext, hline]; simp [linesText]
      · intro x hx
        rcases List.mem_cons.1 hx with e | e
        · rw [e]; exact hraw
        · exact hall x e

/-- C1 (as amended): when no argument contains a line feed, every line of the
text returned by `luhnCardGenerator` has the form `number|month|year|cvv` and
its number passes `checkLuhn`. -/
theorem luhnCardGenerator_lines_pass (fuel : Nat) (cc mes ano cvv : Str) (amount : Int)
    (rnd : Rand) (text : Str) (rnd' : Rand) (hcc : '\n' ∉ cc) (hmes : '\n' ∉ mes)
    (hano : '\n' ∉ ano) (hcvv : '\n' ∉ cvv)
    (h : luhnCardGenerator fuel cc mes ano cvv amount rnd = some (text, rnd')) :
    ∀ line ∈ textLines text, isCardLine line = true := by
  unfold luhnCardGenerator at h
  cases hl : luhnLoop fuel cc mes ano cvv amount.toNat [] rnd with
  | none => simp [hl] at h
  | some p =>
    obtain ⟨allCards, rnd1⟩ := p
    rw [hl] at h
    simp only [Option.some.injEq, Prod.mk.injEq] at h
    obtain ⟨ls, _, htext, hall⟩ := luhnLoop_spec hcc hmes hano hcvv _ _ _ _ _ _ hl
    rw [List.nil_append] at htext
    rw [← h.1, htext]
    rcases List.eq_nil_or_concat ls with e | ⟨init, last, e⟩
    · rw [e]; intro line hline; simp [linesText, trim, textLines, List.rdropWhile] at hline
    · rw [e, List.concat_eq_append] at hall ⊢
      have hinit : ∀ l ∈ init, RawLine l := fun l hl => hall l (by simp [hl])
      have hlast : RawLine last := hall last (by simp)
      rw [trim_linesText init last hinit hlast]
      intro line hline
      rcases List.mem_append.1 hline with e | e
      · exact (hinit line e).isCardLine
      · rw [List.mem_singleton.1 e]
        exact (hlast.rdropWhile []).2.isCardLine

/-- Witness of `luhnCardGenerator_lines_pass`: the first candidate for BIN
447697 with explicit fields passes, and the one line of the text is a card
line. -/
theorem luhnCardGenerator_lines_pass_witness :
    luhnCardGenerator 1 "447697".toList "12".toList "25".toList "123".toList 1 [1, 1] =
        some ("4476978234567091|12|2025|123".toList, []) ∧
      ∀ line ∈ textLines "4476978234567091|12|2025|123".toList, isCardLine line = true :=
  ⟨by decide,
    luhnCardGenerator_lines_pass 1 "447697".toList "12".toList "25".toList "123".toList 1 [1, 1]
      "4476978234567091|12|2025|123".toList [] (by decide) (by decide) (by decide) (by decide)
      (by decide)⟩

/-- C1 (as stated) fails: with a line feed inside the month argument the generator
returns a text whose two lines are `4476978234567091|1` and `2|2025|123`; neither has
four fields. -/
theorem luhnCardGenerator_line_feed_counterexample :
    luhnCardGenerator 1 "447697".toList "1\n2".toList "25".toList "123".toList 1 [1, 1] =
        some ("4476978234567091|1\n2|2025|123".toList, []) ∧
      textLines "4476978234567091|1\n2|2025|123".toList =
        ["4476978234567091|1".toList, "2|2025|123".toList] ∧
      isCardLine "4476978234567091|1".toList = false ∧
      isCardLine "2|2025|123".toList = false := by
  decide

/-! ## C2: `checkLuhn` against the reference sum -/

theorem checkLuhnLoop_eq_ref : ∀ (s : List Char) (nSum : Nat) (isSecond : Bool) (i : Nat),
    (∀ c ∈ s, c.isDigit = true) → (isSecond = true ↔ i % 2 = 1) →
      checkLuhnLoop s nSum isSecond = some (nSum + luhnRefWalk i (digitsOf s)) := by
  intro s
  induction s with
  | nil => intro nSum isSecond i _ _; simp [checkLuhnLoop, luhnRefWalk, digitsOf]
  | cons a rest ih =>
    intro nSum isSecond i hd hpar
    have ha : a.isDigit = true := hd a (List.mem_cons_self _ _)
    have hr : ∀ c ∈ rest, c.isDigit = true := fun c hc => hd c (List.mem_cons_of_mem _ hc)
    have hlt : a.toNat - 48 < 10 := by
      have := (isDigit_iff a).1 ha
      omega
    have hpar' : ((!isSecond) = true ↔ (i + 1) % 2 = 1) := by
      cases isSecond <;> simp at hpar ⊢ <;> omega
    rw [checkLuhnLoop]
    simp only [parseIntChar, ha, if_true]
    rw [ih _ _ (i + 1) hr hpar']
    have e : digitsOf (a :: rest) = (a.toNat - 48) :: digitsOf rest := rfl
    rw [e, luhnRefWalk]
    congr 1
    generalize a.toNat - 48 = d at hlt
    unfold luhnRefTerm
    cases isSecond with
    | true =>
      have hi : i % 2 = 1 := hpar.1 rfl
      simp only [if_true, hi]
      split <;> omega
    | false =>
      have hi : ¬ i % 2 = 1 := fun h => by simpa using hpar.2 h
      simp only [hi, if_false, Bool.false_eq_true]
      omega

/-- C2: on a string of decimal digits `checkLuhn` is true exactly when the
reference Luhn sum (digits walked from the rightmost, every second one
doubled, doubled values above 9 replaced by their digit sum) is divisible by 10. -/
theorem checkLuhn_eq_reference (s : Str) (h : ∀ c ∈ s, c.isDigit = true) :
    checkLuhn s = decide (luhnRefSum (digitsOf s) % 10 = 0) := by
  unfold checkLuhn luhnRefSum
  rw [checkLuhnLoop_eq_ref s.reverse 0 false 0 (fun c hc => h c (List.mem_reverse.1 hc))
    (by simp)]
  simp only [zero_add, digitsOf, List.map_reverse]
  by_cases hx : luhnRefWalk 0 (List.map (fun c => c.toNat - 48) s).reverse % 10 = 0 <;>
    simp [hx]

/-- Witness of `checkLuhn_eq_reference` on the number 4476978234567091. -/
theorem checkLuhn_eq_reference_witness :
    (∀ c ∈ "4476978234567091".toList, c.isDigit = true) ∧
      checkLuhn "4476978234567091".toList =
        decide (luhnRefSum (digitsOf "4476978234567091".toList) % 10 = 0) :=
  ⟨by decide, checkLuhn_eq_reference "4476978234567091".toList (by decide)⟩


/-! ## The `Map` stores -/

theorem mapGet_mapSet_self {α : Type} (m : List (Str × α)) (k : Str) (v : α) :
    mapGet (mapSet m k v) k = some v := by
  induction m with
  | nil => simp [mapSet, mapGet]
  | cons e rest ih =>
    obtain ⟨k', v'⟩ := e
    by_cases h : k' = k
    · simp [mapSet, mapGet, h]
    · simp [mapSet, mapGet, h, ih]

theorem mapGet_mapSet_ne {α : Type} (m : List (Str × α)) {k k' : Str} (v : α) (h : k' ≠ k) :
    mapGet (mapSet m k v) k' = mapGet m k' := by
  induction m with
  | nil => simp [mapSet, mapGet, Ne.symm h]
  | cons e rest ih =>
    obtain ⟨k0, v0⟩ := e
    by_cases h0 : k0 = k
    · subst h0
      simp [mapSet, mapGet, Ne.symm h]
    · by_cases h1 : k0 = k'
      · subst h1
        simp [mapSet, mapGet, h0]
      · simp [mapSet, mapGet, h0, h1, ih]

/-! ## C3, C4: deduction -/

/-- C3: an account whose credits are non-negative still has non-negative
credits after `deductCredit` (src/config.js) and after `deductCredits`
(src/index.js), whatever account and integer amount the call names;
`deductCredits`, a total function, sets the named account's credits to
`max 0 (credits - amount)`. -/
theorem deduct_keeps_credits_nonneg (userId : Str) (amount : Int) :
    (∀ (users : Users) (id : Str) (u : User), mapGet users id = some u → 0 ≤ u.credit →
      ∃ u', mapGet (deductCredit users userId amount).2 id = some u' ∧ 0 ≤ u'.credit) ∧
    (∀ (usersDb : UsersDb) (id : Str) (a : Account), mapGet usersDb id = some a →
      0 ≤ a.credits →
      ∃ a', mapGet (deductCredits usersDb userId amount) id = some a' ∧ 0 ≤ a'.credits) ∧
    (∀ (usersDb : UsersDb) (a : Account), mapGet usersDb userId = some a →
      mapGet (deductCredits usersDb userId amount) userId =
        some { a with credits := max 0 (a.credits - amount) }) := by
  refine ⟨?_, ?_, ?_⟩
  · intro users id u hu hpos
    unfold deductCredit
    cases ht : mapGet users userId with
    | none => exact ⟨u, hu, hpos⟩
    | some target =>
      simp only
      split
      · rename_i hge
        by_cases hid : id = userId
        · subst hid
          rw [hu] at ht
          cases ht
          exact ⟨_, mapGet_mapSet_self _ _ _, by simpa using hge⟩
        · exact ⟨u, by rw [mapGet_mapSet_ne _ _ hid]; exact hu, hpos⟩
      · exact ⟨u, hu, hpos⟩
  · intro usersDb id a ha hpos
    unfold deductCredits
    cases ht : mapGet usersDb userId with
    | none => exact ⟨a, ha, hpos⟩
    | some target =>
      simp only
      by_cases hid : id = userId
      · subst hid
        exact ⟨_, mapGet_mapSet_self _ _ _, le_max_left _ _⟩
      · exact ⟨a, by rw [mapGet_mapSet_ne _ _ hid]; exact ha, hpos⟩
  · intro usersDb a ha
    unfold deductCredits
    rw [ha]
    exact mapGet_mapSet_self _ _ _

/-- Witness of `deduct_keeps_credits_nonneg`: an account with 3 credits and a
request for 5. -/
theorem deduct_keeps_credits_nonneg_witness :
    (∃ u', mapGet (deductCredit [("u".toList, sampleUser 3 0)] "u".toList 5).2 "u".toList =
        some u' ∧ 0 ≤ u'.credit) ∧
    mapGet (deductCredits [("u".toList, sampleAccount 3)] "u".toList 5) "u".toList =
      some (sampleAccount 0) :=
  ⟨(deduct_keeps_credits_nonneg "u".toList 5).1 [("u".toList, sampleUser 3 0)] "u".toList
      (sampleUser 3 0) (by decide) (by decide),
   ((deduct_keeps_credits_nonneg "u".toList 5).2.2 [("u".toList, sampleAccount 3)]
      (sampleAccount 3) (by decide)).trans (by decide)⟩

/-- C4: `deductCredit` never deducts partially.  For a present user with
`credit >= amount` it returns true, lowers that user's credit by exactly
`amount` and changes nothing else; when `credit < amount`, or the user is
absent, it returns false and the store is unchanged. -/
theorem deductCredit_all_or_nothing (users : Users) (userId : Str) (amount : Int) :
    (∀ u, mapGet users userId = some u → u.credit ≥ amount →
      (deductCredit users userId amount).1 = true ∧
      mapGet (deductCredit users userId amount).2 userId =
        some { u with credit := u.credit - amount } ∧
      ∀ id, id ≠ userId →
        mapGet (deductCredit users userId amount).2 id = mapGet users id) ∧
    (∀ u, mapGet users userId = some u → u.credit < amount →
      deductCredit users userId amount = (false, users)) ∧
    (mapGet users userId = none → deductCredit users userId amount = (false, users)) := by
  refine ⟨?_, ?_, ?_⟩
  · intro u hu hge
    unfold deductCredit
    rw [hu]
    simp only [hge, if_true]
    exact ⟨trivial, mapGet_mapSet_self _ _ _, fun id hid => mapGet_mapSet_ne _ _ hid⟩
  · intro u hu hlt
    unfold deductCredit
    rw [hu]
    simp only [ge_iff_le, not_le.2 hlt, if_false]
  · intro hu
    unfold deductCredit
    rw [hu]

/-- Witness of `deductCredit_all_or_nothing`: with 3 credits a request for 2
is served and a request for 5 is refused. -/
theorem deductCredit_all_or_nothing_witness :
    mapGet (deductCredit [("u".toList, sampleUser 3 0)] "u".toList 2).2 "u".toList =
      some (sampleUser 1 0) ∧
    deductCredit [("u".toList, sampleUser 3 0)] "u".toList 5 =
      (false, [("u".toList, sampleUser 3 0)]) :=
  ⟨((deductCredit_all_or_nothing [("u".toList, sampleUser 3 0)] "u".toList 2).1
      (sampleUser 3 0) (by decide) (by decide)).2.1.trans (by decide),
   (deductCredit_all_or_nothing [("u".toList, sampleUser 3 0)] "u".toList 5).2.1
      (sampleUser 3 0) (by decide) (by decide)⟩


/-! ## C8, C9: cooldown -/

/-- C8: for a present user `checkAntispam` is true exactly when
`now - antispam_time > 10000` (a gap of 10000 ms or less is refused), and it
is false for an absent user; hence, after a cooldown touch at time `t`, a
check less than 10000 ms later is refused and one more than 10000 ms later
is allowed. -/
theorem checkAntispam_iff (users : Users) (now : Int) (userId : Str) :
    (∀ u, getUser users userId = some u →
      (checkAntispam users now userId = true ↔ now - u.antispam_time > 10000) ∧
      (now - u.antispam_time ≤ 10000 → checkAntispam users now userId = false)) ∧
    (getUser users userId = none → checkAntispam users now userId = false) ∧
    (∀ u t, getUser users userId = some u →
      (now - t < 10000 → checkAntispam (setAntispamTime users t userId) now userId = false) ∧
      (now - t > 10000 → checkAntispam (setAntispamTime users t userId) now userId = true)) := by
  refine ⟨?_, ?_, ?_⟩
  · intro u hu
    unfold getUser at hu
    unfold checkAntispam
    rw [hu]
    simp only [decide_eq_true_eq, decide_eq_false_iff_not]
    exact ⟨trivial, fun h => by omega⟩
  · intro hu
    unfold getUser at hu
    unfold checkAntispam
    rw [hu]
  · intro u t hu
    unfold getUser at hu
    unfold checkAntispam setAntispamTime
    rw [hu]
    simp only [mapGet_mapSet_self, decide_eq_true_eq, decide_eq_false_iff_not]
    constructor <;> intro h <;> omega

/-- Witness of `checkAntispam_iff`: a user whose cooldown was touched at time
5000 is refused at 15000 and allowed at 15001. -/
theorem checkAntispam_iff_witness :
    checkAntispam [("u".toList, sampleUser 3 5000)] 15000 "u".toList = false ∧
    (checkAntispam [("u".toList, sampleUser 3 5000)] 15001 "u".toList = true ↔
      (15001 : Int) - (sampleUser 3 5000).antispam_time > 10000) :=
  ⟨((checkAntispam_iff [("u".toList, sampleUser 3 5000)] 15000 "u".toList).1
      (sampleUser 3 5000) (by decide)).2 (by decide),
   ((checkAntispam_iff [("u".toList, sampleUser 3 5000)] 15001 "u".toList).1
      (sampleUser 3 5000) (by decide)).1⟩

/-- C9 (as stated) fails: right after `registerUser` at time 0 the cooldown
check at time 0 is refused. -/
theorem new_account_cooldown_counterexample :
    checkAntispam (registerUser [] 0 "u".toList "Al".toList) 0 "u".toList = false := by
  decide

/-- C9 (as amended): after `registerUser` at time `t` the cooldown check at
time `t'` is true exactly when `t' - t > 10000`; a brand-new account waits
out one cooldown window. -/
theorem new_account_cooldown (users : Users) (t t' : Int) (userId username : Str) :
    checkAntispam (registerUser users t userId username) t' userId = decide (t' - t > 10000) := by
  unfold checkAntispam registerUser
  rw [mapGet_mapSet_self]


/-! ## A small program logic for the handlers -/

theorem bind_apply {α β : Type} (x : M α) (f : α → M β) (w : World) :
    (x >>= f) w =
      match x w with
      | .ok a w => f a w
      | .threw w => .threw w
      | .diverged => .diverged := rfl

theorem getW_bind {β : Type} (f : World → M β) (w : World) : (getW >>= f) w = f w w := rfl

theorem setW_bind {β : Type} (w' : World) (f : Unit → M β) (w : World) :
    (setW w' >>= f) w = f () w' := rfl

theorem Triple.pure {α : Type} {P : World → Prop} {Q : α → World → Prop} {E : World → Prop}
    {D : Prop} (a : α) (h : ∀ w, P w → Q a w) : Triple P (pure a : M α) Q E D :=
  fun w hw => h w hw

theorem Triple.bind {α β : Type} {P : World → Prop} {Q : α → World → Prop}
    {R : β → World → Prop} {E : World → Prop} {D : Prop} {x : M α} {f : α → M β}
    (hx : Triple P x Q E D) (hf : ∀ a, Triple (Q a) (f a) R E D) :
    Triple P (x >>= f) R E D := by
  intro w hw
  have h := hx w hw
  rw [bind_apply]
  cases hr : x w with
  | ok a w1 => rw [hr] at h; exact hf a w1 h
  | threw w1 => rw [hr] at h; exact h
  | diverged => rw [hr] at h; exact h

theorem Triple.weaken {α : Type} {P P' : World → Prop} {Q Q' : α → World → Prop}
    {E E' : World → Prop} {D D' : Prop} {x : M α} (h : Triple P x Q E D)
    (hP : ∀ w, P' w → P w) (hQ : ∀ a w, Q a w → Q' a w) (hE : ∀ w, E w → E' w)
    (hD : D → D') : Triple P' x Q' E' D' := by
  intro w hw
  have := h w (hP w hw)
  cases hr : x w with
  | ok a w1 => rw [hr] at this; exact hQ a w1 this
  | threw w1 => rw [hr] at this; exact hE w1 this
  | diverged => rw [hr] at this; exact hD this

theorem Triple.bindGetW {β : Type} {P : World → Prop} {Q : β → World → Prop}
    {E : World → Prop} {D : Prop} {f : World → M β}
    (h : ∀ w0, P w0 → Triple (fun w => w = w0) (f w0) Q E D) :
    Triple P (getW >>= f) Q E D :=
  fun w hw => h w hw w rfl

theorem Triple.bindSetW {β : Type} {P : World → Prop} {Q : β → World → Prop}
    {E : World → Prop} {D : Prop} {w' : World} {f : Unit → M β}
    (h : Triple (fun w => w = w') (f ()) Q E D) :
    Triple P (setW w' >>= f) Q E D :=
  fun _ _ => h w' rfl

theorem Triple.throwM {α : Type} {P : World → Prop} {Q : α → World → Prop} {E : World → Prop}
    {D : Prop} (h : ∀ w, P w → E w) : Triple P (throwM : M α) Q E D :=
  fun w hw => h w hw

theorem Triple.divergeM {α : Type} {P : World → Prop} {Q : α → World → Prop}
    {E : World → Prop} {D : Prop} (h : D) : Triple P (divergeM : M α) Q E D :=
  fun _ _ => h

theorem Triple.tryCatch {α : Type} {P : World → Prop} {Q : α → World → Prop}
    {E F : World → Prop} {D : Prop} {x h : M α} (hx : Triple P x Q F D)
    (hh : Triple F h Q E D) : Triple P (tryCatch x h) Q E D := by
  intro w hw
  have := hx w hw
  unfold Wachk.tryCatch
  cases hr : x w with
  | ok a w1 => rw [hr] at this; exact this
  | threw w1 => rw [hr] at this; exact hh w1 this
  | diverged => rw [hr] at this; exact this

/-! ### The primitives keep every stable property -/

theorem sleep_keeps {I : World → Prop} (hI : Stable I) (ms : Nat) (E : World → Prop)
    (D : Prop) : Triple I (sleep ms) (fun _ => I) E D :=
  fun w hw => hI w _ hw rfl (fun _ hb => hb)

theorem drawM_keeps {I : World → Prop} (hI : Stable I) (n : Nat) (E : World → Prop)
    (D : Prop) : Triple I (drawM n) (fun _ => I) E D :=
  fun w hw => hI w _ hw rfl (fun _ hb => hb)

theorem logEvent_keeps {I : World → Prop} (hI : Stable I) (e : Event) (E : World → Prop)
    (D : Prop) : Triple I (logEvent e) (fun _ => I) E D :=
  fun w hw => hI w _ hw rfl (fun _ hb => hb)

theorem transport_keeps {I : World → Prop} (hI : Stable I) (e : Nat → Event) (D : Prop) :
    Triple I (transport e) (fun _ => I) (Exc I) D := by
  intro w hw
  have h1 : I { w with now := w.now + w.lag.headD 0, lag := w.lag.tail,
                       log := w.log ++ [e w.log.length], net := w.net.tail } :=
    hI w _ hw rfl (fun b hb => List.mem_of_mem_tail hb)
  unfold transport
  by_cases hn : w.net.headD true = true
  · simp only [hn, if_true]
    exact h1
  · simp only [hn]
    exact ⟨h1, w, hw, by simpa using hn⟩

theorem sendText_keeps {I : World → Prop} (hI : Stable I) (chat : Str) (msg : Msg) (D : Prop) :
    Triple I (sendText chat msg) (fun _ => I) (Exc I) D :=
  transport_keeps hI _ D

theorem editText_keeps {I : World → Prop} (hI : Stable I) (chat : Str) (key : Nat) (msg : Msg)
    (D : Prop) : Triple I (editText chat key msg) (fun _ => I) (Exc I) D :=
  Triple.bind (transport_keeps hI _ D) (fun _ => Triple.pure _ (fun _ h => h))

theorem editFrames_keeps {I : World → Prop} (hI : Stable I) (chat : Str) (key delay : Nat)
    (D : Prop) : ∀ frames : List Msg,
    Triple I (editFrames chat key delay frames) (fun _ => I) (Exc I) D := by
  intro frames
  induction frames with
  | nil => exact Triple.pure _ (fun _ h => h)
  | cons frame frames ih =>
    unfold editFrames
    exact Triple.bind (sleep_keeps hI _ _ _)
      (fun _ => Triple.bind (editText_keeps hI _ _ _ _) (fun _ => ih))

theorem simulatePaymentGate_keeps {I : World → Prop} (hI : Stable I) (fullcc gateway : Str)
    (D : Prop) : Triple I (simulatePaymentGate fullcc gateway) (fun _ => I) (Exc I) D := by
  unfold simulatePaymentGate
  refine Triple.bind (logEvent_keeps hI _ _ _) (fun _ => ?_)
  refine Triple.bind (drawM_keeps hI _ _ _) (fun delay => ?_)
  refine Triple.bind (sleep_keeps hI _ _ _) (fun _ => ?_)
  refine Triple.bind (drawM_keeps hI _ _ _) (fun p => ?_)
  split
  · exact Triple.pure _ (fun _ h => h)
  · refine Triple.bind (drawM_keeps hI _ _ _) (fun k => ?_)
    split <;> exact Triple.pure _ (fun _ h => h)

theorem lookupVbv_keeps {I : World → Prop} (hI : Stable I) (bin : Str) (D : Prop) :
    Triple I (lookupVbv bin) (fun _ => I) (Exc I) D := by
  unfold lookupVbv
  refine Triple.bind (logEvent_keeps hI _ _ _) (fun _ => ?_)
  exact Triple.bindGetW (fun w0 h0 => Triple.pure _ (fun w hw => hw ▸ h0))


/-! ### The handlers keep every stable property closed under the ledger steps -/

theorem Stable.same {I : World → Prop} (hI : Stable I) {w w' : World} (hw : I w)
    (hu : w'.users = w.users) (hn : w'.net = w.net) : I w' :=
  hI w w' hw hu (fun _ hb => hn ▸ hb)

theorem Triple.at {α : Type} {P : World → Prop} {Q : α → World → Prop} {E : World → Prop}
    {D : Prop} {x : M α} (h : Triple P x Q E D) {w0 : World} (hw : P w0) :
    Triple (fun w => w = w0) x Q E D :=
  fun w e => by rw [e]; exact h w0 hw

theorem Triple.exc {α : Type} {I : World → Prop} {Q : α → World → Prop} {D : Prop} {x : M α}
    (h : Triple I x Q (Exc I) D) : Triple I x Q I True :=
  h.weaken (fun _ hw => hw) (fun _ _ hq => hq) (fun _ he => he.1) (fun _ => trivial)

theorem reply_keeps {I : World → Prop} (hI : Stable I) (chat : Str) (msg : Msg) :
    Triple I (sendText chat msg >>= fun _ => (Pure.pure PUnit.unit : M PUnit)) (fun _ => I) I
      True :=
  Triple.bind (sendText_keeps hI chat msg True).exc (fun _ => Triple.pure _ (fun _ h => h))

theorem handleStart_keeps {I : World → Prop} (hI : Stable I) (chat senderName : Str) :
    Triple I (handleStart chat senderName) (fun _ => I) I True := by
  unfold handleStart
  refine Triple.bind (sendText_keeps hI _ _ True).exc (fun key => ?_)
  refine Triple.bind (editFrames_keeps hI _ _ _ True _).exc (fun _ => ?_)
  refine Triple.bind (sleep_keeps hI _ _ _) (fun _ => ?_)
  exact (editText_keeps hI _ _ _ True).exc

theorem handleRegister_keeps {I : World → Prop} (hI : Stable I)
    (hreg : ∀ w uid name, I w → getUser w.users uid = none →
      I { w with users := registerUser w.users w.now uid name })
    (chat senderName userId : Str) :
    Triple I (handleRegister chat senderName userId) (fun _ => I) I True := by
  unfold handleRegister
  refine Triple.bindGetW (fun w0 h0 => ?_)
  split
  · exact (reply_keeps hI _ _).at h0
  · rename_i hnone
    refine Triple.bindSetW ?_
    exact (reply_keeps hI _ _).at (hreg w0 _ _ h0 hnone)

theorem handlePing_keeps {I : World → Prop} (hI : Stable I) (chat : Str) :
    Triple I (handlePing chat) (fun _ => I) I True := by
  unfold handlePing
  refine Triple.bindGetW (fun w0 h0 => Triple.at ?_ h0)
  refine Triple.bind (sendText_keeps hI _ _ True).exc (fun key => ?_)
  refine Triple.bindGetW (fun w1 h1 => Triple.at ?_ h1)
  exact (editText_keeps hI _ _ _ True).exc

theorem handleGen_keeps {I : World → Prop} (hI : Stable I)
    (fuel : Nat) (chat messageText senderName userId : Str) :
    Triple I (handleGen fuel chat messageText senderName userId) (fun _ => I) I True := by
  unfold handleGen
  split
  · simp only
    split
    · exact reply_keeps hI _ _
    · refine Triple.bind (sendText_keeps hI _ _ True).exc (fun key => ?_)
      refine Triple.bindGetW (fun w0 h0 => ?_)
      split
      · exact Triple.divergeM trivial
      · refine Triple.bindSetW ?_
        have h1 : I { w0 with rnd := ‹Rand› } := hI.same h0 rfl rfl
        refine Triple.at ?_ h1
        refine Triple.bind (transport_keeps hI _ True).exc (fun _ => ?_)
        split
        · exact reply_keeps hI _ _
        · refine Triple.bindGetW (fun w2 h2 => ?_)
          refine Triple.bindSetW ?_
          refine Triple.bindGetW (fun w3 h3 => ?_)
          have h4 : I w3 := by rw [h3]; exact hI.same h2 rfl rfl
          refine Triple.at ?_ h4
          refine Triple.bind (transport_keeps hI _ True).exc (fun _ => ?_)
          refine Triple.bindGetW (fun w5 h5 => ?_)
          refine Triple.bindSetW ?_
          exact Triple.pure _ (fun w hw => by rw [hw]; exact hI.same h5 rfl rfl)
  · exact reply_keeps hI _ _

theorem handleBin_keeps {I : World → Prop} (hI : Stable I) (chat messageText : Str) :
    Triple I (handleBin chat messageText) (fun _ => I) I True := by
  unfold handleBin
  split
  · exact Triple.bindGetW (fun w0 h0 => (reply_keeps hI _ _).at h0)
  · exact reply_keeps hI _ _

theorem handleId_keeps {I : World → Prop} (hI : Stable I) (chat userId senderName : Str) :
    Triple I (handleId chat userId senderName) (fun _ => I) I True :=
  reply_keeps hI _ _


theorem chargeAndTouch_keeps {I : World → Prop}
    (hcharge : ∀ w uid (n : Int), 0 ≤ n → I w →
      I { w with users := setAntispamTime (deductCredit w.users uid n).2 w.now uid })
    (userId : Str) (amount : Int) (hn : 0 ≤ amount) :
    Triple I (chargeAndTouch userId amount) (fun _ => I) I True := by
  unfold chargeAndTouch
  refine Triple.bindGetW (fun w0 h0 => ?_)
  refine Triple.bindSetW ?_
  refine Triple.bindGetW (fun w1 h1 => ?_)
  refine Triple.bindSetW ?_
  refine Triple.pure _ (fun w hw => ?_)
  rw [hw, h1]
  exact hcharge w0 userId amount hn h0

theorem handleSingleGate_keeps {I : World → Prop} (hI : Stable I)
    (hcharge : ∀ w uid (n : Int), 0 ≤ n → I w →
      I { w with users := setAntispamTime (deductCredit w.users uid n).2 w.now uid })
    (chat messageText userId command : Str) :
    Triple I (handleSingleGate chat messageText userId command) (fun _ => I) I True := by
  unfold handleSingleGate
  refine Triple.bindGetW (fun w0 h0 => Triple.at ?_ h0)
  simp only
  split
  · exact reply_keeps hI _ _
  · split
    · exact Triple.throwM (fun _ h => h)
    · split
      · exact reply_keeps hI _ _
      · split
        · exact reply_keeps hI _ _
        · refine Triple.bind (sendText_keeps hI _ _ True).exc (fun key => ?_)
          refine Triple.bind (editFrames_keeps hI _ _ _ True _).exc (fun _ => ?_)
          refine Triple.bind (simulatePaymentGate_keeps hI _ _ True).exc (fun _ => ?_)
          refine Triple.bindGetW (fun w1 h1 => Triple.at ?_ h1)
          refine Triple.bind (editText_keeps hI _ _ _ True).exc (fun _ => ?_)
          exact chargeAndTouch_keeps hcharge _ _ (by decide)

theorem massGateLoop_keeps {I : World → Prop} (hI : Stable I) (chat gatewayName : Str)
    (key total : Nat) : ∀ (cards : List Str) (i : Nat) (resultText : List (Str × GateReply)),
    Triple I (massGateLoop chat gatewayName key total i cards resultText) (fun _ => I) I
      True := by
  intro cards
  induction cards with
  | nil => intro i resultText; exact Triple.pure _ (fun _ h => h)
  | cons card cards ih =>
    intro i resultText
    unfold massGateLoop
    refine Triple.bind (simulatePaymentGate_keeps hI _ _ True).exc (fun result => ?_)
    simp only
    split
    · refine Triple.bind (editText_keeps hI _ _ _ True).exc (fun _ => ?_)
      exact Triple.bind (sleep_keeps hI _ _ _) (fun _ => ih _ _)
    · refine Triple.bind (Q := fun _ => I) (Triple.pure _ (fun _ h => h)) (fun _ => ?_)
      exact Triple.bind (sleep_keeps hI _ _ _) (fun _ => ih _ _)

theorem handleMassGate_keeps {I : World → Prop} (hI : Stable I)
    (hcharge : ∀ w uid (n : Int), 0 ≤ n → I w →
      I { w with users := setAntispamTime (deductCredit w.users uid n).2 w.now uid })
    (chat messageText senderName userId command : Str) :
    Triple I (handleMassGate chat messageText senderName userId command) (fun _ => I) I
      True := by
  unfold handleMassGate
  refine Triple.bindGetW (fun w0 h0 => Triple.at ?_ h0)
  simp only
  split
  · exact reply_keeps hI _ _
  · split
    · exact reply_keeps hI _ _
    · split
      · exact Triple.throwM (fun _ h => h)
      · split
        · exact reply_keeps hI _ _
        · refine Triple.bind (sendText_keeps hI _ _ True).exc (fun key => ?_)
          refine Triple.bind (massGateLoop_keeps hI _ _ _ _ _ _ _) (fun _ => ?_)
          refine Triple.bind (editText_keeps hI _ _ _ True).exc (fun _ => ?_)
          exact chargeAndTouch_keeps hcharge _ _ (Int.natCast_nonneg _)

theorem handleVbv_keeps {I : World → Prop} (hI : Stable I)
    (hcharge : ∀ w uid (n : Int), 0 ≤ n → I w →
      I { w with users := setAntispamTime (deductCredit w.users uid n).2 w.now uid })
    (chat messageText userId : Str) :
    Triple I (handleVbv chat messageText userId) (fun _ => I) I True := by
  unfold handleVbv
  refine Triple.bindGetW (fun w0 h0 => Triple.at ?_ h0)
  simp only
  split
  · exact reply_keeps hI _ _
  · split
    · exact Triple.throwM (fun _ h => h)
    · split
      · exact reply_keeps hI _ _
      · split
        · exact reply_keeps hI _ _
        · split
          · exact reply_keeps hI _ _
          · refine Triple.bind (sendText_keeps hI _ _ True).exc (fun key => ?_)
            refine Triple.bind (lookupVbv_keeps hI _ True).exc (fun vbvInfo => ?_)
            refine Triple.bindGetW (fun w1 h1 => Triple.at ?_ h1)
            split <;>
              exact Triple.bind (editText_keeps hI _ _ _ True).exc
                (fun _ => chargeAndTouch_keeps hcharge _ _ (by decide))

theorem massVbvLoop_keeps {I : World → Prop} (hI : Stable I) (chat : Str)
    (key total : Nat) : ∀ (cards : List Str) (i : Nat) (resultText : List (Str × Str × Str)),
    Triple I (massVbvLoop chat key total i cards resultText) (fun _ => I) I True := by
  intro cards
  induction cards with
  | nil => intro i resultText; exact Triple.pure _ (fun _ h => h)
  | cons card cards ih =>
    intro i resultText
    unfold massVbvLoop
    simp only
    have hrest : ∀ entry : Str × Str × Str,
        Triple I
          (if (i + 1) % 5 = 0 ∨ i + 1 = total then do
              editText chat key (Msg.massVbvResults total (resultText ++ [entry]) false)
              sleep 500
              massVbvLoop chat key total (i + 1) cards (resultText ++ [entry])
            else do
              pure PUnit.unit
              sleep 500
              massVbvLoop chat key total (i + 1) cards (resultText ++ [entry]))
          (fun _ => I) I True := by
      intro entry
      split
      · refine Triple.bind (editText_keeps hI _ _ _ True).exc (fun _ => ?_)
        exact Triple.bind (sleep_keeps hI _ _ _) (fun _ => ih _ _)
      · refine Triple.bind (Q := fun _ => I) (Triple.pure _ (fun _ h => h)) (fun _ => ?_)
        exact Triple.bind (sleep_keeps hI _ _ _) (fun _ => ih _ _)
    split
    · exact Triple.bind (Q := fun _ => I) (Triple.pure _ (fun _ h => h)) (fun _ => hrest _)
    · refine Triple.bind (lookupVbv_keeps hI _ True).exc (fun info => ?_)
      split <;>
        exact Triple.bind (Q := fun _ => I) (Triple.pure _ (fun _ h => h)) (fun _ => hrest _)

theorem handleMassVbv_keeps {I : World → Prop} (hI : Stable I)
    (hcharge : ∀ w uid (n : Int), 0 ≤ n → I w →
      I { w with users := setAntispamTime (deductCredit w.users uid n).2 w.now uid })
    (chat messageText userId : Str) :
    Triple I (handleMassVbv chat messageText userId) (fun _ => I) I True := by
  unfold handleMassVbv
  refine Triple.bindGetW (fun w0 h0 => Triple.at ?_ h0)
  simp only
  split
  · exact reply_keeps hI _ _
  · split
    · exact reply_keeps hI _ _
    · split
      · exact Triple.throwM (fun _ h => h)
      · split
        · exact reply_keeps hI _ _
        · refine Triple.bind (sendText_keeps hI _ _ True).exc (fun key => ?_)
          refine Triple.bind (massVbvLoop_keeps hI _ _ _ _ _ _) (fun _ => ?_)
          refine Triple.bind (editText_keeps hI _ _ _ True).exc (fun _ => ?_)
          exact chargeAndTouch_keeps hcharge _ _ (Int.natCast_nonneg _)

theorem handleAddVbv_keeps {I : World → Prop} (hI : Stable I) (chat messageText userId : Str) :
    Triple I (handleAddVbv chat messageText userId) (fun _ => I) I True := by
  unfold handleAddVbv
  refine Triple.bindGetW (fun w0 h0 => ?_)
  split
  · exact (reply_keeps hI _ _).at h0
  · split
    · simp only
      split
      · refine Triple.bindSetW ?_
        exact (reply_keeps hI _ _).at (hI.same h0 rfl rfl)
      · exact (reply_keeps hI _ _).at h0
    · exact (reply_keeps hI _ _).at h0

theorem handleRemoveVbv_keeps {I : World → Prop} (hI : Stable I)
    (chat messageText userId : Str) :
    Triple I (handleRemoveVbv chat messageText userId) (fun _ => I) I True := by
  unfold handleRemoveVbv
  refine Triple.bindGetW (fun w0 h0 => ?_)
  split
  · exact (reply_keeps hI _ _).at h0
  · split
    · split
      · refine Triple.bindSetW ?_
        exact (reply_keeps hI _ _).at (hI.same h0 rfl rfl)
      · exact (reply_keeps hI _ _).at h0
    · exact (reply_keeps hI _ _).at h0


theorem dispatch_keeps {I : World → Prop} (hI : Stable I)
    (hreg : ∀ w uid name, I w → getUser w.users uid = none →
      I { w with users := registerUser w.users w.now uid name })
    (fuel : Nat) (chat messageText senderName userId command : Str)
    (hcheck : isCheckCommand command = true → ∀ w uid (n : Int), 0 ≤ n → I w →
      I { w with users := setAntispamTime (deductCredit w.users uid n).2 w.now uid }) :
    Triple I (dispatch fuel chat messageText senderName userId command) (fun _ => I) I True := by
  unfold dispatch
  by_cases h1 : command = "/start".toList
  · rw [if_pos h1]; exact handleStart_keeps hI _ _
  rw [if_neg h1]
  by_cases h2 : command = "/register".toList
  · rw [if_pos h2]; exact handleRegister_keeps hI hreg _ _ _
  rw [if_neg h2]
  by_cases h3 : command = "/ping".toList
  · rw [if_pos h3]; exact handlePing_keeps hI _
  rw [if_neg h3]
  by_cases h4 : command = "/gen".toList
  · rw [if_pos h4]; exact handleGen_keeps hI _ _ _ _ _
  rw [if_neg h4]
  by_cases h5 : command = "/bin".toList
  · rw [if_pos h5]; exact handleBin_keeps hI _ _
  rw [if_neg h5]
  by_cases h6 : command = "/id".toList
  · rw [if_pos h6]; exact handleId_keeps hI _ _ _
  rw [if_neg h6]
  by_cases h7 : command = "/ad".toList ∨ command = "/b4".toList
  · rw [if_pos h7]
    exact handleSingleGate_keeps hI
      (hcheck (by rcases h7 with h | h <;> rw [h] <;> decide)) _ _ _ _
  rw [if_neg h7]
  by_cases h8 : command = "/mad".toList ∨ command = "/mb4".toList
  · rw [if_pos h8]
    exact handleMassGate_keeps hI
      (hcheck (by rcases h8 with h | h <;> rw [h] <;> decide)) _ _ _ _ _
  rw [if_neg h8]
  by_cases h9 : command = "/vbv".toList
  · rw [if_pos h9]; exact handleVbv_keeps hI (hcheck (by rw [h9]; decide)) _ _ _
  rw [if_neg h9]
  by_cases h10 : command = "/mvbv".toList
  · rw [if_pos h10]; exact handleMassVbv_keeps hI (hcheck (by rw [h10]; decide)) _ _ _
  rw [if_neg h10]
  by_cases h11 : command = "/addvbv".toList
  · rw [if_pos h11]; exact handleAddVbv_keeps hI _ _ _
  rw [if_neg h11]
  by_cases h12 : command = "/rmvbv".toList
  · rw [if_pos h12]; exact handleRemoveVbv_keeps hI _ _ _
  rw [if_neg h12]
  exact reply_keeps hI _ _

theorem handleCommand_keeps {I : World → Prop} (hI : Stable I)
    (hreg : ∀ w uid name, I w → getUser w.users uid = none →
      I { w with users := registerUser w.users w.now uid name })
    (fuel : Nat) (chat messageText senderName userId : Str)
    (hcheck : isCheckCommand (commandOf messageText) = true → ∀ w uid (n : Int), 0 ≤ n →
      I w → I { w with users := setAntispamTime (deductCredit w.users uid n).2 w.now uid }) :
    Triple I (handleCommand fuel chat messageText senderName userId) (fun _ => I) I True := by
  unfold handleCommand
  show Triple I (getW >>= _) _ _ _
  refine Triple.bindGetW (fun w0 h0 => Triple.at ?_ h0)
  split
  · exact reply_keeps hI _ _
  · exact dispatch_keeps hI hreg _ _ _ _ _ _ hcheck

theorem onMessage_keeps {I : World → Prop} (hI : Stable I)
    (hreg : ∀ w uid name, I w → getUser w.users uid = none →
      I { w with users := registerUser w.users w.now uid name })
    (fuel : Nat) (m : InMsg)
    (hcheck : isCheckCommand (commandOf m.text) = true → ∀ w uid (n : Int), 0 ≤ n →
      I w → I { w with users := setAntispamTime (deductCredit w.users uid n).2 w.now uid }) :
    Triple I (onMessage fuel m) (fun _ => I) I True := by
  unfold onMessage
  split
  · exact Triple.pure _ (fun _ h => h)
  · split
    · exact Triple.tryCatch (handleCommand_keeps hI hreg _ _ _ _ _ hcheck) (reply_keeps hI _ _)
    · exact Triple.pure _ (fun _ h => h)

/-- What `onMessage_keeps` says about the world a run ends in. -/
theorem onMessage_world {I : World → Prop} (hI : Stable I)
    (hreg : ∀ w uid name, I w → getUser w.users uid = none →
      I { w with users := registerUser w.users w.now uid name })
    (fuel : Nat) (m : InMsg)
    (hcheck : isCheckCommand (commandOf m.text) = true → ∀ w uid (n : Int), 0 ≤ n →
      I w → I { w with users := setAntispamTime (deductCredit w.users uid n).2 w.now uid })
    {w w' : World} (hw : I w) (hrun : (onMessage fuel m w).world? = some w') : I w' := by
  have h := onMessage_keeps hI hreg fuel m hcheck w hw
  cases hr : onMessage fuel m w with
  | ok a w1 =>
    rw [hr] at h hrun
    simp only [Res.world?, Option.some.injEq] at hrun
    exact hrun ▸ h
  | threw w1 =>
    rw [hr] at h hrun
    simp only [Res.world?, Option.some.injEq] at hrun
    exact hrun ▸ h
  | diverged =>
    rw [hr] at hrun
    simp [Res.world?] at hrun


/-! ## C5: the ledger under the commands -/

theorem getUser_registerUser (users : Users) (now : Int) (userId username id : Str) :
    getUser (registerUser users now userId username) id =
      if id = userId then
        some { id := userId
               username := if username = [] then "Unknown".toList else username
               status := "FREE".toList
               credit := 100
               antispam_time := now
               reg_at := now
               role := "FREE".toList }
      else getUser users id := by
  unfold getUser registerUser
  by_cases h : id = userId
  · rw [if_pos h, h, mapGet_mapSet_self]
  · rw [if_neg h, mapGet_mapSet_ne _ _ h]

theorem getUser_charged (users : Users) (userId : Str) (amount now : Int) (id : Str) :
    getUser (setAntispamTime (deductCredit users userId amount).2 now userId) id =
      if id = userId then
        (getUser users userId).map fun u =>
          { u with credit := if u.credit ≥ amount then u.credit - amount else u.credit
                   antispam_time := now }
      else getUser users id := by
  unfold getUser setAntispamTime deductCredit
  cases hu : mapGet users userId with
  | none =>
    simp only [hu, Option.map_none']
    split <;> simp_all
  | some u =>
    by_cases hge : u.credit ≥ amount
    · simp only [hge, if_true, mapGet_mapSet_self, Option.map_some']
      by_cases h : id = userId
      · rw [if_pos h, h, mapGet_mapSet_self]
      · rw [if_neg h, mapGet_mapSet_ne _ _ h, mapGet_mapSet_ne _ _ h]
    · simp only [hge, if_false, hu, Option.map_some']
      by_cases h : id = userId
      · rw [if_pos h, h, mapGet_mapSet_self]
      · rw [if_neg h, mapGet_mapSet_ne _ _ h]

theorem creditsBounded_register {users : Users} (h : CreditsBounded users) (now : Int)
    (userId username : Str) : CreditsBounded (registerUser users now userId username) := by
  intro id u hu
  rw [getUser_registerUser] at hu
  split at hu
  · cases hu; exact ⟨by show (0 : Int) ≤ 100; decide, by show (100 : Int) ≤ 100; decide⟩
  · exact h id u hu

theorem creditsBounded_charge {users : Users} (h : CreditsBounded users) (userId : Str)
    (amount now : Int) (hn : 0 ≤ amount) :
    CreditsBounded (setAntispamTime (deductCredit users userId amount).2 now userId) := by
  intro id u hu
  rw [getUser_charged] at hu
  split at hu
  · cases hb : getUser users userId with
    | none => simp [hb] at hu
    | some b =>
      have := h userId b hb
      simp only [hb, Option.map_some', Option.some.injEq] at hu
      rw [← hu]
      simp only
      split <;> omega
  · exact h id u hu


theorem stable_users (J : Users → Prop) : Stable (fun w => J w.users) :=
  fun _ _ hw hu _ => by simpa only [hu] using hw

theorem notRaised_register {before users : Users} (h : NotRaised before users) (now : Int)
    {userId : Str} (username : Str) (hnone : getUser users userId = none) :
    NotRaised before (registerUser users now userId username) := by
  intro id u hu
  obtain ⟨u', hu', hle⟩ := h id u hu
  have hid : id ≠ userId := fun e => by rw [e, hnone] at hu'; cases hu'
  exact ⟨u', by rw [getUser_registerUser, if_neg hid]; exact hu', hle⟩

theorem notRaised_charge {before users : Users} (h : NotRaised before users) (userId : Str)
    (amount now : Int) (hn : 0 ≤ amount) :
    NotRaised before (setAntispamTime (deductCredit users userId amount).2 now userId) := by
  intro id u hu
  obtain ⟨u', hu', hle⟩ := h id u hu
  rw [getUser_charged]
  by_cases hid : id = userId
  · rw [if_pos hid, ← hid, hu']
    refine ⟨_, rfl, ?_⟩
    simp only
    split <;> omega
  · rw [if_neg hid]
    exact ⟨u', hu', hle⟩

theorem untouched_register {before users : Users} (h : Untouched before users) (now : Int)
    {userId : Str} (username : Str) (hnone : getUser users userId = none) :
    Untouched before (registerUser users now userId username) := by
  intro id u hu
  have hu' := h id u hu
  have hid : id ≠ userId := fun e => by rw [e, hnone] at hu'; cases hu'
  rw [getUser_registerUser, if_neg hid]
  exact hu'

/-- After `/register` from a sender without an account, the sender has an
account with 100 credits, however the run ends. -/
theorem register_creates (fuel : Nat) (m : InMsg) (w w1 : World)
    (hmsg : m.hasMessage = true) (hme : m.fromMe = false)
    (hslash : startsWith m.text "/".toList = true)
    (hcmd : commandOf m.text = "/register".toList)
    (hnone : getUser w.users (userIdOf m) = none)
    (hrun : (onMessage fuel m w).world? = some w1) :
    ∃ u, getUser w1.users (userIdOf m) = some u ∧ u.credit = 100 := by
  have hI : Stable (fun w' : World =>
      ∃ u, getUser w'.users (userIdOf m) = some u ∧ u.credit = 100) :=
    stable_users (fun users => ∃ u, getUser users (userIdOf m) = some u ∧ u.credit = 100)
  have hcreated : ∃ u, getUser (registerUser w.users w.now (userIdOf m)
      (orElse m.pushName "User".toList)) (userIdOf m) = some u ∧ u.credit = 100 := by
    rw [getUser_registerUser, if_pos rfl]
    exact ⟨_, rfl, rfl⟩
  have key : Triple (fun w' => w' = w) (onMessage fuel m)
      (fun _ w' => ∃ u, getUser w'.users (userIdOf m) = some u ∧ u.credit = 100)
      (fun w' => ∃ u, getUser w'.users (userIdOf m) = some u ∧ u.credit = 100) True := by
    unfold onMessage
    simp only [hmsg, hme, hslash, Bool.not_true, Bool.or_self, Bool.false_eq_true, if_false,
      if_true]
    refine Triple.tryCatch (F := fun w' =>
      ∃ u, getUser w'.users (userIdOf m) = some u ∧ u.credit = 100) ?_ (reply_keeps hI _ _)
    unfold handleCommand
    show Triple _ (getW >>= _) _ _ _
    refine Triple.bindGetW (fun w0 h0 => ?_)
    rw [hcmd, if_neg (fun h => h.2.1 (by decide))]
    unfold dispatch
    rw [if_neg (by decide), if_pos rfl]
    unfold handleRegister
    intro w' hw'
    rw [hw', getW_bind, h0, hnone]
    simp only
    rw [setW_bind]
    exact reply_keeps hI _ _ _ hcreated
  have h := key w rfl
  cases hr : onMessage fuel m w with
  | ok a w2 =>
    rw [hr] at h hrun
    simp only [Res.world?, Option.some.injEq] at hrun
    exact hrun ▸ h
  | threw w2 =>
    rw [hr] at h hrun
    simp only [Res.world?, Option.some.injEq] at hrun
    exact hrun ▸ h
  | diverged =>
    rw [hr] at hrun
    simp [Res.world?] at hrun

/-- C5: in every account store reachable from the empty one through inbound
events of the backup entry point every account holds between 0 and 100
credits; no event raises the credits of an account; an event whose command is
not a gate or VBV check leaves every account as it was; and `/register` from
a sender without an account followed by `/gen` from the same sender ends with
a balance of 100. -/
theorem ledger_under_commands :
    (∀ users, ReachableUsers users → CreditsBounded users) ∧
    (∀ (fuel : Nat) (m : InMsg) (w w' : World), (onMessage fuel m w).world? = some w' →
      NotRaised w.users w'.users) ∧
    (∀ (fuel : Nat) (m : InMsg) (w w' : World), isCheckCommand (commandOf m.text) = false →
      (onMessage fuel m w).world? = some w' → Untouched w.users w'.users) ∧
    (∀ (fuel fuel' : Nat) (m m' : InMsg) (w w1 w1' w2 : World),
      m.hasMessage = true → m.fromMe = false → startsWith m.text "/".toList = true →
      commandOf m.text = "/register".toList → getUser w.users (userIdOf m) = none →
      (onMessage fuel m w).world? = some w1 →
      w1'.users = w1.users → userIdOf m' = userIdOf m → commandOf m'.text = "/gen".toList →
      (onMessage fuel' m' w1').world? = some w2 →
      ∃ u, getUser w2.users (userIdOf m) = some u ∧ u.credit = 100) := by
  have hb : ∀ (fuel : Nat) (m : InMsg) (w w' : World),
      (onMessage fuel m w).world? = some w' → NotRaised w.users w'.users := by
    intro fuel m w w' hrun
    exact onMessage_world (I := fun x => NotRaised w.users x.users) (stable_users _)
      (fun x uid name hx hnone => notRaised_register hx x.now name hnone) fuel m
      (fun _ x uid n hn hx => notRaised_charge hx uid n x.now hn)
      (fun id u hu => ⟨u, hu, le_refl _⟩) hrun
  have hc : ∀ (fuel : Nat) (m : InMsg) (w w' : World),
      isCheckCommand (commandOf m.text) = false →
      (onMessage fuel m w).world? = some w' → Untouched w.users w'.users := by
    intro fuel m w w' hcmd hrun
    exact onMessage_world (I := fun x => Untouched w.users x.users) (stable_users _)
      (fun x uid name hx hnone => untouched_register hx x.now name hnone) fuel m
      (fun h => by rw [hcmd] at h; cases h)
      (fun id u hu => hu) hrun
  refine ⟨?_, hb, hc, ?_⟩
  · intro users hreach
    induction hreach with
    | empty => intro id u hu; simp [getUser, mapGet] at hu
    | step w w' fuel m _ hrun ih =>
      exact onMessage_world (I := fun x => CreditsBounded x.users) (stable_users _)
        (fun x uid name hx _ => creditsBounded_register hx x.now uid name) fuel m
        (fun _ x uid n hn hx => creditsBounded_charge hx uid n x.now hn) ih hrun
  · intro fuel fuel' m m' w w1 w1' w2 hmsg hme hslash hcmd hnone hrun husers hid hgen hrun'
    obtain ⟨u, hu, hcredit⟩ := register_creates fuel m w w1 hmsg hme hslash hcmd hnone hrun
    refine ⟨u, ?_, hcredit⟩
    exact hc fuel' m' w1' w2 (by rw [hgen]; decide) hrun' _ u (by rw [husers]; exact hu)

/-- Witness of `ledger_under_commands`: user `u`, without an account, sends
`/register` and then `/gen 447697 5`; both runs end and the balance is 100. -/
theorem ledger_under_commands_witness :
    getUser (emptyWorld 0 []).users (userIdOf (textFromU "/register".toList)) = none ∧
    (onMessage 1 (textFromU "/register".toList) (emptyWorld 0 [])).world? =
      some (registeredWorld) ∧
    (onMessage 1 (textFromU "/gen 447697 5".toList)
        { registeredWorld with
          rnd := (List.replicate 5 [1, 1, 0, 0, 0, 0, 0, 0, 0, 0, 0, 0]).flatten }).world? =
      some generatedWorld ∧
    ∃ u, getUser generatedWorld.users (userIdOf (textFromU "/register".toList)) = some u ∧
      u.credit = 100 :=
  ⟨by decide, by decide, by decide,
   ledger_under_commands.2.2.2 1 1 (textFromU "/register".toList)
     (textFromU "/gen 447697 5".toList) (emptyWorld 0 []) registeredWorld
     { registeredWorld with
       rnd := (List.replicate 5 [1, 1, 0, 0, 0, 0, 0, 0, 0, 0, 0, 0]).flatten }
     generatedWorld (by decide) (by decide) (by decide) (by decide) (by decide) (by decide)
     rfl (by decide) (by decide) (by decide)⟩


/-! ## A single-gate check that runs with nothing else in between -/

theorem Res.sat_ok {α : Type} {Q : α → World → Prop} {r : Res α}
    (h : r.sat Q (fun _ => False) False) : ∃ a w', r = .ok a w' ∧ Q a w' := by
  cases r with
  | ok a w' => exact ⟨a, w', rfl, h⟩
  | threw w' => exact h.elim
  | diverged => exact h.elim

theorem stable_smooth (users : Users) : Stable (fun w => w.users = users ∧ Smooth w) :=
  fun _ _ hw hu hn => ⟨hu.trans hw.1, fun b hb => hw.2 b (hn b hb)⟩

theorem Triple.smooth {α : Type} {users : Users} {Q : α → World → Prop} {x : M α}
    (h : Triple (fun w => w.users = users ∧ Smooth w) x Q
      (Exc (fun w => w.users = users ∧ Smooth w)) False) :
    Triple (fun w => w.users = users ∧ Smooth w) x Q (fun _ => False) False := by
  refine h.weaken (fun _ hw => hw) (fun _ _ hq => hq) ?_ (fun hd => hd)
  rintro w' ⟨_, w0, ⟨_, hs⟩, hhead⟩
  cases hn : w0.net with
  | nil => rw [hn] at hhead; cases hhead
  | cons b rest =>
    rw [hn] at hhead
    have := hs b (by rw [hn]; exact List.mem_cons_self _ _)
    simp only [List.headD_cons] at hhead
    rw [this] at hhead
    cases hhead

/-- The run of `handleSingleGate` once the checks have passed and a card was
found, when every transport call is delivered: it ends normally, the caller's
credit is lowered by one, the caller's cooldown timestamp is the clock at the
end of the run, and no other account changes. -/
theorem handleSingleGate_charges (chat messageText userId command : Str) (w : World) (u : User)
    (d : CcData) (hu : getUser w.users userId = some u)
    (hcool : checkAntispam w.users w.now userId = true) (hcredit : 1 ≤ u.credit)
    (hcard : extractCC messageText = some d) (hnet : Smooth w) :
    ∃ w', handleSingleGate chat messageText userId command w = .ok () w' ∧
      getUser w'.users userId =
        some { u with credit := u.credit - 1, antispam_time := w'.now } ∧
      ∀ id, id ≠ userId → getUser w'.users id = getUser w.users id := by
  have hJ := stable_smooth w.users
  have hend : Triple (fun x => x.users = w.users ∧ Smooth x) (chargeAndTouch userId 1)
      (fun _ w' => getUser w'.users userId =
          some { u with credit := u.credit - 1, antispam_time := w'.now } ∧
        ∀ id, id ≠ userId → getUser w'.users id = getUser w.users id)
      (fun _ => False) False := by
    intro x hx
    show (fun w' : World => getUser w'.users userId =
          some { u with credit := u.credit - 1, antispam_time := w'.now } ∧
        ∀ id, id ≠ userId → getUser w'.users id = getUser w.users id)
      { x with users := setAntispamTime (deductCredit x.users userId 1).2 x.now userId }
    simp only [getUser_charged, hx.1, hu, if_true, Option.map_some', ge_iff_le, hcredit]
    exact ⟨trivial, fun id hid => by rw [if_neg hid]⟩
  have hbody := Triple.bind (R := fun _ w' => getUser w'.users userId =
          some { u with credit := u.credit - 1, antispam_time := w'.now } ∧
        ∀ id, id ≠ userId → getUser w'.users id = getUser w.users id)
      (sendText_keeps hJ chat
        (.checking 0 (fullccOf d) (gatewayNameOf command "/ad".toList)) False).smooth
      (fun checkMsg =>
        Triple.bind (editFrames_keeps hJ chat checkMsg 500 False
            [.checking 1 (fullccOf d) (gatewayNameOf command "/ad".toList),
             .checking 2 (fullccOf d) (gatewayNameOf command "/ad".toList)]).smooth
          (fun _ =>
            Triple.bind (simulatePaymentGate_keeps hJ (fullccOf d)
                (gatewayNameOf command "/ad".toList) False).smooth
              (fun result =>
                Triple.bindGetW (fun w1 h1 =>
                  Triple.at
                    (Triple.bind (editText_keeps hJ chat checkMsg
                        (.gateResult result (fullccOf d) (gatewayNameOf command "/ad".toList)
                          (getBinInfo w1.binDatabase (substring0 6 d.cc))) False).smooth
                      (fun _ => hend)) h1))))
  have hrun := hbody w ⟨rfl, hnet⟩
  have hlt : ¬ u.credit < 1 := not_lt.2 hcredit
  obtain ⟨a, w', hr, hq⟩ := Res.sat_ok hrun
  refine ⟨w', ?_, hq⟩
  rw [← hr]
  unfold handleSingleGate
  rw [getW_bind]
  simp only [hcool, hu, hcard, hlt, Bool.not_true, Bool.false_eq_true, if_false]


/-- When no other activation runs between its start and its end (the event is
handled to its end, as `handleCommand` does here), a single-gate check (`/ad`
or `/b4`) by a registered caller whose
cooldown has elapsed, who holds at least one credit and whose message yields a
card, run with a transport that delivers, ends normally with the caller's
credit lowered by exactly 1 and the caller's cooldown timestamp set to the
clock at the end of the run, for every random outcome of the gate simulator;
nobody else's account changes, and a caller with exactly 1 credit ends with 0. -/
theorem single_gate_costs_one_credit (fuel : Nat) (chat text senderName userId : Str)
    (w : World) (u : User) (d : CcData)
    (hcmd : commandOf text = "/ad".toList ∨ commandOf text = "/b4".toList)
    (hu : getUser w.users userId = some u)
    (hcool : checkAntispam w.users w.now userId = true) (hcredit : 1 ≤ u.credit)
    (hcard : extractCC text = some d) (hnet : Smooth w) :
    ∃ w', handleCommand fuel chat text senderName userId w = .ok () w' ∧
      getUser w'.users userId =
        some { u with credit := u.credit - 1, antispam_time := w'.now } ∧
      (∀ id, id ≠ userId → getUser w'.users id = getUser w.users id) ∧
      (u.credit = 1 → ∃ u', getUser w'.users userId = some u' ∧ u'.credit = 0) := by
  obtain ⟨w', hrun, hq, hother⟩ :=
    handleSingleGate_charges chat text userId (commandOf text) w u d hu hcool hcredit hcard hnet
  refine ⟨w', ?_, hq, hother, fun h1 => ⟨_, hq, by simp [h1]⟩⟩
  rw [← hrun]
  unfold handleCommand
  show (getW >>= _) w = _
  rw [getW_bind, if_neg (fun h => by simp [hu] at h)]
  unfold dispatch
  rcases hcmd with h | h
  · rw [h, if_neg (by decide), if_neg (by decide), if_neg (by decide), if_neg (by decide),
      if_neg (by decide), if_neg (by decide), if_pos (Or.inl rfl)]
  · rw [h, if_neg (by decide), if_neg (by decide), if_neg (by decide), if_neg (by decide),
      if_neg (by decide), if_neg (by decide), if_pos (Or.inr rfl)]

/-- Witness of `single_gate_costs_one_credit`: user `u`, with exactly 1 credit,
sends `/ad 4000000000000000|12|25|123`; once with random values for which the
gate approves and once with values for which it declines. -/
theorem single_gate_costs_one_credit_witness :
    (∃ w', handleCommand 1 "u@s.whatsapp.net".toList "/ad 4000000000000000|12|25|123".toList
        "Al".toList "u".toList (gateWorld 1 0 [0, 0]) = .ok () w' ∧
      getUser w'.users "u".toList =
        some { sampleUser 1 0 with credit := (sampleUser 1 0).credit - 1,
                                    antispam_time := w'.now } ∧
      (∀ id, id ≠ "u".toList →
        getUser w'.users id = getUser (gateWorld 1 0 [0, 0]).users id) ∧
      ((sampleUser 1 0).credit = 1 →
        ∃ u', getUser w'.users "u".toList = some u' ∧ u'.credit = 0)) ∧
    (∃ w', handleCommand 1 "u@s.whatsapp.net".toList "/ad 4000000000000000|12|25|123".toList
        "Al".toList "u".toList (gateWorld 1 0 [0, 1, 0]) = .ok () w' ∧
      getUser w'.users "u".toList =
        some { sampleUser 1 0 with credit := (sampleUser 1 0).credit - 1,
                                    antispam_time := w'.now } ∧
      (∀ id, id ≠ "u".toList →
        getUser w'.users id = getUser (gateWorld 1 0 [0, 1, 0]).users id) ∧
      ((sampleUser 1 0).credit = 1 →
        ∃ u', getUser w'.users "u".toList = some u' ∧ u'.credit = 0)) :=
  ⟨single_gate_costs_one_credit 1 "u@s.whatsapp.net".toList
      "/ad 4000000000000000|12|25|123".toList "Al".toList "u".toList (gateWorld 1 0 [0, 0])
      (sampleUser 1 0) ⟨"400000".toList, "00".toList, "0000".toList, "0000".toList⟩
      (Or.inl (by decide)) (by decide) (by decide) (by decide) (by decide)
      (fun b hb => by simp [gateWorld, emptyWorld] at hb),
   single_gate_costs_one_credit 1 "u@s.whatsapp.net".toList
      "/ad 4000000000000000|12|25|123".toList "Al".toList "u".toList (gateWorld 1 0 [0, 1, 0])
      (sampleUser 1 0) ⟨"400000".toList, "00".toList, "0000".toList, "0000".toList⟩
      (Or.inl (by decide)) (by decide) (by decide) (by decide) (by decide)
      (fun b hb => by simp [gateWorld, emptyWorld] at hb)⟩


/-! ## C7, C10: the order of the checks -/

theorem reply_rejected (chat : Str) (msg : Msg) (w : World) :
    RejectedWith ((sendText chat msg >>= fun _ => (Pure.pure PUnit.unit : M PUnit)) w) w chat
      msg := by
  unfold RejectedWith
  rw [bind_apply]
  unfold sendText transport
  by_cases hn : w.net.headD true = true
  · simp only [hn, if_true]
    exact ⟨_, rfl, rfl, rfl, rfl, rfl, rfl⟩
  · simp only [hn]
    exact ⟨_, rfl, rfl, rfl, rfl, rfl, rfl⟩

/-- C7: for `/ad`, `/b4` and `/vbv` the checks run in the order registration,
cooldown, credit and stop at the first failure.  The run consists of a single
transport call, the reply that names the first failed check (the cooldown
reply whatever the balance is); the gate simulator and the VBV table are not
consulted and the account store is unchanged. -/
theorem checks_stop_at_first_failure (fuel : Nat) (chat text senderName userId : Str)
    (w : World)
    (hcmd : commandOf text = "/ad".toList ∨ commandOf text = "/b4".toList ∨
      commandOf text = "/vbv".toList) :
    (getUser w.users userId = none →
      RejectedWith (handleCommand fuel chat text senderName userId w) w chat .registerFirst) ∧
    (∀ u, getUser w.users userId = some u → checkAntispam w.users w.now userId = false →
      RejectedWith (handleCommand fuel chat text senderName userId w) w chat
        .antispamActive) ∧
    (∀ u, getUser w.users userId = some u → checkAntispam w.users w.now userId = true →
      u.credit < 1 →
      RejectedWith (handleCommand fuel chat text senderName userId w) w chat
        .needOneCredit) := by
  have hdrop : (commandOf text).drop 1 ≠ "start".toList ∧
      (commandOf text).drop 1 ≠ "register".toList := by
    rcases hcmd with h | h | h <;> rw [h] <;> exact ⟨by decide, by decide⟩
  have hdisp : ∀ u, getUser w.users userId = some u →
      handleCommand fuel chat text senderName userId w =
        (if commandOf text = "/vbv".toList then handleVbv chat text userId
         else handleSingleGate chat text userId (commandOf text)) w := by
    intro u hu
    unfold handleCommand
    show (getW >>= _) w = _
    rw [getW_bind, if_neg (fun h => by simp [hu] at h)]
    unfold dispatch
    rcases hcmd with h | h | h
    · rw [h, if_neg (by decide), if_neg (by decide), if_neg (by decide), if_neg (by decide),
        if_neg (by decide), if_neg (by decide), if_pos (Or.inl rfl), if_neg (by decide)]
    · rw [h, if_neg (by decide), if_neg (by decide), if_neg (by decide), if_neg (by decide),
        if_neg (by decide), if_neg (by decide), if_pos (Or.inr rfl), if_neg (by decide)]
    · rw [h, if_neg (by decide), if_neg (by decide), if_neg (by decide), if_neg (by decide),
        if_neg (by decide), if_neg (by decide), if_neg (by decide), if_neg (by decide),
        if_pos rfl, if_pos rfl]
  refine ⟨?_, ?_, ?_⟩
  · intro hnone
    have : handleCommand fuel chat text senderName userId w =
        (sendText chat .registerFirst >>= fun _ => (Pure.pure PUnit.unit : M PUnit)) w := by
      unfold handleCommand
      show (getW >>= _) w = _
      rw [getW_bind, if_pos ⟨hdrop.1, hdrop.2, by simp [hnone]⟩]
    rw [this]
    exact reply_rejected _ _ _
  · intro u hu hcool
    have : handleCommand fuel chat text senderName userId w =
        (sendText chat .antispamActive >>= fun _ => (Pure.pure PUnit.unit : M PUnit)) w := by
      rw [hdisp u hu]
      split
      · unfold handleVbv
        rw [getW_bind]
        simp only [hcool, Bool.not_false, if_true]
      · unfold handleSingleGate
        rw [getW_bind]
        simp only [hcool, Bool.not_false, if_true]
    rw [this]
    exact reply_rejected _ _ _
  · intro u hu hcool hlow
    have : handleCommand fuel chat text senderName userId w =
        (sendText chat .needOneCredit >>= fun _ => (Pure.pure PUnit.unit : M PUnit)) w := by
      rw [hdisp u hu]
      split
      · unfold handleVbv
        rw [getW_bind]
        simp only [hcool, hu, hlow, Bool.not_true, Bool.false_eq_true, if_false, if_true]
      · unfold handleSingleGate
        rw [getW_bind]
        simp only [hcool, hu, hlow, Bool.not_true, Bool.false_eq_true, if_false, if_true]
    rw [this]
    exact reply_rejected _ _ _

/-- Witness of `checks_stop_at_first_failure`: `/ad` from a sender without an
account; from user `u` with no credit 5 s after the last touch (both later
checks fail, the cooldown reply is sent); and `/vbv` from user `u` with no
credit and an elapsed cooldown. -/
theorem checks_stop_at_first_failure_witness :
    RejectedWith (handleCommand 1 "u@s.whatsapp.net".toList "/ad 4000000000000000".toList
        "Al".toList "u".toList (emptyWorld 20000 [])) (emptyWorld 20000 [])
      "u@s.whatsapp.net".toList .registerFirst ∧
    RejectedWith (handleCommand 1 "u@s.whatsapp.net".toList "/ad 4000000000000000".toList
        "Al".toList "u".toList (gateWorld 0 15000 [])) (gateWorld 0 15000 [])
      "u@s.whatsapp.net".toList .antispamActive ∧
    RejectedWith (handleCommand 1 "u@s.whatsapp.net".toList "/vbv 4000000000000000".toList
        "Al".toList "u".toList (gateWorld 0 0 [])) (gateWorld 0 0 [])
      "u@s.whatsapp.net".toList .needOneCredit :=
  ⟨(checks_stop_at_first_failure 1 "u@s.whatsapp.net".toList "/ad 4000000000000000".toList
      "Al".toList "u".toList (emptyWorld 20000 []) (Or.inl (by decide))).1 (by decide),
   (checks_stop_at_first_failure 1 "u@s.whatsapp.net".toList "/ad 4000000000000000".toList
      "Al".toList "u".toList (gateWorld 0 15000 []) (Or.inl (by decide))).2.1
      (sampleUser 0 15000) (by decide) (by decide),
   (checks_stop_at_first_failure 1 "u@s.whatsapp.net".toList "/vbv 4000000000000000".toList
      "Al".toList "u".toList (gateWorld 0 0 []) (Or.inr (Or.inr (by decide)))).2.2
      (sampleUser 0 0) (by decide) (by decide) (by decide)⟩


theorem transport_noRegisterFirst (w0 : World) (e : Nat → Event) (D : Prop)
    (he : ∀ key chat, e key ≠ Event.send chat Msg.registerFirst) :
    Triple (NoRegisterFirst w0) (transport e) (fun _ => NoRegisterFirst w0)
      (NoRegisterFirst w0) D := by
  intro w hw
  have h1 : NoRegisterFirst w0
      { w with now := w.now + w.lag.headD 0, lag := w.lag.tail,
               log := w.log ++ [e w.log.length], net := w.net.tail } := by
    intro ev hev
    rcases List.mem_append.1 hev with h | h
    · exact hw ev h
    · rw [List.mem_singleton.1 h]
      exact Or.inr (he _)
  unfold transport
  by_cases hn : w.net.headD true = true
  · simp only [hn, if_true]; exact h1
  · simp only [hn]; exact h1

theorem sleep_noRegisterFirst (w0 : World) (ms : Nat) (D : Prop) :
    Triple (NoRegisterFirst w0) (sleep ms) (fun _ => NoRegisterFirst w0)
      (NoRegisterFirst w0) D :=
  fun _ hw => hw

theorem editText_noRegisterFirst (w0 : World) (chat : Str) (key : Nat) (msg : Msg) (D : Prop) :
    Triple (NoRegisterFirst w0) (editText chat key msg) (fun _ => NoRegisterFirst w0)
      (NoRegisterFirst w0) D :=
  Triple.bind (transport_noRegisterFirst w0 _ D (fun _ _ h => by cases h))
    (fun _ => Triple.pure _ (fun _ h => h))

theorem editFrames_noRegisterFirst (w0 : World) (chat : Str) (key delay : Nat) (D : Prop) :
    ∀ frames : List Msg,
    Triple (NoRegisterFirst w0) (editFrames chat key delay frames)
      (fun _ => NoRegisterFirst w0) (NoRegisterFirst w0) D := by
  intro frames
  induction frames with
  | nil => exact Triple.pure _ (fun _ h => h)
  | cons frame frames ih =>
    unfold editFrames
    exact Triple.bind (sleep_noRegisterFirst w0 _ D)
      (fun _ => Triple.bind (editText_noRegisterFirst w0 _ _ _ D) (fun _ => ih))

theorem handleStart_noRegisterFirst (w0 : World) (chat senderName : Str) :
    Triple (NoRegisterFirst w0) (handleStart chat senderName) (fun _ => NoRegisterFirst w0)
      (NoRegisterFirst w0) False := by
  unfold handleStart
  refine Triple.bind (transport_noRegisterFirst w0 _ _ (fun _ _ h => by cases h))
    (fun key => ?_)
  refine Triple.bind (editFrames_noRegisterFirst w0 _ _ _ _ _) (fun _ => ?_)
  refine Triple.bind (sleep_noRegisterFirst w0 _ _) (fun _ => ?_)
  exact editText_noRegisterFirst w0 _ _ _ _

theorem handleRegister_noRegisterFirst (w0 : World) (chat senderName userId : Str) :
    Triple (NoRegisterFirst w0) (handleRegister chat senderName userId)
      (fun _ => NoRegisterFirst w0) (NoRegisterFirst w0) False := by
  unfold handleRegister
  refine Triple.bindGetW (fun w1 h1 => ?_)
  split
  · refine Triple.at ?_ h1
    exact Triple.bind (transport_noRegisterFirst w0 _ _ (fun _ _ h => by cases h))
      (fun _ => Triple.pure _ (fun _ h => h))
  · refine Triple.bindSetW ?_
    have h2 : NoRegisterFirst w0
        { w1 with users := registerUser w1.users w1.now userId senderName } := h1
    refine Triple.at ?_ h2
    exact Triple.bind (transport_noRegisterFirst w0 _ _ (fun _ _ h => by cases h))
      (fun _ => Triple.pure _ (fun _ h => h))

theorem Triple.world {P : World → Prop} {Q : World → Prop} {x : M Unit} {w : World}
    (h : Triple P x (fun _ => Q) Q False) (hw : P w) :
    ∃ w', (x w).world? = some w' ∧ Q w' := by
  have := h w hw
  cases hr : x w with
  | ok a w1 => rw [hr] at this; exact ⟨w1, rfl, this⟩
  | threw w1 => rw [hr] at this; exact ⟨w1, rfl, this⟩
  | diverged => rw [hr] at this; exact this.elim

/-- C10 (as stated) fails: `/ping` and `/help` from a sender without an account
are answered with the register-first reply and nothing else. -/
theorem ping_needs_registration_counterexample :
    (handleCommand 1 "u@s.whatsapp.net".toList "/ping".toList "Al".toList "u".toList
        (emptyWorld 0 [])).world?.map (fun w => w.log) =
      some [Event.send "u@s.whatsapp.net".toList Msg.registerFirst] ∧
    (handleCommand 1 "u@s.whatsapp.net".toList "/help".toList "Al".toList "u".toList
        (emptyWorld 0 [])).world?.map (fun w => w.log) =
      some [Event.send "u@s.whatsapp.net".toList Msg.registerFirst] := by
  decide

/-- C10 (as amended): the dispatcher requires an account for every command
except `/start` and `/register`.  For these two it runs the handler, whose
run ends and sends no register-first reply; a sender without an account of
any other command `/name` gets the register-first reply as the only
transport call, and the accounts, the VBV table and the files are unchanged. -/
theorem dispatcher_registration_gate (fuel : Nat) (chat text senderName userId : Str)
    (w : World) :
    (commandOf text = "/start".toList →
      handleCommand fuel chat text senderName userId w = handleStart chat senderName w ∧
      ∃ w', (handleStart chat senderName w).world? = some w' ∧ NoRegisterFirst w w') ∧
    (commandOf text = "/register".toList →
      handleCommand fuel chat text senderName userId w =
        handleRegister chat senderName userId w ∧
      ∃ w', (handleRegister chat senderName userId w).world? = some w' ∧
        NoRegisterFirst w w') ∧
    (∀ name, commandOf text = '/' :: name → name ≠ "start".toList →
      name ≠ "register".toList → getUser w.users userId = none →
      RejectedWith (handleCommand fuel chat text senderName userId w) w chat
        .registerFirst) := by
  have hw : NoRegisterFirst w w := fun e he => Or.inl he
  refine ⟨?_, ?_, ?_⟩
  · intro h
    refine ⟨?_, (handleStart_noRegisterFirst w chat senderName).world hw⟩
    unfold handleCommand
    show (getW >>= _) w = _
    rw [getW_bind, h, if_neg (fun hc => hc.1 (by decide))]
    unfold dispatch
    rw [if_pos rfl]
  · intro h
    refine ⟨?_, (handleRegister_noRegisterFirst w chat senderName userId).world hw⟩
    unfold handleCommand
    show (getW >>= _) w = _
    rw [getW_bind, h, if_neg (fun hc => hc.2.1 (by decide))]
    unfold dispatch
    rw [if_neg (by decide), if_pos rfl]
  · intro name h hs hr hnone
    have : handleCommand fuel chat text senderName userId w =
        (sendText chat .registerFirst >>= fun _ => (Pure.pure PUnit.unit : M PUnit)) w := by
      unfold handleCommand
      show (getW >>= _) w = _
      rw [getW_bind, h, if_pos ⟨hs, hr, by simp [hnone]⟩]
    rw [this]
    exact reply_rejected _ _ _

/-- Witness of `dispatcher_registration_gate`: `/start`, `/register` and `/gen`
from a sender without an account. -/
theorem dispatcher_registration_gate_witness :
    (handleCommand 1 "u@s.whatsapp.net".toList "/start".toList "Al".toList "u".toList
        (emptyWorld 0 []) = handleStart "u@s.whatsapp.net".toList "Al".toList (emptyWorld 0 []) ∧
      ∃ w', (handleStart "u@s.whatsapp.net".toList "Al".toList (emptyWorld 0 [])).world? =
        some w' ∧ NoRegisterFirst (emptyWorld 0 []) w') ∧
    (handleCommand 1 "u@s.whatsapp.net".toList "/register".toList "Al".toList "u".toList
        (emptyWorld 0 []) =
        handleRegister "u@s.whatsapp.net".toList "Al".toList "u".toList (emptyWorld 0 []) ∧
      ∃ w', (handleRegister "u@s.whatsapp.net".toList "Al".toList "u".toList
        (emptyWorld 0 [])).world? = some w' ∧ NoRegisterFirst (emptyWorld 0 []) w') ∧
    RejectedWith (handleCommand 1 "u@s.whatsapp.net".toList "/gen 447697".toList "Al".toList
        "u".toList (emptyWorld 0 [])) (emptyWorld 0 []) "u@s.whatsapp.net".toList
      .registerFirst :=
  ⟨(dispatcher_registration_gate 1 "u@s.whatsapp.net".toList "/start".toList "Al".toList
      "u".toList (emptyWorld 0 [])).1 (by decide),
   (dispatcher_registration_gate 1 "u@s.whatsapp.net".toList "/register".toList "Al".toList
      "u".toList (emptyWorld 0 [])).2.1 (by decide),
   (dispatcher_registration_gate 1 "u@s.whatsapp.net".toList "/gen 447697".toList "Al".toList
      "u".toList (emptyWorld 0 [])).2.2 "gen".toList (by decide) (by decide) (by decide)
      (by decide)⟩


/-! ## C20: adding a VBV token -/

theorem length_mapSet_of_isSome {α : Type} (m : List (Str × α)) (k : Str) (v : α)
    (h : (mapGet m k).isSome = true) : (mapSet m k v).length = m.length := by
  induction m with
  | nil => simp [mapGet] at h
  | cons e rest ih =>
    obtain ⟨k0, v0⟩ := e
    by_cases h0 : k0 = k
    · simp [mapSet, h0]
    · simp only [mapGet, h0, if_false] at h
      simp [mapSet, h0, ih h]

/-- C20: for a token line whose first three pipe-separated fields are `bin`,
`status` and `response`, `addVbvToken` succeeds and `getVbvInfo(bin)` then
returns exactly that status and response; the records of all other BINs are
untouched, and when the BIN was already in the table the number of records
is unchanged (the record is replaced, not duplicated). -/
theorem addVbvToken_get (db : VbvDb) (token bin status response : Str) (more : List Str)
    (h : split '|' token = bin :: status :: response :: more) :
    (addVbvToken db token).1 = true ∧
    getVbvInfo (addVbvToken db token).2.1 bin =
      some { status := status, response := response } ∧
    (∀ other, other ≠ bin →
      getVbvInfo (addVbvToken db token).2.1 other = getVbvInfo db other) ∧
    ((getVbvInfo db bin).isSome = true → (addVbvToken db token).2.1.length = db.length) := by
  unfold addVbvToken getVbvInfo
  rw [h]
  exact ⟨rfl, mapGet_mapSet_self _ _ _, fun other ho => mapGet_mapSet_ne _ _ ho,
    fun hs => length_mapSet_of_isSome _ _ _ hs⟩

/-- Witness of `addVbvToken_get`: the BIN 411111 is added to a table that
already holds a record for it. -/
theorem addVbvToken_get_witness :
    split '|' "411111|3D TRUE|Enrolled".toList =
      "411111".toList :: "3D TRUE".toList :: "Enrolled".toList :: [] ∧
    getVbvInfo (addVbvToken
        [("411111".toList, { status := "3D FALSE".toList, response := "Old".toList })]
        "411111|3D TRUE|Enrolled".toList).2.1 "411111".toList =
      some { status := "3D TRUE".toList, response := "Enrolled".toList } ∧
    (addVbvToken
        [("411111".toList, { status := "3D FALSE".toList, response := "Old".toList })]
        "411111|3D TRUE|Enrolled".toList).2.1.length = 1 :=
  ⟨by decide,
   (addVbvToken_get
      [("411111".toList, { status := "3D FALSE".toList, response := "Old".toList })]
      "411111|3D TRUE|Enrolled".toList "411111".toList "3D TRUE".toList "Enrolled".toList []
      (by decide)).2.1,
   (addVbvToken_get
      [("411111".toList, { status := "3D FALSE".toList, response := "Old".toList })]
      "411111|3D TRUE|Enrolled".toList "411111".toList "3D TRUE".toList "Enrolled".toList []
      (by decide)).2.2.2 (by decide)⟩


/-! ## The generator on explicit arguments -/

theorem length_swap (numbers : List Char) (i j : Nat) :
    (swap numbers i j).length = numbers.length := by
  simp [swap]

theorem length_shuffleLoop : ∀ (k : Nat) (numbers : List Char) (rnd : Rand),
    (shuffleLoop k numbers rnd).1.length = numbers.length := by
  intro k
  induction k with
  | zero => intro numbers rnd; rfl
  | succ k ih =>
    intro numbers rnd
    rw [shuffleLoop]
    exact (ih _ _).trans (length_swap _ _ _)

theorem not_x_of_isDigit {c : Char} (h : c.isDigit = true) : ¬ (c = 'x' ∨ c = 'X') := by
  rintro (e | e) <;> rw [e] at h <;> exact absurd h (by decide)

theorem replaceX_of_digits : ∀ (s : Str) (rnd : Rand), (∀ c ∈ s, c.isDigit = true) →
    replaceX s rnd = (s, rnd) := by
  intro s
  induction s with
  | nil => intro rnd _; rfl
  | cons a rest ih =>
    intro rnd h
    rw [replaceX, if_neg (not_x_of_isDigit (h a (List.mem_cons_self _ _))),
      ih rnd (fun c hc => h c (List.mem_cons_of_mem _ hc))]

/-- The shuffled digits of a candidate. -/
theorem shuffle_digits (rnd : Rand) :
    (∀ c ∈ (shuffleLoop 9 "0123456789".toList rnd).1, c.isDigit = true) ∧
      (shuffleLoop 9 "0123456789".toList rnd).1.length = 10 :=
  ⟨shuffleLoop_all (fun c => c.isDigit = true) rfl _ _ _ (by decide),
   (length_shuffleLoop _ _ _).trans rfl⟩

theorem genNumber_of_digits {cc : Str} (h : ∀ c ∈ cc, c.isDigit = true) (rnd : Rand) :
    genNumber cc rnd =
      (substring0 (numberLength cc) (cc ++ (shuffleLoop 9 "0123456789".toList rnd).1),
       (shuffleLoop 9 "0123456789".toList rnd).2) := by
  have hs := (shuffle_digits rnd).1
  unfold genNumber numberLength
  generalize shuffleLoop 9 "0123456789".toList rnd = p at hs ⊢
  obtain ⟨numbers, rnd1⟩ := p
  simp only
  have hres : ∀ n, ∀ c ∈ substring0 n (cc ++ numbers), c.isDigit = true := by
    intro n c hc
    rcases List.mem_append.1 (List.mem_of_mem_take hc) with e | e
    · exact h c e
    · exact hs c e
  split
  · exact replaceX_of_digits _ _ (hres _)
  · exact replaceX_of_digits _ _ (hres _)

theorem ccGenerator_fst (cc mes ano cvv : Str) (rnd : Rand) :
    ∃ r1 r2 r3, (ccGenerator cc mes ano cvv rnd).1 =
      (genNumber cc rnd).1 ++ '|' :: ((genMes (padMes mes) r1).1 ++ '|' ::
        ((genAno (expandAno ano) r2).1 ++ '|' :: (genCvv (genNumber cc rnd).1 cvv r3).1)) :=
  ⟨(genNumber cc rnd).2, (genMes (padMes mes) (genNumber cc rnd).2).2,
   (genAno (expandAno ano) (genMes (padMes mes) (genNumber cc rnd).2).2).2,
   by simp [ccGenerator]⟩

theorem cardNumberOf_ccGenerator {cc : Str} (h : '|' ∉ cc) (mes ano cvv : Str)
    (rnd : Rand) : cardNumberOf (ccGenerator cc mes ano cvv rnd).1 = (genNumber cc rnd).1 := by
  obtain ⟨r1, r2, r3, e⟩ := ccGenerator_fst cc mes ano cvv rnd
  have hn : '|' ∉ (genNumber cc rnd).1 := fun hm =>
    genNumber_all (fun c => c ≠ '|') (fun c hc e => by rw [e] at hc; exact absurd hc (by decide))
      (fun c hc e => h (e ▸ hc)) rnd _ hm rfl
  unfold cardNumberOf
  rw [e, split_append_sep hn]
  rfl


/-! ## C15: prefix and length of the number -/

theorem not_pipe_of_digits {s : Str} (h : ∀ c ∈ s, c.isDigit = true) : '|' ∉ s :=
  fun hm => absurd (h _ hm) (by decide)

/-- C15 (as stated) fails: for the 4-digit prefix 4476 the number has 14
digits, and for a 17-digit prefix the number is the first 16 digits of the
prefix, so it does not begin with the prefix. -/
theorem short_prefix_counterexample :
    (cardNumberOf (ccGenerator "4476".toList "12".toList "25".toList "123".toList []).1).length
      = 14 ∧
    cardNumberOf
        (ccGenerator "44769712345678901".toList "12".toList "25".toList "123".toList []).1 =
      "4476971234567890".toList := by
  decide

/-- C15 (as amended): for a prefix of decimal digits that is at most as long as
the number (15 when it starts with 34 or 37, else 16) and at most 10 digits
shorter, the number produced by `ccGenerator` begins with the prefix and has
exactly that length, for every random outcome. -/
theorem ccGenerator_number_shape (cc mes ano cvv : Str) (rnd : Rand)
    (hd : ∀ c ∈ cc, c.isDigit = true) (hlo : numberLength cc ≤ cc.length + 10)
    (hhi : cc.length ≤ numberLength cc) :
    cc <+: cardNumberOf (ccGenerator cc mes ano cvv rnd).1 ∧
      (cardNumberOf (ccGenerator cc mes ano cvv rnd).1).length = numberLength cc := by
  rw [cardNumberOf_ccGenerator (not_pipe_of_digits hd), genNumber_of_digits hd]
  have hlen := (shuffle_digits rnd).2
  simp only [substring0]
  refine ⟨?_, ?_⟩
  · rw [List.take_append_eq_append_take, List.take_of_length_le hhi]
    exact List.prefix_append _ _
  · rw [List.length_take, List.length_append, hlen]
    omega

/-- Witness of `ccGenerator_number_shape`: the 6-digit prefix 447697. -/
theorem ccGenerator_number_shape_witness :
    (∀ c ∈ "447697".toList, c.isDigit = true) ∧
    "447697".toList <+:
      cardNumberOf (ccGenerator "447697".toList "12".toList "25".toList "123".toList [1, 1]).1 ∧
    (cardNumberOf
      (ccGenerator "447697".toList "12".toList "25".toList "123".toList [1, 1]).1).length =
      numberLength "447697".toList :=
  ⟨by decide,
   ccGenerator_number_shape "447697".toList "12".toList "25".toList "123".toList [1, 1]
     (by decide) (by decide) (by decide)⟩


/-! ## C16, C17: the lines of the generator -/

theorem includes_rnd_of_digits : ∀ s : Str, (∀ c ∈ s, c.isDigit = true) →
    includes s "rnd".toList = false := by
  intro s
  induction s with
  | nil => intro _; decide
  | cons a rest ih =>
    intro h
    have ha : a.isDigit = true := h a (List.mem_cons_self _ _)
    have hne : ('r' == a) = false := by
      rw [beq_eq_false_iff_ne]
      intro e
      rw [← e] at ha
      exact absurd ha (by decide)
    have ih' := ih (fun c hc => h c (List.mem_cons_of_mem _ hc))
    unfold includes at ih' ⊢
    simp only [List.tails, List.any_cons, ih', Bool.or_false]
    simp [String.toList, List.isPrefixOf, hne]

theorem isWildcard_of_digits {s : Str} (h : ∀ c ∈ s, c.isDigit = true) :
    isWildcard s = false := by
  unfold isWildcard
  rw [includes_rnd_of_digits s h, Bool.or_false, List.any_eq_false]
  intro c hc
  have := not_x_of_isDigit (h c hc)
  simpa using this

theorem ne_none_of_digits {s : Str} (h : ∀ c ∈ s, c.isDigit = true) : s ≠ "None".toList := by
  intro e
  have := h 'N' (by rw [e]; decide)
  exact absurd this (by decide)

theorem explicit_field {s : Str} (h : ∀ c ∈ s, c.isDigit = true) :
    ¬ (s = "None".toList ∨ isWildcard s = true) := by
  rintro (e | e)
  · exact ne_none_of_digits h e
  · rw [isWildcard_of_digits h] at e; cases e

theorem padMes_of_digits {mes : Str} (h : ∀ c ∈ mes, c.isDigit = true) :
    padMes mes = (if mes.length = 1 then '0' :: mes else mes) ∧
      ∀ c ∈ padMes mes, c.isDigit = true := by
  refine ⟨?_, padMes_all (fun c => c.isDigit = true) rfl h⟩
  unfold padMes
  have hn := ne_none_of_digits h
  by_cases h1 : mes.length = 1
  · rw [if_pos ⟨hn, h1⟩, if_pos h1]
  · rw [if_neg (fun hc => h1 hc.2), if_neg h1]

theorem expandAno_of_digits {ano : Str} (h : ∀ c ∈ ano, c.isDigit = true) :
    expandAno ano = (if ano.length = 2 then '2' :: '0' :: ano else ano) ∧
      ∀ c ∈ expandAno ano, c.isDigit = true := by
  refine ⟨?_, expandAno_all (fun c => c.isDigit = true) rfl rfl h⟩
  unfold expandAno
  have hn := ne_none_of_digits h
  by_cases h2 : ano.length = 2
  · rw [if_pos ⟨hn, h2⟩, if_pos h2]
    rfl
  · rw [if_neg (fun hc => h2 hc.2), if_neg h2]

/-- With explicit digit fields the candidate is the number followed by the
normalised month, the normalised year and the CVV. -/
theorem ccGenerator_explicit (cc : Str) {mes ano cvv : Str}
    (hmes : ∀ c ∈ mes, c.isDigit = true) (hano : ∀ c ∈ ano, c.isDigit = true)
    (hcvv : ∀ c ∈ cvv, c.isDigit = true) (rnd : Rand) :
    (ccGenerator cc mes ano cvv rnd).1 =
      (genNumber cc rnd).1 ++ '|' :: (padMes mes ++ '|' :: (expandAno ano ++ '|' :: cvv)) := by
  obtain ⟨r1, r2, r3, e⟩ := ccGenerator_fst cc mes ano cvv rnd
  rw [e]
  have h1 : (genMes (padMes mes) r1).1 = padMes mes := by
    unfold genMes
    rw [if_neg (explicit_field (padMes_of_digits hmes).2)]
  have h2 : (genAno (expandAno ano) r2).1 = expandAno ano := by
    unfold genAno
    rw [if_neg (explicit_field (expandAno_of_digits hano).2)]
  have h3 : (genCvv (genNumber cc rnd).1 cvv r3).1 = cvv := by
    unfold genCvv
    rw [if_neg (explicit_field hcvv)]
  rw [h1, h2, h3]

/-- What one round of the retry loop returns: the first four fields of a
candidate whose number passes `checkLuhn`, joined again and followed by a
line feed. -/
theorem luhnRetry_candidate (cc mes ano cvv : Str) : ∀ (fuel : Nat) (rnd : Rand) (line : Str)
    (rnd' : Rand), luhnRetry cc mes ano cvv fuel rnd = some (line, rnd') →
      ∃ (rnd0 : Rand) (ccx mesx anox cvvx : Str) (more : List Str),
        split '|' (ccGenerator cc mes ano cvv rnd0).1 = ccx :: mesx :: anox :: cvvx :: more ∧
        checkLuhn ccx = true ∧
        line = (ccx ++ '|' :: (mesx ++ '|' :: (anox ++ '|' :: cvvx))) ++ ['\n'] := by
  intro fuel
  induction fuel with
  | zero => intro rnd line rnd' h; simp [luhnRetry] at h
  | succ fuel ih =>
    intro rnd line rnd' h
    rw [luhnRetry] at h
    generalize hg : ccGenerator cc mes ano cvv rnd = g at h
    obtain ⟨result, rnd1⟩ := g
    simp only at h
    split at h
    · rename_i ccx mesx anox cvvx more heq
      by_cases hl : checkLuhn ccx = true
      · rw [if_pos hl] at h
        simp only [Option.some.injEq, Prod.mk.injEq] at h
        refine ⟨rnd, ccx, mesx, anox, cvvx, more, by rw [hg]; exact heq, hl, ?_⟩
        rw [← h.1]
        simp
      · rw [if_neg hl] at h
        exact ih _ _ _ h
    · simp at h

/-- The text built by the `for` loop: one line for each card, each line as the
retry loop returns it. -/
theorem luhnLoop_lines (fuel : Nat) (cc mes ano cvv : Str) (P : Str → Prop)
    (hP : ∀ (rnd : Rand) (line : Str) (rnd' : Rand),
      luhnRetry cc mes ano cvv fuel rnd = some (line, rnd') → ∃ l, line = l ++ ['\n'] ∧ P l) :
    ∀ (n : Nat) (allCards : Str) (rnd : Rand) (text : Str) (rnd' : Rand),
    luhnLoop fuel cc mes ano cvv n allCards rnd = some (text, rnd') →
      ∃ ls : List Str, ls.length = n ∧ text = allCards ++ linesText ls ∧ ∀ l ∈ ls, P l := by
  intro n
  induction n with
  | zero =>
    intro allCards rnd text rnd' h
    simp only [luhnLoop, Option.some.injEq, Prod.mk.injEq] at h
    exact ⟨[], rfl, by simp [linesText, h.1], by simp⟩
  | succ n ih =>
    intro allCards rnd text rnd' h
    rw [luhnLoop] at h
    cases hr : luhnRetry cc mes ano cvv fuel rnd with
    | none => simp [hr] at h
    | some p =>
      obtain ⟨line, rnd1⟩ := p
      rw [hr] at h
      obtain ⟨l, hline, hl⟩ := hP _ _ _ hr
      obtain ⟨ls, hlen, htext, hall⟩ := ih _ _ _ _ h
      refine ⟨l :: ls, by simp [hlen], ?_, ?_⟩
      · rw [htext, hline]; simp [linesText]
      · intro x hx
        rcases List.mem_cons.1 hx with e | e
        · rw [e]; exact hl
        · exact hall x e


theorem rdropWhile_of_digits {s : Str} (h : ∀ c ∈ s, c.isDigit = true) :
    s.rdropWhile isWhiteSpace = s := by
  rw [List.rdropWhile_eq_self_iff]
  intro hl
  rw [isWhiteSpace_of_isDigit (h _ (List.getLast_mem hl))]
  simp

/-- A line carrying the explicit fields: a number that passes `checkLuhn`, then
the normalised month, the normalised year and the CVV. -/
theorem explicit_line_raw {mes ano cvv l : Str} (hmes : ∀ c ∈ mes, c.isDigit = true)
    (hano : ∀ c ∈ ano, c.isDigit = true) (hcvv : ∀ c ∈ cvv, c.isDigit = true)
    (h : ∃ number, checkLuhn number = true ∧
      l = number ++ '|' :: (padMes mes ++ '|' :: (expandAno ano ++ '|' :: cvv))) :
    RawLine l ∧ l.rdropWhile isWhiteSpace = l := by
  obtain ⟨number, hl, rfl⟩ := h
  have hn := checkLuhn_digits hl
  have hM := (padMes_of_digits hmes).2
  have hA := (expandAno_of_digits hano).2
  have hnl : ∀ {s : Str}, (∀ c ∈ s, c.isDigit = true) → '\n' ∉ s :=
    fun hs hm => absurd (hs _ hm) (by decide)
  refine ⟨⟨number, _, _, cvv, rfl, hl, not_pipe_of_digits hn, not_pipe_of_digits hM,
    not_pipe_of_digits hA, not_pipe_of_digits hcvv, ?_⟩, ?_⟩
  · simp only [List.mem_append, List.mem_cons]
    have := hnl hn
    have := hnl hM
    have := hnl hA
    have := hnl hcvv
    have : '\n' ≠ '|' := by decide
    tauto
  · have e : number ++ '|' :: (padMes mes ++ '|' :: (expandAno ano ++ '|' :: cvv)) =
        (number ++ '|' :: (padMes mes ++ '|' :: expandAno ano)) ++ '|' :: cvv := by simp
    rw [e, rdropWhile_append_cons (by decide), rdropWhile_of_digits hcvv]

/-- C16: when `mes`, `ano` and `cvv` are explicit digit strings (and the
prefix, a field of the request, holds no pipe), every line of the text that
`luhnCardGenerator` returns is a number passing `checkLuhn` followed by the
given month (with a leading 0 when it is a single digit), the given year
(with a leading 20 when it has two digits) and the given CVV unchanged; no
explicit field is replaced by a random value. -/
theorem explicit_fields_kept (fuel : Nat) (cc mes ano cvv : Str) (amount : Int) (rnd : Rand)
    (text : Str) (rnd' : Rand) (hcc : '|' ∉ cc) (hmes : ∀ c ∈ mes, c.isDigit = true)
    (hano : ∀ c ∈ ano, c.isDigit = true) (hcvv : ∀ c ∈ cvv, c.isDigit = true)
    (h : luhnCardGenerator fuel cc mes ano cvv amount rnd = some (text, rnd')) :
    ∀ line ∈ textLines text, ∃ number, checkLuhn number = true ∧
      line = number ++ '|' :: ((if mes.length = 1 then '0' :: mes else mes) ++ '|' ::
        ((if ano.length = 2 then '2' :: '0' :: ano else ano) ++ '|' :: cvv)) := by
  rw [← (padMes_of_digits hmes).1, ← (expandAno_of_digits hano).1]
  have hP : ∀ (r : Rand) (line : Str) (r' : Rand),
      luhnRetry cc mes ano cvv fuel r = some (line, r') →
      ∃ l, line = l ++ ['\n'] ∧ ∃ number, checkLuhn number = true ∧
        l = number ++ '|' :: (padMes mes ++ '|' :: (expandAno ano ++ '|' :: cvv)) := by
    intro r line r' hr
    obtain ⟨rnd0, ccx, mesx, anox, cvvx, more, hsplit, hl, hline⟩ :=
      luhnRetry_candidate cc mes ano cvv fuel r line r' hr
    have hn : '|' ∉ (genNumber cc rnd0).1 := fun hm =>
      genNumber_all (fun c => c ≠ '|')
        (fun c hc e => by rw [e] at hc; exact absurd hc (by decide))
        (fun c hc e => hcc (e ▸ hc)) rnd0 _ hm rfl
    rw [ccGenerator_explicit cc hmes hano hcvv rnd0, split_append_sep hn,
      split_append_sep (not_pipe_of_digits (padMes_of_digits hmes).2),
      split_append_sep (not_pipe_of_digits (expandAno_of_digits hano).2),
      split_of_not_mem (not_pipe_of_digits hcvv)] at hsplit
    simp only [List.cons.injEq] at hsplit
    obtain ⟨e1, e2, e3, e4, _⟩ := hsplit
    refine ⟨_, hline, ccx, hl, ?_⟩
    rw [e2, e3, e4]
  unfold luhnCardGenerator at h
  cases hl : luhnLoop fuel cc mes ano cvv amount.toNat [] rnd with
  | none => simp [hl] at h
  | some p =>
    obtain ⟨allCards, rnd1⟩ := p
    rw [hl] at h
    simp only [Option.some.injEq, Prod.mk.injEq] at h
    obtain ⟨ls, _, htext, hall⟩ := luhnLoop_lines fuel cc mes ano cvv _ hP _ _ _ _ _ hl
    rw [List.nil_append] at htext
    rw [← h.1, htext]
    rcases List.eq_nil_or_concat ls with e | ⟨init, last, e⟩
    · rw [e]; intro line hline; simp [linesText, trim, textLines, List.rdropWhile] at hline
    · rw [e, List.concat_eq_append] at hall ⊢
      have hinit : ∀ l ∈ init, RawLine l :=
        fun l hl => (explicit_line_raw hmes hano hcvv (hall l (by simp [hl]))).1
      have hlast := explicit_line_raw hmes hano hcvv (hall last (by simp))
      rw [trim_linesText init last hinit hlast.1, hlast.2]
      intro line hline
      exact hall line hline

/-- Witness of `explicit_fields_kept`: month 7 and year 25 are normalised to 07
and 2025, the CVV 123 is kept. -/
theorem explicit_fields_kept_witness :
    luhnCardGenerator 1 "447697".toList "7".toList "25".toList "123".toList 1 [1, 1] =
        some ("4476978234567091|07|2025|123".toList, []) ∧
    ∀ line ∈ textLines "4476978234567091|07|2025|123".toList, ∃ number,
      checkLuhn number = true ∧
      line = number ++ '|' :: ((if "7".toList.length = 1 then '0' :: "7".toList
          else "7".toList) ++ '|' ::
        ((if "25".toList.length = 2 then '2' :: '0' :: "25".toList else "25".toList) ++
          '|' :: "123".toList)) :=
  ⟨by decide,
   explicit_fields_kept 1 "447697".toList "7".toList "25".toList "123".toList 1 [1, 1]
     "4476978234567091|07|2025|123".toList [] (by decide) (by decide) (by decide) (by decide)
     (by decide)⟩


/-- C17 (as stated) fails: with the same random outcomes for both cards, the
two card numbers of a request for 2 cards are equal. -/
theorem equal_numbers_counterexample :
    luhnCardGenerator 1 "447697".toList "12".toList "25".toList "123".toList 2
        [1, 1, 0, 0, 0, 0, 0, 0, 0, 1, 1] =
      some ("4476978234567091|12|2025|123\n4476978234567091|12|2025|123".toList, []) ∧
    (textLines "4476978234567091|12|2025|123\n4476978234567091|12|2025|123".toList).map
        cardNumberOf =
      ["4476978234567091".toList, "4476978234567091".toList] := by
  decide

/-- C17 (as amended): when generation returns for amount `n`, the text is the
trimmed sequence of exactly `n` card entries, each starting with a number that
passes `checkLuhn`; and when no argument contains a line feed and `n >= 1`
the text has exactly `n` lines.  The numbers need not be distinct. -/
theorem generator_card_count (fuel : Nat) (cc mes ano cvv : Str) (n : Nat) (rnd : Rand)
    (text : Str) (rnd' : Rand)
    (h : luhnCardGenerator fuel cc mes ano cvv (n : Int) rnd = some (text, rnd')) :
    (∃ ls : List Str, ls.length = n ∧ text = trim (linesText ls) ∧
      ∀ l ∈ ls, ∃ number rest, l = number ++ '|' :: rest ∧ checkLuhn number = true) ∧
    ('\n' ∉ cc → '\n' ∉ mes → '\n' ∉ ano → '\n' ∉ cvv → 1 ≤ n →
      (textLines text).length = n) := by
  unfold luhnCardGenerator at h
  rw [Int.toNat_ofNat] at h
  cases hl : luhnLoop fuel cc mes ano cvv n [] rnd with
  | none => simp [hl] at h
  | some p =>
    obtain ⟨allCards, rnd1⟩ := p
    rw [hl] at h
    simp only [Option.some.injEq, Prod.mk.injEq] at h
    refine ⟨?_, ?_⟩
    · obtain ⟨ls, hlen, htext, hall⟩ := luhnLoop_lines fuel cc mes ano cvv
        (fun l => ∃ number rest, l = number ++ '|' :: rest ∧ checkLuhn number = true)
        (fun r line r' hr => by
          obtain ⟨rnd0, ccx, mesx, anox, cvvx, more, _, hlu, hline⟩ :=
            luhnRetry_candidate cc mes ano cvv fuel r line r' hr
          exact ⟨_, hline, ccx, _, rfl, hlu⟩) _ _ _ _ _ hl
      rw [List.nil_append] at htext
      exact ⟨ls, hlen, by rw [← h.1, htext], hall⟩
    · intro hcc hmes hano hcvv hn
      obtain ⟨ls, hlen, htext, hall⟩ := luhnLoop_spec hcc hmes hano hcvv _ _ _ _ _ _ hl
      rw [List.nil_append] at htext
      rw [← h.1, htext]
      rcases List.eq_nil_or_concat ls with e | ⟨init, last, e⟩
      · rw [e] at hlen
        simp at hlen
        omega
      · rw [e, List.concat_eq_append] at hall hlen ⊢
        rw [trim_linesText init last (fun l hl => hall l (by simp [hl])) (hall last (by simp))]
        simpa using hlen

/-- Witness of `generator_card_count`: a request for 2 cards. -/
theorem generator_card_count_witness :
    luhnCardGenerator 1 "447697".toList "12".toList "25".toList "123".toList ((2 : Nat) : Int)
        [1, 1, 0, 0, 0, 0, 0, 0, 0, 1, 1] =
      some ("4476978234567091|12|2025|123\n4476978234567091|12|2025|123".toList, []) ∧
    (textLines "4476978234567091|12|2025|123\n4476978234567091|12|2025|123".toList).length
      = 2 :=
  ⟨by decide,
   (generator_card_count 1 "447697".toList "12".toList "25".toList "123".toList 2
      [1, 1, 0, 0, 0, 0, 0, 0, 0, 1, 1]
      "4476978234567091|12|2025|123\n4476978234567091|12|2025|123".toList [] (by decide)).2
      (by decide) (by decide) (by decide) (by decide) (by decide)⟩


/-! ## C11: the register command -/

theorem handleCommand_of_registered (fuel : Nat) (chat text senderName userId : Str)
    (w : World) (h : (getUser w.users userId).isSome = true) :
    handleCommand fuel chat text senderName userId w =
      dispatch fuel chat text senderName userId (commandOf text) w := by
  unfold handleCommand
  show (getW >>= _) w = _
  rw [getW_bind, if_neg (fun hc => by simp [Option.isSome_iff_ne_none.1 h] at hc)]

theorem handleCommand_register (fuel : Nat) (chat text senderName userId : Str) (w : World)
    (h : commandOf text = "/register".toList) :
    handleCommand fuel chat text senderName userId w =
      handleRegister chat senderName userId w := by
  unfold handleCommand
  show (getW >>= _) w = _
  rw [getW_bind, h, if_neg (fun hc => hc.2.1 (by decide))]
  rfl

/-- C11: the register command (`/register` of the backup entry point and
`handleRegisterCommand` of `src/index.js`).  For a sender without an account
the run ends and the sender has an account with credits 100 and role and
status `FREE`, every other account being unchanged; for a sender who has an
account the run ends and the account store is exactly as before. -/
theorem register_command (fuel : Nat) (chat text senderName userId : Str) (w : World)
    (hcmd : commandOf text = "/register".toList) :
    (getUser w.users userId = none →
      ∃ w', (handleCommand fuel chat text senderName userId w).world? = some w' ∧
        (∃ u, getUser w'.users userId = some u ∧ u.credit = 100 ∧
          u.status = "FREE".toList ∧ u.role = "FREE".toList) ∧
        ∀ id, id ≠ userId → getUser w'.users id = getUser w.users id) ∧
    ((getUser w.users userId).isSome = true →
      ∃ w', (handleCommand fuel chat text senderName userId w).world? = some w' ∧
        w'.users = w.users) ∧
    (mapGet w.usersDb userId = none →
      ∃ w', handleRegisterCommand chat senderName userId w = .ok () w' ∧
        (∃ a, mapGet w'.usersDb userId = some a ∧ a.credits = 100 ∧
          a.status = "FREE".toList) ∧
        ∀ id, id ≠ userId → mapGet w'.usersDb id = mapGet w.usersDb id) ∧
    ((mapGet w.usersDb userId).isSome = true →
      handleRegisterCommand chat senderName userId w = .ok () w) := by
  rw [handleCommand_register fuel chat text senderName userId w hcmd]
  refine ⟨?_, ?_, ?_, ?_⟩
  · intro hnone
    have e : handleRegister chat senderName userId w =
        (sendText chat (.registrationSuccessful senderName userId) >>= fun _ =>
          (Pure.pure PUnit.unit : M PUnit))
          { w with users := registerUser w.users w.now userId senderName } := by
      unfold handleRegister
      rw [getW_bind, hnone]
      rfl
    obtain ⟨w', h1, _, h2, _⟩ := reply_rejected chat (.registrationSuccessful senderName userId)
      { w with users := registerUser w.users w.now userId senderName }
    refine ⟨w', e ▸ h1, ?_, ?_⟩
    · rw [h2]
      show ∃ u, getUser (registerUser w.users w.now userId senderName) userId = some u ∧ _
      rw [getUser_registerUser, if_pos rfl]
      exact ⟨_, rfl, rfl, rfl, rfl⟩
    · intro id hid
      rw [h2]
      show getUser (registerUser w.users w.now userId senderName) id = _
      rw [getUser_registerUser, if_neg hid]
  · intro hsome
    obtain ⟨u, hu⟩ := Option.isSome_iff_exists.1 hsome
    have e : handleRegister chat senderName userId w =
        (sendText chat .alreadyRegistered >>= fun _ => (Pure.pure PUnit.unit : M PUnit)) w := by
      unfold handleRegister
      rw [getW_bind, hu]
    obtain ⟨w', h1, _, h2, _⟩ := reply_rejected chat .alreadyRegistered w
    exact ⟨w', e ▸ h1, h2⟩
  · intro hnone
    refine ⟨{ w with usersDb := createUser w.usersDb w.now userId "N/A".toList senderName },
      ?_, ?_, ?_⟩
    · unfold handleRegisterCommand tryCatch
      rw [getW_bind, hnone]
      rfl
    · show ∃ a, mapGet (createUser w.usersDb w.now userId "N/A".toList senderName) userId
        = some a ∧ _
      unfold createUser
      rw [mapGet_mapSet_self]
      exact ⟨_, rfl, rfl, rfl⟩
    · intro id hid
      show mapGet (createUser w.usersDb w.now userId "N/A".toList senderName) id = _
      unfold createUser
      rw [mapGet_mapSet_ne _ _ hid]
  · intro hsome
    obtain ⟨a, ha⟩ := Option.isSome_iff_exists.1 hsome
    unfold handleRegisterCommand tryCatch
    rw [getW_bind, ha]
    rfl

theorem register_command_witness :
    commandOf "/register".toList = "/register".toList ∧
    (getUser (emptyWorld 0 []).users "u".toList = none →
      ∃ w', (handleCommand 1 "u@s.whatsapp.net".toList "/register".toList "Al".toList
          "u".toList (emptyWorld 0 [])).world? = some w' ∧
        (∃ u, getUser w'.users "u".toList = some u ∧ u.credit = 100 ∧
          u.status = "FREE".toList ∧ u.role = "FREE".toList) ∧
        ∀ id, id ≠ "u".toList → getUser w'.users id = getUser (emptyWorld 0 []).users id) :=
  ⟨by decide,
   (register_command 1 "u@s.whatsapp.net".toList "/register".toList "Al".toList "u".toList
      (emptyWorld 0 []) (by decide)).1⟩


/-! ## C12: limits of the mass commands -/

theorem handleCommand_unregistered (fuel : Nat) (chat text senderName userId : Str)
    (w : World) (hc : isCheckCommand (commandOf text) = true)
    (h : (getUser w.users userId).isSome = false) :
    handleCommand fuel chat text senderName userId w =
      (sendText chat .registerFirst >>= fun _ => (Pure.pure PUnit.unit : M PUnit)) w := by
  unfold handleCommand
  show (getW >>= _) w = _
  rw [getW_bind, if_pos]
  refine ⟨?_, ?_, by simpa using h⟩
  · intro e
    simp only [isCheckCommand, Bool.or_eq_true, decide_eq_true_eq] at hc
    rcases hc with ((((hc | hc) | hc) | hc) | hc) | hc <;> rw [hc] at e <;>
      exact absurd e (by decide)
  · intro e
    simp only [isCheckCommand, Bool.or_eq_true, decide_eq_true_eq] at hc
    rcases hc with ((((hc | hc) | hc) | hc) | hc) | hc <;> rw [hc] at e <;>
      exact absurd e (by decide)

theorem dispatch_massGate (fuel : Nat) (chat text senderName userId command : Str)
    (h : command = "/mad".toList ∨ command = "/mb4".toList) :
    dispatch fuel chat text senderName userId command =
      handleMassGate chat text senderName userId command := by
  rcases h with h | h <;> rw [h] <;> rfl

theorem dispatch_massVbv (fuel : Nat) (chat text senderName userId : Str) :
    dispatch fuel chat text senderName userId "/mvbv".toList =
      handleMassVbv chat text userId := rfl

/-- C12: a mass check (`/mad`, `/mb4`, `/mvbv`) whose message yields no card, or
more cards than the maximum (10 for the gate commands, 25 for `/mvbv`), ends
after a single transport call, the reply naming the reason (the register-first
reply for a sender without an account); no gate call and no VBV lookup is
made and the account store, so every balance and cooldown timestamp, is
unchanged. -/
theorem mass_limits_rejected (fuel : Nat) (chat text senderName userId : Str) (w : World) :
    ((commandOf text = "/mad".toList ∨ commandOf text = "/mb4".toList) →
      ((extractCards text).length = 0 →
        RejectedWith (handleCommand fuel chat text senderName userId w) w chat
          (if (getUser w.users userId).isSome then .noValidCards else .registerFirst)) ∧
      ((extractCards text).length > 10 →
        RejectedWith (handleCommand fuel chat text senderName userId w) w chat
          (if (getUser w.users userId).isSome then .massLimit10 else .registerFirst))) ∧
    (commandOf text = "/mvbv".toList →
      ((extractCards text).length = 0 →
        RejectedWith (handleCommand fuel chat text senderName userId w) w chat
          (if (getUser w.users userId).isSome then .noValidCards else .registerFirst)) ∧
      ((extractCards text).length > 25 →
        RejectedWith (handleCommand fuel chat text senderName userId w) w chat
          (if (getUser w.users userId).isSome then .massLimit25 (extractCards text).length
            else .registerFirst))) := by
  cases hreg : (getUser w.users userId).isSome with
  | false =>
    have hun : ∀ (_ : isCheckCommand (commandOf text) = true) (msg : Msg),
        RejectedWith (handleCommand fuel chat text senderName userId w) w chat
          (if false = true then msg else .registerFirst) := by
      intro hc msg
      rw [handleCommand_unregistered fuel chat text senderName userId w hc hreg]
      exact reply_rejected _ _ _
    refine ⟨fun hcmd => ?_, fun hcmd => ?_⟩
    · have hc : isCheckCommand (commandOf text) = true := by
        rcases hcmd with h | h <;> rw [h] <;> decide
      exact ⟨fun _ => hun hc _, fun _ => hun hc _⟩
    · have hc : isCheckCommand (commandOf text) = true := by rw [hcmd]; decide
      exact ⟨fun _ => hun hc _, fun _ => hun hc _⟩
  | true =>
    rw [handleCommand_of_registered fuel chat text senderName userId w hreg]
    simp only [if_true]
    refine ⟨fun hcmd => ?_, fun hcmd => ?_⟩
    · rw [dispatch_massGate fuel chat text senderName userId _ hcmd]
      refine ⟨fun h0 => ?_, fun h10 => ?_⟩
      · have e : handleMassGate chat text senderName userId (commandOf text) w =
            (sendText chat .noValidCards >>= fun _ => (Pure.pure PUnit.unit : M PUnit)) w := by
          unfold handleMassGate
          rw [getW_bind, if_pos h0]
        rw [e]
        exact reply_rejected _ _ _
      · have e : handleMassGate chat text senderName userId (commandOf text) w =
            (sendText chat .massLimit10 >>= fun _ => (Pure.pure PUnit.unit : M PUnit)) w := by
          unfold handleMassGate
          rw [getW_bind, if_neg (by omega), if_pos h10]
        rw [e]
        exact reply_rejected _ _ _
    · rw [hcmd, dispatch_massVbv]
      refine ⟨fun h0 => ?_, fun h25 => ?_⟩
      · have e : handleMassVbv chat text userId w =
            (sendText chat .noValidCards >>= fun _ => (Pure.pure PUnit.unit : M PUnit)) w := by
          unfold handleMassVbv
          rw [getW_bind, if_pos h0]
        rw [e]
        exact reply_rejected _ _ _
      · have e : handleMassVbv chat text userId w =
            (sendText chat (.massLimit25 (extractCards text).length) >>= fun _ =>
              (Pure.pure PUnit.unit : M PUnit)) w := by
          unfold handleMassVbv
          rw [getW_bind, if_neg (by omega), if_pos h25]
        rw [e]
        exact reply_rejected _ _ _

theorem mass_limits_rejected_witness :
    (commandOf "/mad".toList = "/mad".toList ∧ (extractCards "/mad".toList).length = 0 ∧
      RejectedWith
        (handleCommand 1 "u@s.whatsapp.net".toList "/mad".toList "Al".toList "u".toList
          (gateWorld 50 0 []))
        (gateWorld 50 0 []) "u@s.whatsapp.net".toList
        (if (getUser (gateWorld 50 0 []).users "u".toList).isSome then .noValidCards
          else .registerFirst)) ∧
    ((extractCards elevenCards).length = 11 ∧
      RejectedWith
        (handleCommand 1 "u@s.whatsapp.net".toList
          elevenCards
          "Al".toList "u".toList (gateWorld 50 0 []))
        (gateWorld 50 0 []) "u@s.whatsapp.net".toList
        (if (getUser (gateWorld 50 0 []).users "u".toList).isSome then .massLimit10
          else .registerFirst)) :=
  ⟨⟨by decide, by decide,
    ((mass_limits_rejected 1 "u@s.whatsapp.net".toList "/mad".toList "Al".toList "u".toList
      (gateWorld 50 0 [])).1 (Or.inl (by decide))).1 (by decide)⟩,
   by decide,
   ((mass_limits_rejected 1 "u@s.whatsapp.net".toList
      elevenCards
      "Al".toList "u".toList (gateWorld 50 0 [])).1 (Or.inl (by decide))).2 (by decide)⟩


/-! ## C14: a failed check command leaves the accounts alone -/

theorem chargeAndTouch_ends {P : World → Prop} {E : World → Prop} {D : Prop}
    (userId : Str) (amount : Int) :
    Triple P (chargeAndTouch userId amount) (fun _ _ => True) E D :=
  fun _ _ => trivial

theorem reply_ends {I : World → Prop} (hI : Stable I) (chat : Str) (msg : Msg) :
    Triple I (sendText chat msg >>= fun _ => (Pure.pure PUnit.unit : M PUnit))
      (fun _ _ => True) I True :=
  (reply_keeps hI chat msg).weaken (fun _ h => h) (fun _ _ _ => trivial) (fun _ h => h)
    (fun h => h)

theorem handleSingleGate_atomic {I : World → Prop} (hI : Stable I)
    (chat messageText userId command : Str) :
    Triple I (handleSingleGate chat messageText userId command) (fun _ _ => True) I True := by
  unfold handleSingleGate
  refine Triple.bindGetW (fun w0 h0 => Triple.at ?_ h0)
  simp only
  split
  · exact reply_ends hI _ _
  · split
    · exact Triple.throwM (fun _ h => h)
    · split
      · exact reply_ends hI _ _
      · split
        · exact reply_ends hI _ _
        · refine Triple.bind (sendText_keeps hI _ _ True).exc (fun key => ?_)
          refine Triple.bind (editFrames_keeps hI _ _ _ True _).exc (fun _ => ?_)
          refine Triple.bind (simulatePaymentGate_keeps hI _ _ True).exc (fun _ => ?_)
          refine Triple.bindGetW (fun w1 h1 => Triple.at ?_ h1)
          refine Triple.bind (editText_keeps hI _ _ _ True).exc (fun _ => ?_)
          exact chargeAndTouch_ends _ _

theorem handleMassGate_atomic {I : World → Prop} (hI : Stable I)
    (chat messageText senderName userId command : Str) :
    Triple I (handleMassGate chat messageText senderName userId command) (fun _ _ => True) I
      True := by
  unfold handleMassGate
  refine Triple.bindGetW (fun w0 h0 => Triple.at ?_ h0)
  simp only
  split
  · exact reply_ends hI _ _
  · split
    · exact reply_ends hI _ _
    · split
      · exact Triple.throwM (fun _ h => h)
      · split
        · exact reply_ends hI _ _
        · refine Triple.bind (sendText_keeps hI _ _ True).exc (fun key => ?_)
          refine Triple.bind (massGateLoop_keeps hI _ _ _ _ _ _ _) (fun _ => ?_)
          refine Triple.bind (editText_keeps hI _ _ _ True).exc (fun _ => ?_)
          exact chargeAndTouch_ends _ _

theorem handleVbv_atomic {I : World → Prop} (hI : Stable I) (chat messageText userId : Str) :
    Triple I (handleVbv chat messageText userId) (fun _ _ => True) I True := by
  unfold handleVbv
  refine Triple.bindGetW (fun w0 h0 => Triple.at ?_ h0)
  simp only
  split
  · exact reply_ends hI _ _
  · split
    · exact Triple.throwM (fun _ h => h)
    · split
      · exact reply_ends hI _ _
      · split
        · exact reply_ends hI _ _
        · split
          · exact reply_ends hI _ _
          · refine Triple.bind (sendText_keeps hI _ _ True).exc (fun key => ?_)
            refine Triple.bind (lookupVbv_keeps hI _ True).exc (fun vbvInfo => ?_)
            refine Triple.bindGetW (fun w1 h1 => Triple.at ?_ h1)
            split <;>
              exact Triple.bind (editText_keeps hI _ _ _ True).exc
                (fun _ => chargeAndTouch_ends _ _)

theorem handleMassVbv_atomic {I : World → Prop} (hI : Stable I)
    (chat messageText userId : Str) :
    Triple I (handleMassVbv chat messageText userId) (fun _ _ => True) I True := by
  unfold handleMassVbv
  refine Triple.bindGetW (fun w0 h0 => Triple.at ?_ h0)
  simp only
  split
  · exact reply_ends hI _ _
  · split
    · exact reply_ends hI _ _
    · split
      · exact Triple.throwM (fun _ h => h)
      · split
        · exact reply_ends hI _ _
        · refine Triple.bind (sendText_keeps hI _ _ True).exc (fun key => ?_)
          refine Triple.bind (massVbvLoop_keeps hI _ _ _ _ _ _) (fun _ => ?_)
          refine Triple.bind (editText_keeps hI _ _ _ True).exc (fun _ => ?_)
          exact chargeAndTouch_ends _ _

theorem dispatch_check_atomic {I : World → Prop} (hI : Stable I) (fuel : Nat)
    (chat text senderName userId command : Str) (hc : isCheckCommand command = true) :
    Triple I (dispatch fuel chat text senderName userId command) (fun _ _ => True) I True := by
  simp only [isCheckCommand, Bool.or_eq_true, decide_eq_true_eq] at hc
  rcases hc with ((((hc | hc) | hc) | hc) | hc) | hc <;> rw [hc]
  · exact handleSingleGate_atomic hI _ _ _ _
  · exact handleSingleGate_atomic hI _ _ _ _
  · exact handleMassGate_atomic hI _ _ _ _ _
  · exact handleMassGate_atomic hI _ _ _ _ _
  · exact handleVbv_atomic hI _ _ _
  · exact handleMassVbv_atomic hI _ _ _

theorem handleCommand_check_atomic {I : World → Prop} (hI : Stable I) (fuel : Nat)
    (chat text senderName userId : Str) (hc : isCheckCommand (commandOf text) = true) :
    Triple I (handleCommand fuel chat text senderName userId) (fun _ _ => True) I True := by
  unfold handleCommand
  show Triple I (getW >>= _) _ _ _
  refine Triple.bindGetW (fun w0 h0 => Triple.at ?_ h0)
  split
  · exact reply_ends hI _ _
  · exact dispatch_check_atomic hI _ _ _ _ _ _ hc

/-- C14: the check commands `/ad`, `/b4`, `/mad`, `/mb4`, `/vbv`, `/mvbv` are
atomic with respect to the accounts: when the command ends by an exception (a
transport send or edit that fails, at any point) the account store, so the
credits and the cooldown timestamp of the caller, is exactly as before the
command. -/
theorem check_command_atomic (fuel : Nat) (chat text senderName userId : Str) (w w' : World)
    (hc : isCheckCommand (commandOf text) = true)
    (h : handleCommand fuel chat text senderName userId w = .threw w') :
    w'.users = w.users := by
  have := handleCommand_check_atomic (stable_users (fun us => us = w.users)) fuel chat text
    senderName userId hc w rfl
  rw [h] at this
  exact this

theorem check_command_atomic_witness :
    isCheckCommand (commandOf "/ad 4111111111111111|12|25|123".toList) = true ∧
    ∃ w', handleCommand 1 "u@s.whatsapp.net".toList "/ad 4111111111111111|12|25|123".toList
        "Al".toList "u".toList { gateWorld 5 0 [] with net := [true, true, false] } =
          .threw w' ∧
      w'.log.length = 3 ∧
      w'.users = ({ gateWorld 5 0 [] with net := [true, true, false] } : World).users :=
  ⟨by decide, _, rfl, by decide,
   check_command_atomic 1 "u@s.whatsapp.net".toList "/ad 4111111111111111|12|25|123".toList
     "Al".toList "u".toList { gateWorld 5 0 [] with net := [true, true, false] } _
     (by decide) rfl⟩


/-! ## A mass-gate check that runs with nothing else in between -/

theorem handleMassGate_pass (chat text senderName userId command : Str) (w : World) (u : User)
    (hu : getUser w.users userId = some u) (h0 : (extractCards text).length ≠ 0)
    (h10 : ¬ (extractCards text).length > 10)
    (hc : ¬ u.credit < ((extractCards text).length : Int)) :
    handleMassGate chat text senderName userId command w =
      (sendText chat (.massProcessing (gatewayNameOf command "/mad".toList)
          (extractCards text).length senderName) >>= fun processingMsg =>
        massGateLoop chat (gatewayNameOf command "/mad".toList) processingMsg
          (extractCards text).length 0 (extractCards text) [] >>= fun resultText =>
        editText chat processingMsg
          (.massGateResults (gatewayNameOf command "/mad".toList) resultText true) >>= fun _ =>
        chargeAndTouch userId (extractCards text).length) w := by
  unfold handleMassGate
  rw [getW_bind]
  simp only [hu, if_neg h0, if_neg h10, if_neg hc]

theorem massGateLoop_exc {I : World → Prop} (hI : Stable I) (D : Prop)
    (chat gatewayName : Str) (key total : Nat) :
    ∀ (cards : List Str) (i : Nat) (resultText : List (Str × GateReply)),
    Triple I (massGateLoop chat gatewayName key total i cards resultText) (fun _ => I)
      (Exc I) D := by
  intro cards
  induction cards with
  | nil => intro i resultText; exact Triple.pure _ (fun _ h => h)
  | cons card cards ih =>
    intro i resultText
    unfold massGateLoop
    refine Triple.bind (simulatePaymentGate_keeps hI _ _ D) (fun result => ?_)
    simp only
    split
    · refine Triple.bind (editText_keeps hI _ _ _ D) (fun _ => ?_)
      exact Triple.bind (sleep_keeps hI _ _ _) (fun _ => ih _ _)
    · refine Triple.bind (Q := fun _ => I) (Triple.pure _ (fun _ h => h)) (fun _ => ?_)
      exact Triple.bind (sleep_keeps hI _ _ _) (fun _ => ih _ _)

theorem gateCalls_append (l : List Event) (e : Event) :
    gateCalls (l ++ [e]) = gateCalls l ++ gateCalls [e] := by
  unfold gateCalls
  rw [List.filterMap_append]

theorem transport_gate (L : List (Str × Str)) (e : Nat → Event)
    (he : ∀ key, gateCalls [e key] = []) (E : World → Prop) (hE : ∀ w, E w) (D : Prop) :
    Triple (fun x => gateCalls x.log = L) (transport e) (fun _ x => gateCalls x.log = L) E
      D := by
  intro w hw
  unfold transport
  by_cases hn : w.net.headD true = true
  · simp only [hn, if_true]
    show gateCalls (w.log ++ [e w.log.length]) = L
    rw [gateCalls_append, he, hw, List.append_nil]
  · simp only [hn]
    exact hE _

theorem editText_gate (L : List (Str × Str)) (chat : Str) (key : Nat) (msg : Msg)
    (E : World → Prop) (hE : ∀ w, E w) (D : Prop) :
    Triple (fun x => gateCalls x.log = L) (editText chat key msg)
      (fun _ x => gateCalls x.log = L) E D :=
  Triple.bind (transport_gate L (fun _ => .edit chat key msg) (fun _ => rfl) E hE D)
    (fun _ => Triple.pure _ (fun _ h => h))

theorem simulatePaymentGate_gate (L : List (Str × Str)) (fullcc gateway : Str)
    (E : World → Prop) (D : Prop) :
    Triple (fun x => gateCalls x.log = L) (simulatePaymentGate fullcc gateway)
      (fun _ x => gateCalls x.log = L ++ [(fullcc, gateway)]) E D := by
  unfold simulatePaymentGate
  refine Triple.bind (Q := fun _ x => gateCalls x.log = L ++ [(fullcc, gateway)]) ?_
    (fun _ => ?_)
  · intro w hw
    show gateCalls (w.log ++ [Event.gate fullcc gateway]) = _
    rw [gateCalls_append, hw]
    rfl
  refine Triple.bind (Q := fun _ x => gateCalls x.log = L ++ [(fullcc, gateway)])
    (fun w hw => hw) (fun delay => ?_)
  refine Triple.bind (Q := fun _ x => gateCalls x.log = L ++ [(fullcc, gateway)])
    (fun w hw => hw) (fun _ => ?_)
  refine Triple.bind (Q := fun _ x => gateCalls x.log = L ++ [(fullcc, gateway)])
    (fun w hw => hw) (fun p => ?_)
  split
  · exact Triple.pure _ (fun _ h => h)
  · refine Triple.bind (Q := fun _ x => gateCalls x.log = L ++ [(fullcc, gateway)])
      (fun w hw => hw) (fun k => ?_)
    split <;> exact Triple.pure _ (fun _ h => h)

theorem massGateLoop_gate (chat gatewayName : Str) (key total : Nat) :
    ∀ (cards : List Str) (i : Nat) (resultText : List (Str × GateReply))
      (L : List (Str × Str)),
    Triple (fun x => gateCalls x.log = L)
      (massGateLoop chat gatewayName key total i cards resultText)
      (fun _ x => gateCalls x.log = L ++ cards.map fun card => (card, gatewayName))
      (fun _ => True) True := by
  intro cards
  induction cards with
  | nil => intro i resultText L; exact Triple.pure _ (fun _ h => by simpa using h)
  | cons card cards ih =>
    intro i resultText L
    unfold massGateLoop
    refine Triple.bind (simulatePaymentGate_gate L _ _ _ _) (fun result => ?_)
    have hstep : ∀ rt, Triple (fun x => gateCalls x.log = L ++ [(card, gatewayName)])
        (sleep 1000 >>= fun _ => massGateLoop chat gatewayName key total (i + 1) cards rt)
        (fun _ x => gateCalls x.log =
          L ++ (card :: cards).map fun card => (card, gatewayName))
        (fun _ => True) True := by
      intro rt
      refine Triple.bind (Q := fun _ x => gateCalls x.log = L ++ [(card, gatewayName)])
        (fun w hw => hw) (fun _ => ?_)
      refine (ih (i + 1) rt (L ++ [(card, gatewayName)])).weaken (fun _ h => h) ?_
        (fun _ h => h) (fun h => h)
      intro _ x hx
      rw [hx, List.map_cons, List.append_assoc]
      rfl
    simp only
    split
    · exact Triple.bind (editText_gate _ _ _ _ _ (fun _ => trivial) _) (fun _ => hstep _)
    · exact Triple.bind (Q := fun _ x => gateCalls x.log = L ++ [(card, gatewayName)])
        (Triple.pure _ (fun _ h => h)) (fun _ => hstep _)

theorem massGate_body {I : World → Prop} (hI : Stable I) (Q : Unit → World → Prop)
    (chat gatewayName senderName userId : Str) (cards : List Str)
    (hend : Triple I (chargeAndTouch userId cards.length) Q (Exc I) False) :
    Triple I
      (sendText chat (.massProcessing gatewayName cards.length senderName) >>=
        fun processingMsg =>
        massGateLoop chat gatewayName processingMsg cards.length 0 cards [] >>= fun resultText =>
        editText chat processingMsg (.massGateResults gatewayName resultText true) >>= fun _ =>
        chargeAndTouch userId cards.length) Q (Exc I) False :=
  Triple.bind (sendText_keeps hI _ _ False) (fun _ =>
    Triple.bind (massGateLoop_exc hI False _ _ _ _ _ _ _) (fun _ =>
      Triple.bind (editText_keeps hI _ _ _ False) (fun _ => hend)))

theorem massGate_body_gate (L : List (Str × Str))
    (chat gatewayName senderName userId : Str) (cards : List Str) :
    Triple (fun x => gateCalls x.log = L)
      (sendText chat (.massProcessing gatewayName cards.length senderName) >>=
        fun processingMsg =>
        massGateLoop chat gatewayName processingMsg cards.length 0 cards [] >>= fun resultText =>
        editText chat processingMsg (.massGateResults gatewayName resultText true) >>= fun _ =>
        chargeAndTouch userId cards.length)
      (fun _ x => gateCalls x.log = L ++ cards.map fun card => (card, gatewayName))
      (fun _ => True) True :=
  Triple.bind
    (transport_gate L (fun _ => .send chat (.massProcessing gatewayName cards.length senderName))
      (fun _ => rfl) _ (fun _ => trivial) _)
    (fun _ =>
      Triple.bind (massGateLoop_gate _ _ _ _ _ _ _ L) (fun _ =>
        Triple.bind (editText_gate _ _ _ _ _ (fun _ => trivial) _) (fun _ =>
          fun _ hw => hw)))

/-- When no other activation runs between its start and its end (the event is
handled to its end, as `handleCommand` does here): a mass-gate check (`/mad` or
`/mb4`) whose message yields `n` cards,
`1 ≤ n ≤ 10`, by a caller with `c` credits.  With `c < n` the command ends
after the single reply that names the shortage and the account store is
unchanged.  With `c ≥ n` the run always ends; when it ends normally (as it does
whenever the transport delivers) the gate simulator was called once for each
card, in the order of the message, the caller holds exactly `c - n` credits,
the cooldown timestamp is the clock at the end of the run and no other account
changed; when it ends by an exception the account store is unchanged. -/
theorem mass_gate_charge (fuel : Nat) (chat text senderName userId : Str) (w : World)
    (u : User)
    (hcmd : commandOf text = "/mad".toList ∨ commandOf text = "/mb4".toList)
    (hu : getUser w.users userId = some u)
    (h1 : 1 ≤ (extractCards text).length) (h10 : (extractCards text).length ≤ 10) :
    (u.credit < ((extractCards text).length : Int) →
      RejectedWith (handleCommand fuel chat text senderName userId w) w chat
        (.needCredits (extractCards text).length u.credit)) ∧
    (((extractCards text).length : Int) ≤ u.credit →
      (handleCommand fuel chat text senderName userId w).sat
        (fun _ w' =>
          getUser w'.users userId =
            some { u with credit := u.credit - (extractCards text).length,
                          antispam_time := w'.now } ∧
          (∀ id, id ≠ userId → getUser w'.users id = getUser w.users id) ∧
          gateCalls w'.log = gateCalls w.log ++
            (extractCards text).map fun card =>
              (card, gatewayNameOf (commandOf text) "/mad".toList))
        (fun w' => w'.users = w.users) False ∧
      (Smooth w → ∃ w', handleCommand fuel chat text senderName userId w = .ok () w')) := by
  have hreg : (getUser w.users userId).isSome = true := by rw [hu]; rfl
  rw [handleCommand_of_registered fuel chat text senderName userId w hreg,
    dispatch_massGate fuel chat text senderName userId _ hcmd]
  refine ⟨fun hlt => ?_, fun hge => ?_⟩
  · have e : handleMassGate chat text senderName userId (commandOf text) w =
        (sendText chat (.needCredits (extractCards text).length u.credit) >>= fun _ =>
          (Pure.pure PUnit.unit : M PUnit)) w := by
      unfold handleMassGate
      rw [getW_bind]
      simp only [hu, if_neg (show ¬ (extractCards text).length = 0 by omega),
        if_neg (show ¬ (extractCards text).length > 10 by omega), if_pos hlt]
    rw [e]
    exact reply_rejected _ _ _
  · rw [handleMassGate_pass chat text senderName userId (commandOf text) w u hu (by omega)
      (by omega) (not_lt.2 hge)]
    have hcharged : ∀ (us : Users) (now : Int), us = w.users →
        getUser (setAntispamTime (deductCredit us userId (extractCards text).length).2 now
            userId) userId =
          some { u with credit := u.credit - (extractCards text).length,
                        antispam_time := now } ∧
        ∀ id, id ≠ userId →
          getUser (setAntispamTime (deductCredit us userId (extractCards text).length).2 now
            userId) id = getUser w.users id := by
      intro us now hx
      simp only [getUser_charged, hx, hu, if_true, Option.map_some', ge_iff_le, hge]
      exact ⟨trivial, fun id hid => by rw [if_neg hid]⟩
    have hlog := massGate_body_gate (gateCalls w.log) chat
      (gatewayNameOf (commandOf text) "/mad".toList) senderName userId (extractCards text) w rfl
    have hacc := massGate_body (stable_users (fun us => us = w.users))
      (fun _ w' =>
        getUser w'.users userId =
          some { u with credit := u.credit - (extractCards text).length,
                        antispam_time := w'.now } ∧
        ∀ id, id ≠ userId → getUser w'.users id = getUser w.users id)
      chat (gatewayNameOf (commandOf text) "/mad".toList) senderName userId (extractCards text)
      (fun x hx => hcharged x.users x.now hx) w rfl
    have hsm := (massGate_body (stable_smooth w.users) (fun _ _ => True)
      chat (gatewayNameOf (commandOf text) "/mad".toList) senderName userId (extractCards text)
      (fun _ _ => trivial)).smooth
    refine ⟨?_, fun hs => ?_⟩
    · revert hlog hacc
      generalize (sendText chat _ >>= _) w = r
      intro hlog hacc
      cases r with
      | ok a w1 => exact ⟨hacc.1, hacc.2, hlog⟩
      | threw w1 => exact hacc.1
      | diverged => exact hacc
    · obtain ⟨a, w', hr, _⟩ := Res.sat_ok (hsm w ⟨rfl, hs⟩)
      exact ⟨w', hr⟩

theorem mass_gate_charge_witness :
    (extractCards threeCards).length = 3 ∧
    (handleCommand 1 "u@s.whatsapp.net".toList threeCards "Al".toList "u".toList
        (gateWorld 5 0 [])).sat
      (fun _ w' =>
        getUser w'.users "u".toList =
          some { sampleUser 5 0 with
                 credit := (sampleUser 5 0).credit - (extractCards threeCards).length,
                 antispam_time := w'.now } ∧
        (∀ id, id ≠ "u".toList → getUser w'.users id = getUser (gateWorld 5 0 []).users id) ∧
        gateCalls w'.log = gateCalls (gateWorld 5 0 []).log ++
          (extractCards threeCards).map fun card =>
            (card, gatewayNameOf (commandOf threeCards) "/mad".toList))
      (fun w' => w'.users = (gateWorld 5 0 []).users) False ∧
    (Smooth (gateWorld 5 0 []) →
      ∃ w', handleCommand 1 "u@s.whatsapp.net".toList threeCards "Al".toList "u".toList
        (gateWorld 5 0 []) = .ok () w') :=
  ⟨by decide,
   (mass_gate_charge 1 "u@s.whatsapp.net".toList threeCards "Al".toList "u".toList
      (gateWorld 5 0 []) (sampleUser 5 0) (Or.inl (by decide)) (by decide) (by decide)
      (by decide)).2 (by decide)⟩


/-! ## C18: the amount of the generate command -/

theorem luhnCardGenerator_nonpos (fuel : Nat) (cc mes ano cvv : Str) (a : Int) (h : a ≤ 0)
    (rnd : Rand) : luhnCardGenerator fuel cc mes ano cvv a rnd = some ([], rnd) := by
  unfold luhnCardGenerator
  rw [Int.toNat_eq_zero.2 h]
  rfl

theorem transport_quiet {I : World → Prop}
    (hI : ∀ (w : World) (now : Int) (lag : List Nat) (log : List Event) (net : List Bool),
      I w → I { w with now := now, lag := lag, log := log, net := net })
    (e : Nat → Event) (D : Prop) : Triple I (transport e) (fun _ => I) I D := by
  intro w hw
  unfold transport
  by_cases hn : w.net.headD true = true
  · simp only [hn, if_true]
    exact hI w _ _ _ _ hw
  · simp only [hn]
    exact hI w _ _ _ _ hw

theorem dispatch_gen (fuel : Nat) (chat text senderName userId : Str) :
    dispatch fuel chat text senderName userId "/gen".toList =
      handleGen fuel chat text senderName userId := rfl

theorem handleGen_limit (fuel : Nat) (chat text senderName userId : Str) (w : World)
    (p0 ccsdata third : Str) (more : List Str) (a : Int)
    (hparts : split ' ' text = p0 :: ccsdata :: third :: more) (ha : parseInt third = some a)
    (hlim : 10000 < a) :
    handleGen fuel chat text senderName userId w =
      (sendText chat .genLimit >>= fun _ => (Pure.pure PUnit.unit : M PUnit)) w := by
  unfold handleGen
  rw [hparts]
  simp only [ha, Option.getD_some]
  rw [if_pos hlim]

theorem handleGen_nonpos (fuel : Nat) (chat text senderName userId : Str) (w : World)
    (p0 ccsdata third : Str) (more : List Str) (a : Int)
    (hparts : split ' ' text = p0 :: ccsdata :: third :: more) (ha : parseInt third = some a)
    (hnp : a ≤ 0) :
    Triple (SameStores w) (handleGen fuel chat text senderName userId)
      (fun _ => SameStores w) (SameStores w) False := by
  have hI : ∀ (x : World) (now : Int) (lag : List Nat) (log : List Event) (net : List Bool),
      SameStores w x → SameStores w { x with now := now, lag := lag, log := log, net := net } :=
    fun _ _ _ _ _ h => h
  unfold handleGen
  rw [hparts]
  simp only [ha, Option.getD_some]
  rw [if_neg (by omega)]
  refine Triple.bind (transport_quiet hI _ _) (fun deleteMsg => ?_)
  refine Triple.bindGetW (fun w1 h1 => ?_)
  rw [luhnCardGenerator_nonpos _ _ _ _ _ _ hnp]
  simp only
  refine Triple.bindSetW ?_
  refine Triple.bind (Q := fun _ => SameStores w) (P := fun x => x = { w1 with rnd := w1.rnd })
    ((transport_quiet hI _ _).weaken (fun x hx => by rw [hx]; exact h1) (fun _ _ h => h)
      (fun _ h => h) (fun h => h)) (fun _ => ?_)
  rw [if_neg (by omega)]
  refine Triple.bindGetW (fun w2 h2 => ?_)
  refine Triple.bindSetW ?_
  refine Triple.bindGetW (fun w3 h3 => ?_)
  refine Triple.bind (Q := fun _ => SameStores w)
    ((transport_quiet hI _ _).weaken (fun x hx => by rw [hx, h3]; exact h2) (fun _ _ h => h)
      (fun _ h => h) (fun h => h)) (fun _ => ?_)
  refine Triple.bindGetW (fun w4 h4 => ?_)
  refine Triple.bindSetW ?_
  exact Triple.pure _ (fun x hx => by rw [hx]; exact h4)

theorem handleGenCommand_quiet (fuel : Nat) (chat text senderName userId : Str) (w : World)
    (p0 ccsdata third : Str) (more : List Str) (a : Int)
    (hparts : split ' ' text = p0 :: ccsdata :: third :: more)
    (ha : parseInt third = some a) :
    Triple (fun x => SameStores w x ∧ x.files = w.files)
      (handleGenCommand fuel chat text senderName userId)
      (fun _ x => SameStores w x ∧ x.files = w.files)
      (fun x => SameStores w x ∧ x.files = w.files) False := by
  have hI : ∀ (x : World) (now : Int) (lag : List Nat) (log : List Event) (net : List Bool),
      (fun x => SameStores w x ∧ x.files = w.files) x →
      (fun x => SameStores w x ∧ x.files = w.files)
        { x with now := now, lag := lag, log := log, net := net } :=
    fun _ _ _ _ _ h => h
  unfold handleGenCommand
  refine Triple.tryCatch (F := fun x => SameStores w x ∧ x.files = w.files) ?_
    (Triple.bind (transport_quiet hI _ _) (fun _ => Triple.pure _ (fun _ h => h)))
  rw [hparts]
  simp only [ha, Option.getD_some]
  split
  · exact Triple.bind (transport_quiet hI _ _) (fun _ => Triple.pure _ (fun _ h => h))
  · refine Triple.bind (transport_quiet hI _ _) (fun deleteMsg => ?_)
    exact Triple.bind (Q := fun _ _ => False) (Triple.throwM (fun _ h => h))
      (fun _ _ h => h.elim)

theorem handleGenCommand_limit (fuel : Nat) (chat text senderName userId : Str) (w : World)
    (p0 ccsdata third : Str) (more : List Str) (a : Int)
    (hparts : split ' ' text = p0 :: ccsdata :: third :: more) (ha : parseInt third = some a)
    (hlim : 10000 < a) (hnet : w.net.headD true = true) :
    RejectedWith (handleGenCommand fuel chat text senderName userId w) w chat .genLimit := by
  have e : handleGenCommand fuel chat text senderName userId w =
      tryCatch (sendText chat .genLimit >>= fun _ => (Pure.pure PUnit.unit : M PUnit))
        (sendText chat .genCommandError >>= fun _ => (Pure.pure PUnit.unit : M PUnit)) w := by
    unfold handleGenCommand
    rw [hparts]
    simp only [ha, Option.getD_some]
    rw [if_pos hlim]
  rw [e]
  unfold RejectedWith tryCatch
  rw [bind_apply]
  unfold sendText transport
  simp only [hnet, if_true]
  exact ⟨_, rfl, rfl, rfl, rfl, rfl, rfl⟩

/-- C18 (as stated) fails: `/gen 447697 0` is not rejected.  The handler
announces the generation, deletes the announcement and sends the export
document `0x_CC_Generated.txt`, whose content is empty. -/
theorem zero_amount_counterexample :
    parseInt "0".toList = some 0 ∧
    ((handleCommand 1 "u@s.whatsapp.net".toList "/gen 447697 0".toList "Al".toList "u".toList
        (gateWorld 5 0 [])).world?).map (fun w' => w'.log) =
      some [Event.send "u@s.whatsapp.net".toList Msg.generating,
            Event.delete "u@s.whatsapp.net".toList 0,
            Event.document "u@s.whatsapp.net".toList [] "0x_CC_Generated.txt".toList
              (Msg.genCaption "447697".toList 0
                (getBinInfo [] "447697".toList) "Al".toList)] := by
  decide

/-- C18 (as amended): the generate command with a third word that parses to the
amount `a`, in `handleGen` (reached through `/gen` by a registered sender) and
in `handleGenCommand` of `src/index.js`.  For `a > 10000` the only reply is the
fixed limit message (from `handleGenCommand` when that reply is delivered), and
no card is generated, no file is written or sent and no store changes.  For
`a ≤ 0` the generator returns the empty text without a random draw, the run
ends, and no account, no VBV entry and no random value is touched. -/
theorem gen_amount_limits (fuel : Nat) (chat text senderName userId : Str) (w : World)
    (p0 ccsdata third : Str) (more : List Str) (a : Int)
    (hparts : split ' ' text = p0 :: ccsdata :: third :: more)
    (ha : parseInt third = some a) :
    (10000 < a →
      (commandOf text = "/gen".toList → (getUser w.users userId).isSome = true →
        RejectedWith (handleCommand fuel chat text senderName userId w) w chat .genLimit) ∧
      (w.net.headD true = true →
        RejectedWith (handleGenCommand fuel chat text senderName userId w) w chat .genLimit) ∧
      ∃ w', (handleGenCommand fuel chat text senderName userId w).world? = some w' ∧
        SameStores w w' ∧ w'.files = w.files) ∧
    (a ≤ 0 →
      (∀ cc mes ano cvv rnd, luhnCardGenerator fuel cc mes ano cvv a rnd = some ([], rnd)) ∧
      (commandOf text = "/gen".toList → (getUser w.users userId).isSome = true →
        ∃ w', (handleCommand fuel chat text senderName userId w).world? = some w' ∧
          SameStores w w') ∧
      ∃ w', (handleGenCommand fuel chat text senderName userId w).world? = some w' ∧
        SameStores w w' ∧ w'.files = w.files) := by
  have hindex := Triple.world
    (handleGenCommand_quiet fuel chat text senderName userId w p0 ccsdata third more a hparts ha)
    (w := w) ⟨⟨rfl, rfl, rfl, rfl⟩, rfl⟩
  refine ⟨fun hlim => ⟨fun hcmd hreg => ?_, fun hnet => ?_, hindex⟩,
    fun hnp => ⟨fun cc mes ano cvv rnd => luhnCardGenerator_nonpos _ _ _ _ _ _ hnp _,
      fun hcmd hreg => ?_, hindex⟩⟩
  · rw [handleCommand_of_registered fuel chat text senderName userId w hreg, hcmd, dispatch_gen,
      handleGen_limit fuel chat text senderName userId w p0 ccsdata third more a hparts ha hlim]
    exact reply_rejected _ _ _
  · exact handleGenCommand_limit fuel chat text senderName userId w p0 ccsdata third more a
      hparts ha hlim hnet
  · rw [handleCommand_of_registered fuel chat text senderName userId w hreg, hcmd, dispatch_gen]
    exact Triple.world
      (handleGen_nonpos fuel chat text senderName userId w p0 ccsdata third more a hparts ha hnp)
      (w := w) ⟨rfl, rfl, rfl, rfl⟩

theorem gen_amount_limits_witness :
    (split ' ' "/gen 447697 10001".toList =
        ["/gen".toList, "447697".toList, "10001".toList] ∧
      parseInt "10001".toList = some 10001 ∧
      RejectedWith
        (handleCommand 1 "u@s.whatsapp.net".toList "/gen 447697 10001".toList "Al".toList
          "u".toList (gateWorld 5 0 []))
        (gateWorld 5 0 []) "u@s.whatsapp.net".toList .genLimit) ∧
    (split ' ' "/gen 447697 -3".toList = ["/gen".toList, "447697".toList, "-3".toList] ∧
      parseInt "-3".toList = some (-3) ∧
      ∃ w', (handleCommand 1 "u@s.whatsapp.net".toList "/gen 447697 -3".toList "Al".toList
          "u".toList (gateWorld 5 0 [])).world? = some w' ∧
        SameStores (gateWorld 5 0 []) w') :=
  ⟨⟨by decide, by decide,
    ((gen_amount_limits 1 "u@s.whatsapp.net".toList "/gen 447697 10001".toList "Al".toList
      "u".toList (gateWorld 5 0 []) "/gen".toList "447697".toList "10001".toList [] 10001
      (by decide) (by decide)).1 (by decide)).1 (by decide) (by decide)⟩,
   by decide, by decide,
   ((gen_amount_limits 1 "u@s.whatsapp.net".toList "/gen 447697 -3".toList "Al".toList
      "u".toList (gateWorld 5 0 []) "/gen".toList "447697".toList "-3".toList [] (-3)
      (by decide) (by decide)).2 (by decide)).2.1 (by decide) (by decide)⟩


/-! ## C19: the retry loop can finish -/

set_option maxRecDepth 100000 in
theorem shuffleOutcomes_cover : ∀ k, k < 11 → 0 < k → ∀ b, b < 10 →
    ∃ r ∈ shuffleOutcomes,
      (luhnRefWalk 0 (digitsOf ((shuffleLoop 9 "0123456789".toList r).1.take k).reverse) + b)
        % 10 = 0 := by
  decide

theorem luhnRefWalk_append : ∀ (xs ys : List Nat) (i : Nat),
    luhnRefWalk i (xs ++ ys) = luhnRefWalk i xs + luhnRefWalk (i + xs.length) ys := by
  intro xs
  induction xs with
  | nil => intro ys i; simp [luhnRefWalk]
  | cons x xs ih =>
    intro ys i
    rw [List.cons_append, luhnRefWalk, luhnRefWalk, ih, List.length_cons, Nat.add_assoc,
      Nat.add_assoc, Nat.add_comm 1]

theorem checkLuhn_append {cc t : Str} (hcc : ∀ c ∈ cc, c.isDigit = true)
    (ht : ∀ c ∈ t, c.isDigit = true)
    (h : (luhnRefWalk 0 (digitsOf t.reverse) + luhnRefWalk t.length (digitsOf cc.reverse))
      % 10 = 0) : checkLuhn (cc ++ t) = true := by
  have hall : ∀ c ∈ (cc ++ t).reverse, c.isDigit = true := by
    intro c hc
    rcases List.mem_append.1 (List.mem_reverse.1 hc) with e | e
    · exact hcc c e
    · exact ht c e
  unfold checkLuhn
  rw [checkLuhnLoop_eq_ref _ 0 false 0 hall (by simp), List.reverse_append]
  unfold digitsOf
  rw [List.map_append, luhnRefWalk_append, List.length_map, List.length_reverse]
  simp only [Nat.zero_add]
  unfold digitsOf at h
  rw [h]
  rfl

theorem genNumber_short {cc : Str} (hd : ∀ c ∈ cc, c.isDigit = true)
    (hlen : cc.length < numberLength cc) :
    ∃ k, 0 < k ∧ k < 11 ∧ ∀ rnd : Rand,
      (genNumber cc rnd).1 = cc ++ (shuffleLoop 9 "0123456789".toList rnd).1.take k := by
  by_cases hk : numberLength cc - cc.length < 11
  · refine ⟨numberLength cc - cc.length, by omega, hk, fun rnd => ?_⟩
    rw [genNumber_of_digits hd]
    simp only
    unfold substring0
    rw [List.take_append_eq_append_take, List.take_of_length_le (Nat.le_of_lt hlen)]
  · refine ⟨10, by decide, by decide, fun rnd => ?_⟩
    rw [genNumber_of_digits hd]
    have hl := (shuffle_digits rnd).2
    generalize (shuffleLoop 9 "0123456789".toList rnd).1 = numbers at hl
    simp only
    unfold substring0
    rw [List.take_append_eq_append_take, List.take_of_length_le (Nat.le_of_lt hlen),
      List.take_of_length_le (by omega), List.take_of_length_le (by omega)]

theorem length_split (sep : Char) (s : Str) : (split sep s).length = s.count sep + 1 := by
  induction s with
  | nil => rfl
  | cons c rest ih =>
    rw [split]
    by_cases hc : c = sep
    · rw [if_pos hc, List.length_cons, ih, hc, List.count_cons_self]
    · rw [if_neg hc, List.count_cons_of_ne (fun e => hc e.symm), ← ih]
      cases hs : split sep rest with
      | nil => exact absurd hs (split_ne_nil _ _)
      | cons piece pieces => rfl

theorem split_candidate {number : Str} (hn : '|' ∉ number) (mes ano cvv : Str) :
    ∃ mesx anox cvvx more,
      split '|' (number ++ '|' :: (mes ++ '|' :: (ano ++ '|' :: cvv))) =
        number :: mesx :: anox :: cvvx :: more := by
  rw [split_append_sep hn]
  have hl : 3 ≤ (split '|' (mes ++ '|' :: (ano ++ '|' :: cvv))).length := by
    rw [length_split]
    simp only [List.count_append, List.count_cons_self]
    omega
  generalize split '|' (mes ++ '|' :: (ano ++ '|' :: cvv)) = l at hl
  match l, hl with
  | mesx :: anox :: cvvx :: more, _ => exact ⟨mesx, anox, cvvx, more, rfl⟩

theorem luhnRetry_passes (cc mes ano cvv : Str) (rnd : Rand)
    (h : checkLuhn (genNumber cc rnd).1 = true) (fuel : Nat) :
    (luhnRetry cc mes ano cvv (fuel + 1) rnd).isSome = true := by
  obtain ⟨r1, r2, r3, e⟩ := ccGenerator_fst cc mes ano cvv rnd
  have hn : '|' ∉ (genNumber cc rnd).1 := not_pipe_of_digits (checkLuhn_digits h)
  obtain ⟨mesx, anox, cvvx, more, hs⟩ := split_candidate hn (genMes (padMes mes) r1).1
    (genAno (expandAno ano) r2).1 (genCvv (genNumber cc rnd).1 cvv r3).1
  rw [← e] at hs
  rw [luhnRetry]
  generalize ccGenerator cc mes ano cvv rnd = g at hs
  obtain ⟨result, rnd1⟩ := g
  simp only at hs ⊢
  rw [hs]
  simp only [h, if_true]
  rfl

theorem luhnRetry_stuck (mes ano cvv : Str) : ∀ (fuel : Nat) (rnd : Rand),
    luhnRetry "1111111111111111".toList mes ano cvv fuel rnd = none := by
  intro fuel
  induction fuel with
  | zero => intro rnd; rfl
  | succ fuel ih =>
    intro rnd
    have hd : ∀ c ∈ "1111111111111111".toList, c.isDigit = true := by decide
    have hnum : cardNumberOf (ccGenerator "1111111111111111".toList mes ano cvv rnd).1 =
        "1111111111111111".toList := by
      rw [cardNumberOf_ccGenerator (not_pipe_of_digits hd), genNumber_of_digits hd]
      show List.take 16 ("1111111111111111".toList ++ _) = _
      rw [List.take_append_eq_append_take]
      simp
    rw [luhnRetry]
    generalize ccGenerator "1111111111111111".toList mes ano cvv rnd = g at hnum
    obtain ⟨result, rnd1⟩ := g
    simp only at hnum ⊢
    unfold cardNumberOf at hnum
    split
    · rename_i ccx mesx anox cvvx more hs
      rw [hs] at hnum
      simp only [List.headD_cons] at hnum
      rw [hnum, if_neg (by decide)]
      exact ih _
    · rfl

/-- C19 (as stated) fails: `/gen 1111111111111111 1` hands the prefix of
sixteen ones to `luhnCardGenerator`; every candidate has that number, which
fails `checkLuhn`, so whatever the random values are the retry loop never
ends (no amount of fuel yields a card). -/
theorem stuck_prefix_counterexample :
    (split '|' ((split ' ' "/gen 1111111111111111 1".toList).getD 1 [])).headD [] =
      "1111111111111111".toList ∧
    checkLuhn "1111111111111111".toList = false ∧
    ∀ (fuel : Nat) (rnd : Rand),
      luhnCardGenerator fuel "1111111111111111".toList "None".toList "None".toList
        "None".toList 1 rnd = none := by
  refine ⟨by decide, by decide, fun fuel rnd => ?_⟩
  unfold luhnCardGenerator
  show (match luhnLoop fuel _ _ _ _ 1 [] rnd with
    | none => none
    | some (allCards, rnd) => some (trim allCards, rnd)) = none
  rw [luhnLoop, luhnRetry_stuck]

/-- C19 (as amended): for a prefix of decimal digits that is shorter than the
number (fewer than 16 digits, fewer than 15 when it starts with 34 or 37) the
retry loop can finish: there are random values for which the first candidate
of `ccGenerator` has a number that passes `checkLuhn`, and with them
`luhnCardGenerator` returns its card for amount 1. -/
theorem retry_can_finish (cc mes ano cvv : Str) (hd : ∀ c ∈ cc, c.isDigit = true)
    (hlen : cc.length < numberLength cc) :
    ∃ rnd : Rand, checkLuhn (cardNumberOf (ccGenerator cc mes ano cvv rnd).1) = true ∧
      ∀ fuel, 1 ≤ fuel → (luhnCardGenerator fuel cc mes ano cvv 1 rnd).isSome = true := by
  obtain ⟨k, hk0, hk11, hnum⟩ := genNumber_short hd hlen
  obtain ⟨r, _, hr⟩ := shuffleOutcomes_cover k hk11 hk0
    (luhnRefWalk k (digitsOf cc.reverse) % 10) (Nat.mod_lt _ (by decide))
  have hs := shuffle_digits r
  have hpass : checkLuhn (genNumber cc r).1 = true := by
    rw [hnum r]
    refine checkLuhn_append hd (fun c hc => hs.1 c (List.mem_of_mem_take hc)) ?_
    rw [List.length_take, hs.2, Nat.min_eq_left (by omega)]
    omega
  refine ⟨r, ?_, fun fuel hfuel => ?_⟩
  · rw [cardNumberOf_ccGenerator (not_pipe_of_digits hd)]
    exact hpass
  · obtain ⟨f, rfl⟩ : ∃ f, fuel = f + 1 := ⟨fuel - 1, by omega⟩
    have hret := luhnRetry_passes cc mes ano cvv r hpass f
    unfold luhnCardGenerator
    show (match luhnLoop (f + 1) cc mes ano cvv 1 [] r with
      | none => none
      | some (allCards, rnd) => some (trim allCards, rnd)).isSome = true
    rw [luhnLoop]
    cases hx : luhnRetry cc mes ano cvv (f + 1) r with
    | none => rw [hx] at hret; cases hret
    | some p => rfl

theorem retry_can_finish_witness :
    (∀ c ∈ "447697".toList, c.isDigit = true) ∧
    "447697".toList.length < numberLength "447697".toList ∧
    ∃ rnd : Rand,
      checkLuhn (cardNumberOf
        (ccGenerator "447697".toList "None".toList "None".toList "None".toList rnd).1) = true ∧
      ∀ fuel, 1 ≤ fuel →
        (luhnCardGenerator fuel "447697".toList "None".toList "None".toList "None".toList 1
          rnd).isSome = true :=
  ⟨by decide, by decide,
   retry_can_finish "447697".toList "None".toList "None".toList "None".toList (by decide)
     (by decide)⟩


/-! ## C30: the check digit -/

theorem checkLuhn_append_iff {cc t : Str} (hcc : ∀ c ∈ cc, c.isDigit = true)
    (ht : ∀ c ∈ t, c.isDigit = true) :
    checkLuhn (cc ++ t) = true ↔
      (luhnRefWalk 0 (digitsOf t.reverse) + luhnRefWalk t.length (digitsOf cc.reverse))
        % 10 = 0 := by
  have hall : ∀ c ∈ (cc ++ t).reverse, c.isDigit = true := by
    intro c hc
    rcases List.mem_append.1 (List.mem_reverse.1 hc) with e | e
    · exact hcc c e
    · exact ht c e
  unfold checkLuhn
  rw [checkLuhnLoop_eq_ref _ 0 false 0 hall (by simp), List.reverse_append]
  unfold digitsOf
  rw [List.map_append, luhnRefWalk_append, List.length_map, List.length_reverse]
  simp only [Nat.zero_add, beq_iff_eq]

theorem toNat_digitChar {d : Nat} (h : d < 10) : (Nat.digitChar d).toNat - 48 = d := by
  interval_cases d <;> rfl

/-- C30: for every string `s` of decimal digits there is exactly one digit `d`
in `0..9` for which `checkLuhn` accepts `s` followed by `d`; so exactly one of
the ten final digits completes a fixed leading part. -/
theorem luhn_check_digit_unique (s : Str) (hs : ∀ c ∈ s, c.isDigit = true) :
    (∃! d : Nat, d < 10 ∧ checkLuhn (s ++ [Nat.digitChar d]) = true) ∧
    ((List.range 10).filter fun d => checkLuhn (s ++ [Nat.digitChar d])).length = 1 := by
  have key : ∀ d, d < 10 → (checkLuhn (s ++ [Nat.digitChar d]) = true ↔
      (d + luhnRefWalk 1 (digitsOf s.reverse)) % 10 = 0) := by
    intro d hd
    rw [checkLuhn_append_iff hs (fun c hc => by
      rw [List.mem_singleton.1 hc]; exact digitChar_isDigit hd)]
    simp [digitsOf, luhnRefWalk, luhnRefTerm, toNat_digitChar hd]
  generalize luhnRefWalk 1 (digitsOf s.reverse) = x at key
  have hcount : ∀ r, r < 10 →
      ((List.range 10).filter fun d => decide ((d + r) % 10 = 0)).length = 1 := by decide
  refine ⟨⟨(10 - x % 10) % 10, ⟨Nat.mod_lt _ (by decide), ?_⟩, ?_⟩, ?_⟩
  · rw [key _ (Nat.mod_lt _ (by decide))]
    omega
  · rintro d ⟨hd, hc⟩
    rw [key d hd] at hc
    omega
  · rw [← hcount (x % 10) (Nat.mod_lt _ (by decide))]
    congr 1
    apply List.filter_congr
    intro d hd
    have hd10 : d < 10 := List.mem_range.1 hd
    have := key d hd10
    by_cases h : checkLuhn (s ++ [Nat.digitChar d]) = true
    · rw [h]; symm; rw [decide_eq_true_eq]; have := this.1 h; omega
    · rw [Bool.not_eq_true] at h
      rw [h]; symm; rw [decide_eq_false_iff_not]
      intro hh
      have : checkLuhn (s ++ [Nat.digitChar d]) = true := this.2 (by omega)
      rw [h] at this; cases this

theorem luhn_check_digit_unique_witness :
    (∀ c ∈ "447697823456709".toList, c.isDigit = true) ∧
    checkLuhn ("447697823456709".toList ++ [Nat.digitChar 1]) = true ∧
    ((∃! d : Nat, d < 10 ∧ checkLuhn ("447697823456709".toList ++ [Nat.digitChar d]) = true) ∧
      ((List.range 10).filter fun d =>
        checkLuhn ("447697823456709".toList ++ [Nat.digitChar d])).length = 1) :=
  ⟨by decide, by decide, luhn_check_digit_unique "447697823456709".toList (by decide)⟩


/-! ## C21: removing a BIN -/

theorem mapDelete_eq_filter {α : Type} : ∀ (m : List (Str × α)) (key : Str),
    (m.map Prod.fst).Nodup → mapDelete m key = m.filter fun e => e.1 ≠ key := by
  intro m
  induction m with
  | nil => intro key _; rfl
  | cons e rest ih =>
    intro key hnd
    obtain ⟨k, v⟩ := e
    rw [List.map_cons, List.nodup_cons] at hnd
    rw [mapDelete]
    by_cases hk : k = key
    · rw [if_pos hk, List.filter_cons_of_neg (by simp [hk])]
      symm
      rw [List.filter_eq_self]
      intro a ha
      have : a.1 ≠ k := fun e => hnd.1 (List.mem_map.2 ⟨a, ha, e⟩)
      simpa [hk] using this
    · rw [if_neg hk, List.filter_cons_of_pos (by simp [hk]), ih key hnd.2]

theorem mapGet_eq_none_iff {α : Type} (m : List (Str × α)) (key : Str) :
    mapGet m key = none ↔ key ∉ m.map Prod.fst := by
  induction m with
  | nil => exact ⟨fun _ h => (nomatch h), fun _ => rfl⟩
  | cons e rest ih =>
    obtain ⟨k, v⟩ := e
    rw [mapGet, List.map_cons, List.mem_cons]
    by_cases hk : k = key
    · rw [if_pos hk]
      exact ⟨fun h => (nomatch h), fun h => absurd (Or.inl hk.symm) h⟩
    · rw [if_neg hk, ih]
      exact ⟨fun h hh => hh.elim (fun e => hk e.symm) h, fun h hh => h (Or.inr hh)⟩

/-- The `src/config.js` half of C21: on a table with one record for each BIN
`removeVbvToken` reports not-found and changes nothing when the BIN is
absent, and otherwise keeps exactly the records of the other BINs. -/
theorem removeVbvToken_exact (db : VbvDb) (bin : Str) (hnd : (db.map Prod.fst).Nodup) :
    (getVbvInfo db bin = none → removeVbvToken db bin = (false, db, none)) ∧
    ((getVbvInfo db bin).isSome = true →
      (removeVbvToken db bin).1 = true ∧
      (removeVbvToken db bin).2.1 = db.filter fun e => e.1 ≠ bin) := by
  unfold removeVbvToken getVbvInfo
  refine ⟨fun h => by rw [h]; rfl, fun h => ?_⟩
  rw [if_pos h]
  exact ⟨rfl, mapDelete_eq_filter db bin hnd⟩

/-- C21, the failing input: the owner sends `/rmvbv 4476` to `src/index.js`
while `FILES/vbvbin.txt` holds the default records of the BINs 447697 and
424242.  No record has the BIN 4476, yet `handleRemoveVbvCommand` deletes the
record of 447697 and reports success. -/
theorem prefix_removal_failing_input :
    ((handleRemoveVbvCommand "o@s.whatsapp.net".toList "/rmvbv 4476".toList
        "1234567890".toList indexWorld).world?).map
        (fun w' => (mapGet w'.files vbvBinFile, w'.log)) =
      some (some ("# VBV BIN Database\n# Format: BIN|STATUS|RESPONSE\n" ++
              "424242|3D FALSE ✅|3D Secure Not Required\n").toList,
            [Event.send "o@s.whatsapp.net".toList (Msg.rmVbvCommandOk "4476".toList)]) := by
  decide


/-! ## C25: the BIN lookup of `src/index.js` -/

theorem handleBinCommand_fails (chat text p0 second : Str) (rest : List Str) (w : World)
    (hparts : split ' ' text = p0 :: second :: rest) :
    handleBinCommand chat text w =
      (sendText chat .binCommandError >>= fun _ => (Pure.pure PUnit.unit : M PUnit)) w := by
  unfold handleBinCommand tryCatch
  rw [hparts]
  rfl

/-- C25, the failing input: `/bin 447697` sent to `src/index.js`.  The lookup
helper the handler imports, `getBinDetails`, is not among the exports of
`src/config.js`, so the call throws and the only reply is the lookup-error
text; no formatted record is sent. -/
theorem bin_lookup_failing_input :
    ((handleBinCommand "u@s.whatsapp.net".toList "/bin 447697".toList indexWorld).world?).map
        (fun w' => w'.log) =
      some [Event.send "u@s.whatsapp.net".toList Msg.binCommandError] := by
  decide

/-! ## C22: the owner check of `/addvbv` and `/rmvbv` -/

theorem handleCommand_no_account (fuel : Nat) (chat text senderName userId : Str)
    (w : World) (h1 : (commandOf text).drop 1 ≠ "start".toList)
    (h2 : (commandOf text).drop 1 ≠ "register".toList)
    (h : (getUser w.users userId).isSome = false) :
    handleCommand fuel chat text senderName userId w =
      (sendText chat .registerFirst >>= fun _ => (Pure.pure PUnit.unit : M PUnit)) w := by
  unfold handleCommand
  show (getW >>= _) w = _
  rw [getW_bind, if_pos ⟨h1, h2, by simpa using h⟩]

/-- C22 (as stated) fails: a sender who is not an owner and has no account
sends `/addvbv 411111|3D TRUE|Enrolled`; the reply is the register-first text,
not the permission-denied text. -/
theorem addvbv_without_account_counterexample :
    (emptyWorld 0 []).ownerNumbers.contains "u".toList = false ∧
    ((handleCommand 1 "u@s.whatsapp.net".toList "/addvbv 411111|3D TRUE|Enrolled".toList
        "Al".toList "u".toList (emptyWorld 0 [])).world?).map (fun w' => w'.log) =
      some [Event.send "u@s.whatsapp.net".toList Msg.registerFirst] := by
  decide

/-- C22 (as amended): `/addvbv` and `/rmvbv` from a sender who is not an owner,
whatever the rest of the message is.  A sender who has an account gets the
fixed permission-denied reply, a sender without one the register-first reply;
in both cases that reply is the whole run, and the VBV table and the files
(so the persisted table) are unchanged. -/
theorem owner_only_commands (fuel : Nat) (chat text senderName userId : Str) (w : World)
    (hcmd : commandOf text = "/addvbv".toList ∨ commandOf text = "/rmvbv".toList)
    (hown : w.ownerNumbers.contains userId = false) :
    RejectedWith (handleCommand fuel chat text senderName userId w) w chat
      (if (getUser w.users userId).isSome then .permissionDenied else .registerFirst) := by
  cases hreg : (getUser w.users userId).isSome with
  | false =>
    rw [handleCommand_no_account fuel chat text senderName userId w
      (by rcases hcmd with h | h <;> rw [h] <;> decide)
      (by rcases hcmd with h | h <;> rw [h] <;> decide) hreg]
    exact reply_rejected _ _ _
  | true =>
    rw [handleCommand_of_registered fuel chat text senderName userId w hreg]
    have e : dispatch fuel chat text senderName userId (commandOf text) w =
        (sendText chat .permissionDenied >>= fun _ => (Pure.pure PUnit.unit : M PUnit)) w := by
      rcases hcmd with h | h
      · rw [h]
        show handleAddVbv chat text userId w = _
        unfold handleAddVbv
        rw [getW_bind, hown]
        rfl
      · rw [h]
        show handleRemoveVbv chat text userId w = _
        unfold handleRemoveVbv
        rw [getW_bind, hown]
        rfl
    rw [e]
    exact reply_rejected _ _ _

theorem owner_only_commands_witness :
    commandOf "/rmvbv 411111".toList = "/rmvbv".toList ∧
    (gateWorld 5 0 []).ownerNumbers.contains "u".toList = false ∧
    RejectedWith
      (handleCommand 1 "u@s.whatsapp.net".toList "/rmvbv 411111".toList "Al".toList
        "u".toList (gateWorld 5 0 []))
      (gateWorld 5 0 []) "u@s.whatsapp.net".toList
      (if (getUser (gateWorld 5 0 []).users "u".toList).isSome then .permissionDenied
        else .registerFirst) :=
  ⟨by decide, by decide,
   owner_only_commands 1 "u@s.whatsapp.net".toList "/rmvbv 411111".toList "Al".toList
     "u".toList (gateWorld 5 0 []) (Or.inr (by decide)) (by decide)⟩


/-! ## C28: what `extractCC` matches -/

theorem takeDigits_fst : ∀ (n : Nat) (s : Str),
    (takeDigits n s).1 = (s.takeWhile Char.isDigit).take n := by
  intro n
  induction n with
  | zero => intro s; simp [takeDigits]
  | succ n ih =>
    intro s
    cases s with
    | nil => simp [takeDigits]
    | cons c rest =>
      rw [takeDigits]
      by_cases hc : c.isDigit = true
      · rw [if_pos hc, List.takeWhile_cons_of_pos hc, List.take_succ_cons, ← ih rest]
      · rw [if_neg hc, List.takeWhile_cons_of_neg hc]
        rfl

theorem takeDigits_digits (n : Nat) (s : Str) : ∀ c ∈ (takeDigits n s).1, c.isDigit = true := by
  intro c hc
  rw [takeDigits_fst] at hc
  exact List.mem_takeWhile_imp (List.mem_of_mem_take hc)

theorem takeDigits_length (n : Nat) (s : Str) : (takeDigits n s).1.length ≤ n := by
  rw [takeDigits_fst, List.length_take]
  exact Nat.min_le_left _ _

theorem optDigits_shape (lo hi : Nat) (s : Str) :
    FieldShape lo hi ((optDigits lo hi s).1.getD "None".toList) := by
  unfold optDigits
  have h1 := takeDigits_digits hi s
  have h2 := takeDigits_length hi s
  generalize takeDigits hi s = p at h1 h2
  obtain ⟨ds, tail⟩ := p
  simp only
  split
  · exact Or.inl rfl
  · rename_i hlen
    exact Or.inr ⟨h1, Nat.le_of_not_lt hlen, h2⟩

theorem matchHere_eq_none (s : Str) : matchHere s = none ↔ startsRun4 s = false := by
  unfold matchHere startsRun4
  have h := takeDigits_fst 6 s
  generalize takeDigits 6 s = p at h
  obtain ⟨g1, tail⟩ := p
  simp only at h ⊢
  rw [h, List.length_take]
  by_cases hl : (List.takeWhile Char.isDigit s).length < 4
  · rw [if_pos (by omega)]
    simp only [decide_eq_false_iff_not, true_iff]
    omega
  · rw [if_neg (by omega)]
    simp only [decide_eq_false_iff_not]
    exact ⟨fun h => (nomatch h), fun h => absurd (by omega) h⟩

theorem matchHere_some {s : Str} {d : CcData} (h : matchHere s = some d) :
    d.cc = (s.takeWhile Char.isDigit).take 6 ∧ FieldShape 1 2 d.mes ∧ FieldShape 2 4 d.ano ∧
      FieldShape 3 4 d.cvv := by
  unfold matchHere at h
  have h1 := takeDigits_fst 6 s
  generalize takeDigits 6 s = p at h h1
  obtain ⟨g1, tail⟩ := p
  simp only at h h1
  split at h
  · cases h
  · simp only [Option.some.injEq] at h
    subst h
    exact ⟨h1, optDigits_shape _ _ _, optDigits_shape _ _ _, optDigits_shape _ _ _⟩

theorem takeWhile_length_prefix {p : Char → Bool} : ∀ {l1 l2 : Str}, l1 <+: l2 →
    (l1.takeWhile p).length ≤ (l2.takeWhile p).length := by
  intro l1
  induction l1 with
  | nil => intro l2 _; exact Nat.zero_le _
  | cons a l1 ih =>
    intro l2 h
    obtain ⟨t, rfl⟩ := h
    rw [List.cons_append]
    by_cases ha : p a = true
    · rw [List.takeWhile_cons_of_pos ha, List.takeWhile_cons_of_pos ha, List.length_cons,
        List.length_cons]
      exact Nat.succ_le_succ (ih (List.prefix_append _ _))
    · rw [List.takeWhile_cons_of_neg ha]
      exact Nat.zero_le _

theorem hasRun4_short : ∀ s : Str, s.length ≤ 3 → hasRun4 s = false := by
  intro s
  induction s with
  | nil => intro _; rfl
  | cons c rest ih =>
    intro h
    have hr := ih (by simp only [List.length_cons] at h; omega)
    unfold hasRun4 at hr ⊢
    rw [List.tails, List.any_cons, hr, Bool.or_false]
    unfold startsRun4
    have := (List.takeWhile_prefix Char.isDigit (l := c :: rest)).length_le
    simp only [decide_eq_false_iff_not]
    omega

theorem extractCC_eq_none : ∀ text : Str, extractCC text = none ↔ hasRun4 text = false := by
  intro text
  induction text with
  | nil => exact ⟨fun _ => rfl, fun _ => rfl⟩
  | cons c rest ih =>
    rw [extractCC]
    unfold hasRun4 at ih ⊢
    rw [List.tails, List.any_cons, Bool.or_eq_false_iff, ← matchHere_eq_none, ← ih]
    cases hm : matchHere (c :: rest) with
    | none => exact ⟨fun h => ⟨rfl, h⟩, fun h => h.2⟩
    | some d => exact ⟨fun h => (nomatch h), fun h => (nomatch h.1)⟩

theorem extractCC_some : ∀ (text : Str) (d : CcData), extractCC text = some d →
    ∃ pre rest, text = pre ++ rest ∧ startsRun4 rest = true ∧
      hasRun4 (pre ++ rest.take 3) = false ∧ matchHere rest = some d := by
  intro text
  induction text with
  | nil => intro d h; cases h
  | cons c rest ih =>
    intro d h
    rw [extractCC] at h
    cases hm : matchHere (c :: rest) with
    | some d0 =>
      rw [hm] at h
      simp only [Option.some.injEq] at h
      subst h
      refine ⟨[], c :: rest, rfl, ?_, hasRun4_short _ (by simp [List.length_take]), hm⟩
      cases hs : startsRun4 (c :: rest) with
      | true => rfl
      | false => rw [(matchHere_eq_none _).2 hs] at hm; cases hm
    | none =>
      rw [hm] at h
      simp only at h
      obtain ⟨pre, rest1, ht, hrun, hleft, hmatch⟩ := ih d h
      refine ⟨c :: pre, rest1, by rw [ht]; rfl, hrun, ?_, hmatch⟩
      unfold hasRun4 at hleft ⊢
      rw [List.cons_append, List.tails, List.any_cons, hleft, Bool.or_false]
      have hpre : (c :: (pre ++ List.take 3 rest1)) <+: (c :: rest) := by
        rw [ht, ← List.cons_append, ← List.cons_append]
        exact (List.prefix_append_right_inj _).2 (List.take_prefix _ _)
      have hlen := takeWhile_length_prefix (p := Char.isDigit) hpre
      have hno := (matchHere_eq_none _).1 hm
      unfold startsRun4 at hno ⊢
      simp only [decide_eq_false_iff_not] at hno ⊢
      omega

/-- C28: `extractCC` returns `null` exactly when the text holds no four
consecutive decimal digits.  Otherwise the match starts where the leftmost run
of at least four digits starts (no four consecutive digits begin before it),
`cc` is the first 4 to 6 digits of that run, and `mes`, `ano` and `cvv` are
either the sentinel `"None"` or 1-2, 2-4 and 3-4 digits. -/
theorem extractCC_characterised (text : Str) :
    (extractCC text = none ↔ hasRun4 text = false) ∧
    ∀ d, extractCC text = some d →
      ∃ pre rest, text = pre ++ rest ∧ startsRun4 rest = true ∧
        hasRun4 (pre ++ rest.take 3) = false ∧
        d.cc = (rest.takeWhile Char.isDigit).take 6 ∧ 4 ≤ d.cc.length ∧ d.cc.length ≤ 6 ∧
        FieldShape 1 2 d.mes ∧ FieldShape 2 4 d.ano ∧ FieldShape 3 4 d.cvv := by
  refine ⟨extractCC_eq_none text, fun d h => ?_⟩
  obtain ⟨pre, rest, ht, hrun, hleft, hm⟩ := extractCC_some text d h
  obtain ⟨hcc, hmes, hano, hcvv⟩ := matchHere_some hm
  refine ⟨pre, rest, ht, hrun, hleft, hcc, ?_, ?_, hmes, hano, hcvv⟩
  · unfold startsRun4 at hrun
    rw [hcc, List.length_take]
    simp only [decide_eq_true_eq] at hrun
    omega
  · rw [hcc, List.length_take]
    omega

theorem extractCC_characterised_witness :
    extractCC "pay 123 now: 44769|7|2025".toList =
      some ⟨"44769".toList, "7".toList, "2025".toList, "None".toList⟩ ∧
    ∃ pre rest, "pay 123 now: 44769|7|2025".toList = pre ++ rest ∧ startsRun4 rest = true ∧
      hasRun4 (pre ++ rest.take 3) = false ∧
      "44769".toList = (rest.takeWhile Char.isDigit).take 6 ∧ 4 ≤ "44769".toList.length ∧
      "44769".toList.length ≤ 6 ∧
      FieldShape 1 2 "7".toList ∧ FieldShape 2 4 "2025".toList ∧
      FieldShape 3 4 "None".toList :=
  ⟨by decide,
   (extractCC_characterised "pay 123 now: 44769|7|2025".toList).2
     ⟨"44769".toList, "7".toList, "2025".toList, "None".toList⟩ (by decide)⟩

/-! ## C29: the card a check reports -/

/-- C29, the failing input: `/ad 4000000000000000|12|25|123` from a registered
caller.  `extractCC` keeps only the first six digits as `cc` and reads the
month, the year and the CVV from the digits that follow them, so the card
handed to the gate simulator and shown in the result is
`400000|00|0000|0000`, not the card of the message. -/
theorem reported_card_failing_input :
    extractCC "/ad 4000000000000000|12|25|123".toList =
      some ⟨"400000".toList, "00".toList, "0000".toList, "0000".toList⟩ ∧
    ((handleCommand 1 "u@s.whatsapp.net".toList "/ad 4000000000000000|12|25|123".toList
        "Al".toList "u".toList (gateWorld 5 0 [])).world?).map (fun w' => gateCalls w'.log) =
      some [("400000|00|0000|0000".toList, "Adyen Auth".toList)] := by
  decide


/-! ## C23: a VBV check reports the record of the BIN -/

theorem pure_apply {α : Type} (a : α) (w : World) : (pure a : M α) w = .ok a w := rfl

theorem transport_delivered (e : Nat → Event) (w : World) (h : Smooth w) :
    ∃ w1, transport e w = .ok w.log.length w1 ∧ Smooth w1 ∧
      w1.log = w.log ++ [e w.log.length] ∧ w1.users = w.users ∧
      w1.vbvDatabase = w.vbvDatabase ∧ w1.binDatabase = w.binDatabase := by
  have hn : w.net.headD true = true := by
    cases hw : w.net with
    | nil => rfl
    | cons b rest => exact h b (by rw [hw]; exact List.mem_cons_self _ _)
  refine ⟨{ w with now := w.now + w.lag.headD 0, lag := w.lag.tail,
                   log := w.log ++ [e w.log.length], net := w.net.tail }, ?_,
    fun b hb => h b (List.mem_of_mem_tail hb), rfl, rfl, rfl, rfl⟩
  unfold transport
  simp only [hn, if_true]

theorem handleVbv_reports (chat text userId : Str) (w : World) (u : User) (d : CcData)
    (hu : getUser w.users userId = some u)
    (hcool : checkAntispam w.users w.now userId = true) (hcredit : 1 ≤ u.credit)
    (hcard : extractCC text = some d) (h3 : startsWith d.cc "3".toList = false)
    (hnet : Smooth w) :
    ∃ w', handleVbv chat text userId w = .ok () w' ∧
      w'.log = w.log ++
        [Event.send chat .processing, Event.vbv (substring0 6 d.cc),
         Event.edit chat w.log.length
           (match getVbvInfo w.vbvDatabase (substring0 6 d.cc) with
            | some info =>
              .vbvResult (!includes info.status "3D TRUE".toList) info.response (fullccOf d)
                (getBinInfo w.binDatabase (substring0 6 d.cc))
            | none =>
              .vbvResult false "Lookup Card Error".toList (fullccOf d)
                (getBinInfo w.binDatabase (substring0 6 d.cc)))] := by
  obtain ⟨w1, e1, hs1, hl1, _, hv1, hb1⟩ :=
    transport_delivered (fun _ => Event.send chat Msg.processing) w hnet
  have hs2 : Smooth { w1 with log := w1.log ++ [Event.vbv (substring0 6 d.cc)] } := hs1
  have hlt : ¬ u.credit < 1 := not_lt.2 hcredit
  have hv2 : getVbvInfo
      ({ w1 with log := w1.log ++ [Event.vbv (substring0 6 d.cc)] } : World).vbvDatabase
      (substring0 6 d.cc) = getVbvInfo w.vbvDatabase (substring0 6 d.cc) := by
    show getVbvInfo w1.vbvDatabase _ = _
    rw [hv1]
  unfold handleVbv
  rw [getW_bind]
  simp only [hcool, hu, hcard, hlt, h3, Bool.not_true, Bool.false_eq_true, if_false]
  rw [bind_apply]
  unfold sendText
  rw [e1]
  simp only
  unfold lookupVbv
  rw [bind_apply, bind_apply]
  unfold logEvent
  simp only
  rw [getW_bind, pure_apply, hv2]
  simp only
  rw [getW_bind, bind_apply]
  unfold editText
  rw [bind_apply]
  generalize hmsg : Msg.vbvResult _ _ _ _ = msg
  obtain ⟨w3, e3, _, hl3, _⟩ :=
    transport_delivered (fun _ => Event.edit chat w.log.length msg) _ hs2
  rw [e3]
  simp only [pure_apply]
  refine ⟨_, rfl, ?_⟩
  show w3.log = _
  rw [hl3]
  show w1.log ++ [Event.vbv (substring0 6 d.cc)] ++ _ = _
  rw [hl1, ← hmsg]
  show _ ++ [Event.edit chat w.log.length
    (Msg.vbvResult _ _ _ (getBinInfo w1.binDatabase (substring0 6 d.cc)))] = _
  rw [hb1]
  cases getVbvInfo w.vbvDatabase (substring0 6 d.cc) <;> simp

theorem join_cons_cons (sep a b : Str) (l : List Str) :
    join sep (a :: b :: l) = a ++ sep ++ join sep (b :: l) := by
  simp [join, List.intercalate, List.intersperse]

theorem join_split (sep : Char) : ∀ s : Str, join [sep] (split sep s) = s := by
  intro s
  induction s with
  | nil => rfl
  | cons c rest ih =>
    rw [split]
    by_cases hc : c = sep
    · rw [if_pos hc]
      cases hs : split sep rest with
      | nil => exact absurd hs (split_ne_nil _ _)
      | cons p ps =>
        rw [join_cons_cons, ← hs, ih, hc]
        rfl
    · rw [if_neg hc]
      cases hs : split sep rest with
      | nil => exact absurd hs (split_ne_nil _ _)
      | cons p ps =>
        rw [hs] at ih
        simp only
        cases ps with
        | nil =>
          have : p = rest := by simpa [join, List.intercalate] using ih
          rw [this]
          simp [join, List.intercalate]
        | cons q qs =>
          rw [join_cons_cons] at ih ⊢
          rw [← ih]
          simp

theorem extractCC_skip {c : Char} (hc : c.isDigit = false) (s : Str) :
    extractCC (c :: s) = extractCC s := by
  have hm : matchHere (c :: s) = none := by
    rw [matchHere_eq_none]
    unfold startsRun4
    rw [List.takeWhile_cons_of_neg (by simp [hc])]
    rfl
  rw [extractCC, hm]

theorem extractCC_card {card : Str} (hd : ∀ c ∈ card, c.isDigit = true)
    (hlen : 6 ≤ card.length) (rest : Str) :
    ∃ d, extractCC (card ++ rest) = some d ∧ d.cc = card.take 6 := by
  have htw : card <+: (card ++ rest).takeWhile Char.isDigit := by
    clear hlen
    induction card with
    | nil => exact List.nil_prefix
    | cons a card ih =>
      rw [List.cons_append, List.takeWhile_cons_of_pos (hd a (List.mem_cons_self _ _))]
      exact List.cons_prefix_cons.2 ⟨rfl, ih (fun c hc => hd c (List.mem_cons_of_mem _ hc))⟩
  obtain ⟨t, ht⟩ := htw
  have hrun : startsRun4 (card ++ rest) = true := by
    unfold startsRun4
    rw [← ht, List.length_append]
    simp only [decide_eq_true_eq]
    omega
  cases hm : matchHere (card ++ rest) with
  | none => rw [(matchHere_eq_none _).1 hm] at hrun; cases hrun
  | some d =>
    refine ⟨d, ?_, ?_⟩
    · cases hcr : card ++ rest with
      | nil => rw [hcr] at hm; cases hm
      | cons a l => rw [extractCC, ← hcr, hm]
    · rw [(matchHere_some hm).1, ← ht, List.take_append_of_le_length hlen]

theorem handleCommand_vbv (fuel : Nat) (chat senderName userId card rest : Str) (w : World)
    (hreg : (getUser w.users userId).isSome = true) :
    handleCommand fuel chat ("/vbv ".toList ++ card ++ rest) senderName userId w =
      handleVbv chat ("/vbv ".toList ++ card ++ rest) userId w := by
  have hcmd : commandOf ("/vbv ".toList ++ card ++ rest) = "/vbv".toList := by
    unfold commandOf
    show toLowerCase ((split ' ' ("/vbv".toList ++ ' ' :: (card ++ rest))).headD []) = _
    rw [split_append_sep (by decide)]
    rfl
  rw [handleCommand_of_registered fuel chat _ senderName userId w hreg, hcmd]
  rfl

theorem extractCC_vbv {card : Str} (hd : ∀ c ∈ card, c.isDigit = true)
    (hlen : 6 ≤ card.length) (rest : Str) :
    ∃ d, extractCC ("/vbv ".toList ++ card ++ rest) = some d ∧ d.cc = card.take 6 := by
  obtain ⟨d, hx, hcc⟩ := extractCC_card hd hlen rest
  refine ⟨d, ?_, hcc⟩
  show extractCC ('/' :: 'v' :: 'b' :: 'v' :: ' ' :: (card ++ rest)) = _
  rw [extractCC_skip (by decide), extractCC_skip (by decide), extractCC_skip (by decide),
    extractCC_skip (by decide), extractCC_skip (by decide)]
  exact hx

theorem handleCommand_addvbv (fuel : Nat) (chat senderName owner token b s r : Str)
    (more : List Str) (w : World) (hown : w.ownerNumbers.contains owner = true)
    (hreg : (getUser w.users owner).isSome = true)
    (htoken : split '|' token = b :: s :: r :: more) :
    ∃ w1, (handleCommand fuel chat ("/addvbv ".toList ++ token) senderName owner w).world? =
        some w1 ∧
      w1.vbvDatabase = mapSet w.vbvDatabase b { status := s, response := r } ∧
      mapGet w1.files vbvFile =
        some (vbvFileContent (mapSet w.vbvDatabase b { status := s, response := r })) := by
  have hsp : split ' ' ("/addvbv ".toList ++ token) = "/addvbv".toList :: split ' ' token := by
    show split ' ' ("/addvbv".toList ++ ' ' :: token) = _
    rw [split_append_sep (by decide)]
  have hcmd : commandOf ("/addvbv ".toList ++ token) = "/addvbv".toList := by
    unfold commandOf
    rw [hsp]
    rfl
  rw [handleCommand_of_registered fuel chat _ senderName owner w hreg, hcmd]
  show ∃ w1, (handleAddVbv chat ("/addvbv ".toList ++ token) owner w).world? = some w1 ∧ _
  unfold handleAddVbv
  rw [getW_bind, hown, hsp]
  cases hst : split ' ' token with
  | nil => exact absurd hst (split_ne_nil _ _)
  | cons second rest =>
    have hj : join [' '] (second :: rest) = token := by rw [← hst, join_split]
    simp only [Bool.not_true, Bool.false_eq_true, if_false, hj]
    unfold addVbvToken
    rw [htoken]
    simp only
    rw [setW_bind]
    obtain ⟨w1, h1, _, _, hv, hf, _⟩ := reply_rejected chat (Msg.addVbvOk token)
      { w with vbvDatabase := mapSet w.vbvDatabase b { status := s, response := r },
               files := mapSet w.files vbvFile
                 (vbvFileContent (mapSet w.vbvDatabase b { status := s, response := r })) }
    exact ⟨w1, h1, hv, by rw [hf]; exact mapGet_mapSet_self _ _ _⟩

/-- C23: the owner's `/addvbv b|s|r` stores the record `(s, r)` under `b` (and
writes it to `vbvbin.txt`).  A `/vbv` check by a registered caller whose
cooldown has elapsed and who holds a credit, on a card number whose first six
digits are `b` (not starting with 3), run with a transport that delivers, looks
`b` up and edits its one message into the result: with the record `(s, r)` in
the table, the response `r` and status passed exactly when `s` does not
contain `3D TRUE`; with no record for `b`, status rejected and the response
`Lookup Card Error`. -/
theorem vbv_reports_record (fuel : Nat) (b s r : Str) :
    (∀ (chat senderName owner token : Str) (more : List Str) (w : World),
      w.ownerNumbers.contains owner = true → (getUser w.users owner).isSome = true →
      split '|' token = b :: s :: r :: more →
      ∃ w1, (handleCommand fuel chat ("/addvbv ".toList ++ token) senderName owner w).world? =
          some w1 ∧
        getVbvInfo w1.vbvDatabase b = some { status := s, response := r }) ∧
    (∀ (chat senderName userId card rest : Str) (w : World) (u : User),
      getUser w.users userId = some u → checkAntispam w.users w.now userId = true →
      1 ≤ u.credit → Smooth w → (∀ c ∈ card, c.isDigit = true) → 6 ≤ card.length →
      card.take 6 = b → startsWith b "3".toList = false →
      ∃ w' d, extractCC ("/vbv ".toList ++ card ++ rest) = some d ∧ d.cc = b ∧
        handleCommand fuel chat ("/vbv ".toList ++ card ++ rest) senderName userId w =
          .ok () w' ∧
        (getVbvInfo w.vbvDatabase b = some { status := s, response := r } →
          w'.log = w.log ++
            [Event.send chat .processing, Event.vbv b,
             Event.edit chat w.log.length
               (.vbvResult (!includes s "3D TRUE".toList) r (fullccOf d)
                 (getBinInfo w.binDatabase b))]) ∧
        (getVbvInfo w.vbvDatabase b = none →
          w'.log = w.log ++
            [Event.send chat .processing, Event.vbv b,
             Event.edit chat w.log.length
               (.vbvResult false "Lookup Card Error".toList (fullccOf d)
                 (getBinInfo w.binDatabase b))])) := by
  refine ⟨?_, ?_⟩
  · intro chat senderName owner token more w hown hreg htoken
    obtain ⟨w1, h1, hv, _⟩ :=
      handleCommand_addvbv fuel chat senderName owner token b s r more w hown hreg htoken
    refine ⟨w1, h1, ?_⟩
    rw [hv]
    exact mapGet_mapSet_self _ _ _
  · intro chat senderName userId card rest w u hu hcool hcredit hnet hd hlen hb h3
    obtain ⟨d, hx, hcc⟩ := extractCC_vbv hd hlen rest
    rw [hb] at hcc
    have h6 : substring0 6 d.cc = b := by
      rw [hcc, ← hb]
      unfold substring0
      rw [List.take_take, Nat.min_self]
    obtain ⟨w', hrun, hlog⟩ := handleVbv_reports chat ("/vbv ".toList ++ card ++ rest) userId
      w u d hu hcool hcredit hx (by rw [hcc]; exact h3) hnet
    rw [h6] at hlog
    refine ⟨w', d, hx, hcc, ?_, fun hv => ?_, fun hv => ?_⟩
    · rw [handleCommand_vbv fuel chat senderName userId card rest w (by rw [hu]; rfl)]
      exact hrun
    · rw [hlog, hv]
    · rw [hlog, hv]

theorem vbv_reports_record_witness :
    (∃ w1, (handleCommand 1 "o@s.whatsapp.net".toList
          ("/addvbv ".toList ++ "411111|3D TRUE|Enrolled".toList) "Owner".toList "o".toList
          ownerWorld).world? = some w1 ∧
      getVbvInfo w1.vbvDatabase "411111".toList =
        some { status := "3D TRUE".toList, response := "Enrolled".toList }) ∧
    (∃ w' d, extractCC ("/vbv ".toList ++ "4111111111111111".toList ++ "|12|25|123".toList) =
        some d ∧ d.cc = "411111".toList ∧
      handleCommand 1 "u@s.whatsapp.net".toList
        ("/vbv ".toList ++ "4111111111111111".toList ++ "|12|25|123".toList) "Al".toList
        "u".toList enrolledWorld = .ok () w' ∧
      (getVbvInfo enrolledWorld.vbvDatabase "411111".toList =
          some { status := "3D TRUE".toList, response := "Enrolled".toList } →
        w'.log = enrolledWorld.log ++
          [Event.send "u@s.whatsapp.net".toList .processing, Event.vbv "411111".toList,
           Event.edit "u@s.whatsapp.net".toList enrolledWorld.log.length
             (.vbvResult (!includes "3D TRUE".toList "3D TRUE".toList) "Enrolled".toList
               (fullccOf d) (getBinInfo enrolledWorld.binDatabase "411111".toList))]) ∧
      (getVbvInfo enrolledWorld.vbvDatabase "411111".toList = none →
        w'.log = enrolledWorld.log ++
          [Event.send "u@s.whatsapp.net".toList .processing, Event.vbv "411111".toList,
           Event.edit "u@s.whatsapp.net".toList enrolledWorld.log.length
             (.vbvResult false "Lookup Card Error".toList (fullccOf d)
               (getBinInfo enrolledWorld.binDatabase "411111".toList))])) ∧
    getVbvInfo enrolledWorld.vbvDatabase "411111".toList =
      some { status := "3D TRUE".toList, response := "Enrolled".toList } :=
  ⟨(vbv_reports_record 1 "411111".toList "3D TRUE".toList "Enrolled".toList).1
      "o@s.whatsapp.net".toList "Owner".toList "o".toList "411111|3D TRUE|Enrolled".toList []
      ownerWorld (by decide) (by decide) (by decide),
   (vbv_reports_record 1 "411111".toList "3D TRUE".toList "Enrolled".toList).2
      "u@s.whatsapp.net".toList "Al".toList "u".toList "4111111111111111".toList
      "|12|25|123".toList enrolledWorld (sampleUser 5 0) (by decide) (by decide) (by decide)
      (show ∀ b ∈ enrolledWorld.net, b = true by decide) (by decide) (by decide) (by decide)
      (by decide),
   by decide⟩


/-! ## C27: the edits of a mass check -/

/-- C27 (as stated) fails: in a `/mad` check of four cards the edit after card 4
carries the entries of the cards 1 to 3 again, which the edit after card 3 had
already sent (and the closing edit carries all four once more). -/
theorem resent_entries_counterexample :
    ((handleCommand 1 "u@s.whatsapp.net".toList fourCards "Al".toList "u".toList
        (gateWorld 5 0 [])).world?).map (fun w' => editsOf w'.log) =
      some [Msg.massGateResults "Adyen Auth".toList
              [approvedEntry "4111".toList, approvedEntry "4112".toList,
               approvedEntry "4113".toList] false,
            Msg.massGateResults "Adyen Auth".toList
              [approvedEntry "4111".toList, approvedEntry "4112".toList,
               approvedEntry "4113".toList, approvedEntry "4114".toList] false,
            Msg.massGateResults "Adyen Auth".toList
              [approvedEntry "4111".toList, approvedEntry "4112".toList,
               approvedEntry "4113".toList, approvedEntry "4114".toList] true] := by
  decide!

theorem editPoints_succ (step total i m : Nat) :
    editPoints step total i (m + 1) =
      (if (i + 1) % step = 0 ∨ i + 1 = total then [i + 1] else []) ++
        editPoints step total (i + 1) m := by
  unfold editPoints
  rw [List.range_succ_eq_map, List.map_cons, List.map_map]
  have hf : ((fun j => i + j + 1) ∘ Nat.succ) = fun j => i + 1 + j + 1 := by
    funext j
    simp only [Function.comp]
    omega
  rw [hf, List.filter_cons]
  simp only [Nat.add_zero, decide_eq_true_eq]
  split <;> rfl

theorem editsOf_append (l : List Event) (e : Event) :
    editsOf (l ++ [e]) = editsOf l ++ editsOf [e] := by
  unfold editsOf
  rw [List.filterMap_append]

theorem transport_edits (L : List Msg) (e : Nat → Event) (new : List Msg)
    (he : ∀ key, editsOf [e key] = new) (D : Prop) :
    Triple (fun x => editsOf x.log = L) (transport e) (fun _ x => editsOf x.log = L ++ new)
      (fun _ => True) D := by
  intro w hw
  unfold transport
  by_cases hn : w.net.headD true = true
  · simp only [hn, if_true]
    show editsOf (w.log ++ [e w.log.length]) = L ++ new
    rw [editsOf_append, he, hw]
  · simp only [hn]
    trivial

theorem editText_edits (L : List Msg) (chat : Str) (key : Nat) (msg : Msg) (D : Prop) :
    Triple (fun x => editsOf x.log = L) (editText chat key msg)
      (fun _ x => editsOf x.log = L ++ [msg]) (fun _ => True) D :=
  Triple.bind (transport_edits L (fun _ => .edit chat key msg) [msg] (fun _ => rfl) D)
    (fun _ => Triple.pure _ (fun _ h => h))

theorem simulatePaymentGate_edits (L : List Msg) (fullcc gateway : Str) (D : Prop) :
    Triple (fun x => editsOf x.log = L) (simulatePaymentGate fullcc gateway)
      (fun _ x => editsOf x.log = L) (fun _ => True) D := by
  unfold simulatePaymentGate
  refine Triple.bind (Q := fun _ x => editsOf x.log = L) ?_ (fun _ => ?_)
  · intro w hw
    show editsOf (w.log ++ [Event.gate fullcc gateway]) = L
    rw [editsOf_append, hw]
    exact List.append_nil _
  refine Triple.bind (Q := fun _ x => editsOf x.log = L) (fun w hw => hw) (fun delay => ?_)
  refine Triple.bind (Q := fun _ x => editsOf x.log = L) (fun w hw => hw) (fun _ => ?_)
  refine Triple.bind (Q := fun _ x => editsOf x.log = L) (fun w hw => hw) (fun p => ?_)
  split
  · exact Triple.pure _ (fun _ h => h)
  · refine Triple.bind (Q := fun _ x => editsOf x.log = L) (fun w hw => hw) (fun k => ?_)
    split <;> exact Triple.pure _ (fun _ h => h)

theorem massGateLoop_edits (chat gatewayName : Str) (key total : Nat) :
    ∀ (cards : List Str) (i : Nat) (resultText : List (Str × GateReply)) (L : List Msg),
    resultText.length = i →
    Triple (fun x => editsOf x.log = L)
      (massGateLoop chat gatewayName key total i cards resultText)
      (fun R x => (∃ new, R = resultText ++ new ∧ new.map Prod.fst = cards) ∧
        editsOf x.log = L ++ (editPoints 3 total i cards.length).map fun k =>
          Msg.massGateResults gatewayName (R.take k) false)
      (fun _ => True) True := by
  intro cards
  induction cards with
  | nil =>
    intro i resultText L _
    exact Triple.pure _ (fun _ h => ⟨⟨[], by simp, rfl⟩, by simpa [editPoints] using h⟩)
  | cons card cards ih =>
    intro i resultText L hlen
    unfold massGateLoop
    refine Triple.bind (simulatePaymentGate_edits L _ _ _) (fun result => ?_)
    have hlen1 : (resultText ++ [(card, result)]).length = i + 1 := by
      rw [List.length_append, hlen]; rfl
    have hstep : ∀ L1 : List Msg,
        L1 = L ++ (if (i + 1) % 3 = 0 ∨ i + 1 = total then
          [Msg.massGateResults gatewayName (resultText ++ [(card, result)]) false] else []) →
        Triple (fun x => editsOf x.log = L1)
          (sleep 1000 >>= fun _ =>
            massGateLoop chat gatewayName key total (i + 1) cards
              (resultText ++ [(card, result)]))
          (fun R x => (∃ new, R = resultText ++ new ∧ new.map Prod.fst = card :: cards) ∧
            editsOf x.log = L ++ (editPoints 3 total i (card :: cards).length).map fun k =>
              Msg.massGateResults gatewayName (R.take k) false)
          (fun _ => True) True := by
      intro L1 hL1
      refine Triple.bind (Q := fun _ x => editsOf x.log = L1) (fun w hw => hw) (fun _ => ?_)
      refine (ih (i + 1) _ L1 hlen1).weaken (fun _ h => h) ?_ (fun _ h => h) (fun h => h)
      rintro R x ⟨⟨new, hR, hnew⟩, hx⟩
      refine ⟨⟨(card, result) :: new, by rw [hR, List.append_assoc]; rfl, by rw [List.map_cons, hnew]⟩, ?_⟩
      rw [hx, hL1, List.length_cons, editPoints_succ, List.map_append, List.append_assoc]
      congr 2
      split
      · rw [List.map_cons, List.map_nil, hR, ← hlen1, List.take_left]
      · rfl
    simp only
    split
    · rename_i hc
      refine Triple.bind (editText_edits L _ _ _ _) (fun _ => hstep _ ?_)
      rw [if_pos hc]
    · rename_i hc
      refine Triple.bind (Q := fun _ x => editsOf x.log = L) (Triple.pure _ (fun _ h => h))
        (fun _ => hstep _ ?_)
      rw [if_neg hc, List.append_nil]

theorem lookupVbv_edits (L : List Msg) (bin : Str) (D : Prop) :
    Triple (fun x => editsOf x.log = L) (lookupVbv bin) (fun _ x => editsOf x.log = L)
      (fun _ => True) D := by
  unfold lookupVbv
  refine Triple.bind (Q := fun _ x => editsOf x.log = L) ?_ (fun _ => ?_)
  · intro w hw
    show editsOf (w.log ++ [Event.vbv bin]) = L
    rw [editsOf_append, hw]
    exact List.append_nil _
  · exact Triple.bindGetW (fun w0 h0 => Triple.pure _ (fun w hw => hw ▸ h0))

theorem massVbvLoop_edits (chat : Str) (key total : Nat) :
    ∀ (cards : List Str) (i : Nat) (resultText : List (Str × Str × Str)) (L : List Msg),
    resultText.length = i →
    Triple (fun x => editsOf x.log = L)
      (massVbvLoop chat key total i cards resultText)
      (fun R x => (∃ new, R = resultText ++ new ∧ new.map Prod.fst = cards) ∧
        editsOf x.log = L ++ (editPoints 5 total i cards.length).map fun k =>
          Msg.massVbvResults total (R.take k) false)
      (fun _ => True) True := by
  intro cards
  induction cards with
  | nil =>
    intro i resultText L _
    exact Triple.pure _ (fun _ h => ⟨⟨[], by simp, rfl⟩, by simpa [editPoints] using h⟩)
  | cons card cards ih =>
    intro i resultText L hlen
    unfold massVbvLoop
    simp only
    have hrest : ∀ entry : Str × Str × Str, entry.1 = card →
        Triple (fun x => editsOf x.log = L)
          (if (i + 1) % 5 = 0 ∨ i + 1 = total then do
              editText chat key (Msg.massVbvResults total (resultText ++ [entry]) false)
              sleep 500
              massVbvLoop chat key total (i + 1) cards (resultText ++ [entry])
            else do
              pure PUnit.unit
              sleep 500
              massVbvLoop chat key total (i + 1) cards (resultText ++ [entry]))
          (fun R x => (∃ new, R = resultText ++ new ∧ new.map Prod.fst = card :: cards) ∧
            editsOf x.log = L ++ (editPoints 5 total i (card :: cards).length).map fun k =>
              Msg.massVbvResults total (R.take k) false)
          (fun _ => True) True := by
      intro entry hentry
      have hlen1 : (resultText ++ [entry]).length = i + 1 := by
        rw [List.length_append, hlen]; rfl
      have hstep : ∀ L1 : List Msg,
          L1 = L ++ (if (i + 1) % 5 = 0 ∨ i + 1 = total then
            [Msg.massVbvResults total (resultText ++ [entry]) false] else []) →
          Triple (fun x => editsOf x.log = L1)
            (sleep 500 >>= fun _ =>
              massVbvLoop chat key total (i + 1) cards (resultText ++ [entry]))
            (fun R x => (∃ new, R = resultText ++ new ∧ new.map Prod.fst = card :: cards) ∧
              editsOf x.log = L ++ (editPoints 5 total i (card :: cards).length).map fun k =>
                Msg.massVbvResults total (R.take k) false)
            (fun _ => True) True := by
        intro L1 hL1
        refine Triple.bind (Q := fun _ x => editsOf x.log = L1) (fun w hw => hw) (fun _ => ?_)
        refine (ih (i + 1) _ L1 hlen1).weaken (fun _ h => h) ?_ (fun _ h => h) (fun h => h)
        rintro R x ⟨⟨new, hR, hnew⟩, hx⟩
        refine ⟨⟨entry :: new, by rw [hR, List.append_assoc]; rfl,
          by rw [List.map_cons, hnew, hentry]⟩, ?_⟩
        rw [hx, hL1, List.length_cons, editPoints_succ, List.map_append, List.append_assoc]
        congr 2
        split
        · rw [List.map_cons, List.map_nil, hR, ← hlen1, List.take_left]
        · rfl
      split
      · rename_i hc
        refine Triple.bind (editText_edits L _ _ _ _) (fun _ => hstep _ ?_)
        rw [if_pos hc]
      · rename_i hc
        refine Triple.bind (Q := fun _ x => editsOf x.log = L) (Triple.pure _ (fun _ h => h))
          (fun _ => hstep _ ?_)
        rw [if_neg hc, List.append_nil]
    split
    · exact Triple.bind (Q := fun _ x => editsOf x.log = L) (Triple.pure _ (fun _ h => h))
        (fun _ => hrest _ rfl)
    · refine Triple.bind (lookupVbv_edits L _ _) (fun info => ?_)
      split <;>
        exact Triple.bind (Q := fun _ x => editsOf x.log = L) (Triple.pure _ (fun _ h => h))
          (fun _ => hrest _ rfl)

theorem sendText_edits (L : List Msg) (chat : Str) (msg : Msg) (D : Prop) :
    Triple (fun x => editsOf x.log = L) (sendText chat msg) (fun _ x => editsOf x.log = L)
      (fun _ => True) D :=
  (transport_edits L (fun _ => .send chat msg) [] (fun _ => rfl) D).weaken (fun _ h => h)
    (fun _ _ h => by rw [h, List.append_nil]) (fun _ h => h) (fun h => h)

theorem chargeAndTouch_edits (L : List Msg) (userId : Str) (amount : Int) (E : World → Prop)
    (D : Prop) :
    Triple (fun x => editsOf x.log = L) (chargeAndTouch userId amount)
      (fun _ x => editsOf x.log = L) E D :=
  fun _ hw => hw

theorem final_edit_edits (L : List Msg) (chat : Str) (key : Nat) (msg : Msg) (userId : Str)
    (amount : Int) :
    Triple (fun x => editsOf x.log = L)
      (editText chat key msg >>= fun _ => chargeAndTouch userId amount)
      (fun _ x => editsOf x.log = L ++ [msg]) (fun _ => True) True :=
  Triple.bind (editText_edits L chat key msg True)
    (fun _ => chargeAndTouch_edits (L ++ [msg]) userId amount (fun _ => True) True)

theorem massGate_body_edits (L : List Msg) (chat gatewayName senderName userId : Str)
    (cards : List Str) :
    Triple (fun x => editsOf x.log = L)
      (sendText chat (.massProcessing gatewayName cards.length senderName) >>=
        fun processingMsg =>
        massGateLoop chat gatewayName processingMsg cards.length 0 cards [] >>= fun resultText =>
        editText chat processingMsg (.massGateResults gatewayName resultText true) >>= fun _ =>
        chargeAndTouch userId cards.length)
      (fun _ x => ∃ R : List (Str × GateReply), R.map Prod.fst = cards ∧
        editsOf x.log = L ++
          ((editPoints 3 cards.length 0 cards.length).map fun k =>
            Msg.massGateResults gatewayName (R.take k) false) ++
          [Msg.massGateResults gatewayName R true])
      (fun _ => True) True := by
  refine Triple.bind (sendText_edits L _ _ _) (fun key => ?_)
  refine Triple.bind (massGateLoop_edits chat gatewayName key cards.length cards 0 [] L rfl)
    (fun R => ?_)
  intro x hx
  obtain ⟨⟨new, hR, hnew⟩, hlog⟩ := hx
  rw [List.nil_append] at hR
  subst hR
  generalize hM : L ++ List.map (fun k => Msg.massGateResults gatewayName (List.take k R) false)
    (editPoints 3 cards.length 0 cards.length) = M at hlog
  exact (final_edit_edits M chat key (.massGateResults gatewayName R true) userId
    cards.length).weaken (fun _ h => h) (fun _ _ h => ⟨R, hnew, by rw [hM]; exact h⟩)
    (fun _ h => h) (fun h => h) x hlog

theorem handleMassVbv_pass (chat text userId : Str) (w : World) (u : User)
    (hu : getUser w.users userId = some u) (h0 : (extractCards text).length ≠ 0)
    (h25 : ¬ (extractCards text).length > 25)
    (hc : ¬ u.credit < ((extractCards text).length : Int)) :
    handleMassVbv chat text userId w =
      (sendText chat .processing >>= fun processingMsg =>
        massVbvLoop chat processingMsg (extractCards text).length 0 (extractCards text) [] >>=
          fun resultText =>
        editText chat processingMsg
          (.massVbvResults (extractCards text).length resultText true) >>= fun _ =>
        chargeAndTouch userId (extractCards text).length) w := by
  unfold handleMassVbv
  rw [getW_bind]
  simp only [hu, if_neg h0, if_neg h25, if_neg hc]

theorem massVbvLoop_exc {I : World → Prop} (hI : Stable I) (D : Prop) (chat : Str)
    (key total : Nat) : ∀ (cards : List Str) (i : Nat) (resultText : List (Str × Str × Str)),
    Triple I (massVbvLoop chat key total i cards resultText) (fun _ => I) (Exc I) D := by
  intro cards
  induction cards with
  | nil => intro i resultText; exact Triple.pure _ (fun _ h => h)
  | cons card cards ih =>
    intro i resultText
    unfold massVbvLoop
    simp only
    have hrest : ∀ entry : Str × Str × Str,
        Triple I
          (if (i + 1) % 5 = 0 ∨ i + 1 = total then do
              editText chat key (Msg.massVbvResults total (resultText ++ [entry]) false)
              sleep 500
              massVbvLoop chat key total (i + 1) cards (resultText ++ [entry])
            else do
              pure PUnit.unit
              sleep 500
              massVbvLoop chat key total (i + 1) cards (resultText ++ [entry]))
          (fun _ => I) (Exc I) D := by
      intro entry
      split
      · refine Triple.bind (editText_keeps hI _ _ _ D) (fun _ => ?_)
        exact Triple.bind (sleep_keeps hI _ _ _) (fun _ => ih _ _)
      · refine Triple.bind (Q := fun _ => I) (Triple.pure _ (fun _ h => h)) (fun _ => ?_)
        exact Triple.bind (sleep_keeps hI _ _ _) (fun _ => ih _ _)
    split
    · exact Triple.bind (Q := fun _ => I) (Triple.pure _ (fun _ h => h)) (fun _ => hrest _)
    · refine Triple.bind (lookupVbv_keeps hI _ D) (fun info => ?_)
      split <;>
        exact Triple.bind (Q := fun _ => I) (Triple.pure _ (fun _ h => h)) (fun _ => hrest _)

theorem massVbv_body {I : World → Prop} (hI : Stable I) (chat userId : Str)
    (cards : List Str) :
    Triple I
      (sendText chat .processing >>= fun processingMsg =>
        massVbvLoop chat processingMsg cards.length 0 cards [] >>= fun resultText =>
        editText chat processingMsg (.massVbvResults cards.length resultText true) >>= fun _ =>
        chargeAndTouch userId cards.length) (fun _ _ => True) (Exc I) False :=
  Triple.bind (sendText_keeps hI _ _ False) (fun _ =>
    Triple.bind (massVbvLoop_exc hI False _ _ _ _ _ _) (fun _ =>
      Triple.bind (editText_keeps hI _ _ _ False) (fun _ => fun _ _ => trivial)))

theorem massVbv_body_edits (L : List Msg) (chat userId : Str) (cards : List Str) :
    Triple (fun x => editsOf x.log = L)
      (sendText chat .processing >>= fun processingMsg =>
        massVbvLoop chat processingMsg cards.length 0 cards [] >>= fun resultText =>
        editText chat processingMsg (.massVbvResults cards.length resultText true) >>= fun _ =>
        chargeAndTouch userId cards.length)
      (fun _ x => ∃ R : List (Str × Str × Str), R.map Prod.fst = cards ∧
        editsOf x.log = L ++
          ((editPoints 5 cards.length 0 cards.length).map fun k =>
            Msg.massVbvResults cards.length (R.take k) false) ++
          [Msg.massVbvResults cards.length R true])
      (fun _ => True) True := by
  refine Triple.bind (sendText_edits L _ _ _) (fun key => ?_)
  refine Triple.bind (massVbvLoop_edits chat key cards.length cards 0 [] L rfl) (fun R => ?_)
  intro x hx
  obtain ⟨⟨new, hR, hnew⟩, hlog⟩ := hx
  rw [List.nil_append] at hR
  subst hR
  generalize hM : L ++ List.map (fun k => Msg.massVbvResults cards.length (List.take k R) false)
    (editPoints 5 cards.length 0 cards.length) = M at hlog
  exact (final_edit_edits M chat key (.massVbvResults cards.length R true) userId
    cards.length).weaken (fun _ h => h) (fun _ _ h => ⟨R, hnew, by rw [hM]; exact h⟩)
    (fun _ h => h) (fun h => h) x hlog

/-- C27 (as amended): a mass check by a caller with enough credits, over `n`
extracted cards (`1 ≤ n`, at most 10 for `/mad` and `/mb4`, at most 25 for
`/mvbv`).  When the run ends normally, as it does whenever the transport
delivers, the edits of the running message are, in order: inside the loop one
after card `k` for exactly the `k` in `1..n` that are a multiple of 3 (of 5
for `/mvbv`) or equal `n`, each carrying the entries of the cards `1..k`, all
of them; then the closing edit with all `n` entries. -/
theorem mass_check_edits (fuel : Nat) (chat text senderName userId : Str) (w : World)
    (u : User) (hu : getUser w.users userId = some u)
    (h1 : 1 ≤ (extractCards text).length)
    (hcredit : ((extractCards text).length : Int) ≤ u.credit) :
    ((commandOf text = "/mad".toList ∨ commandOf text = "/mb4".toList) →
      (extractCards text).length ≤ 10 →
      (handleCommand fuel chat text senderName userId w).sat
        (fun _ w' => ∃ R : List (Str × GateReply), R.map Prod.fst = extractCards text ∧
          editsOf w'.log = editsOf w.log ++
            ((editPoints 3 (extractCards text).length 0 (extractCards text).length).map fun k =>
              Msg.massGateResults (gatewayNameOf (commandOf text) "/mad".toList) (R.take k)
                false) ++
            [Msg.massGateResults (gatewayNameOf (commandOf text) "/mad".toList) R true])
        (fun _ => True) True ∧
      (Smooth w → ∃ w', handleCommand fuel chat text senderName userId w = .ok () w')) ∧
    (commandOf text = "/mvbv".toList → (extractCards text).length ≤ 25 →
      (handleCommand fuel chat text senderName userId w).sat
        (fun _ w' => ∃ R : List (Str × Str × Str), R.map Prod.fst = extractCards text ∧
          editsOf w'.log = editsOf w.log ++
            ((editPoints 5 (extractCards text).length 0 (extractCards text).length).map fun k =>
              Msg.massVbvResults (extractCards text).length (R.take k) false) ++
            [Msg.massVbvResults (extractCards text).length R true])
        (fun _ => True) True ∧
      (Smooth w → ∃ w', handleCommand fuel chat text senderName userId w = .ok () w')) := by
  have hreg : (getUser w.users userId).isSome = true := by rw [hu]; rfl
  rw [handleCommand_of_registered fuel chat text senderName userId w hreg]
  refine ⟨fun hcmd h10 => ?_, fun hcmd h25 => ?_⟩
  · rw [dispatch_massGate fuel chat text senderName userId _ hcmd,
      handleMassGate_pass chat text senderName userId (commandOf text) w u hu (by omega)
        (by omega) (not_lt.2 hcredit)]
    refine ⟨massGate_body_edits (editsOf w.log) chat _ senderName userId (extractCards text) w
      rfl, fun hs => ?_⟩
    obtain ⟨a, w', hr, _⟩ := Res.sat_ok
      ((massGate_body (stable_smooth w.users) (fun _ _ => True) chat
        (gatewayNameOf (commandOf text) "/mad".toList) senderName userId (extractCards text)
        (fun _ _ => trivial)).smooth w ⟨rfl, hs⟩)
    exact ⟨w', hr⟩
  · rw [hcmd, dispatch_massVbv,
      handleMassVbv_pass chat text userId w u hu (by omega) (by omega) (not_lt.2 hcredit)]
    refine ⟨massVbv_body_edits (editsOf w.log) chat userId (extractCards text) w rfl,
      fun hs => ?_⟩
    obtain ⟨a, w', hr, _⟩ := Res.sat_ok
      ((massVbv_body (stable_smooth w.users) chat userId (extractCards text)).smooth w
        ⟨rfl, hs⟩)
    exact ⟨w', hr⟩

theorem mass_check_edits_witness :
    (extractCards fourCards).length = 4 ∧ editPoints 3 4 0 4 = [3, 4] ∧
    editPoints 5 12 0 12 = [5, 10, 12] ∧
    ((handleCommand 1 "u@s.whatsapp.net".toList fourCards "Al".toList "u".toList
        (gateWorld 5 0 [])).sat
      (fun _ w' => ∃ R : List (Str × GateReply), R.map Prod.fst = extractCards fourCards ∧
        editsOf w'.log = editsOf (gateWorld 5 0 []).log ++
          ((editPoints 3 (extractCards fourCards).length 0
              (extractCards fourCards).length).map fun k =>
            Msg.massGateResults (gatewayNameOf (commandOf fourCards) "/mad".toList) (R.take k)
              false) ++
          [Msg.massGateResults (gatewayNameOf (commandOf fourCards) "/mad".toList) R true])
      (fun _ => True) True ∧
    (Smooth (gateWorld 5 0 []) →
      ∃ w', handleCommand 1 "u@s.whatsapp.net".toList fourCards "Al".toList "u".toList
        (gateWorld 5 0 []) = .ok () w')) :=
  ⟨by decide, by decide, by decide,
   (mass_check_edits 1 "u@s.whatsapp.net".toList fourCards "Al".toList "u".toList
      (gateWorld 5 0 []) (sampleUser 5 0) (by decide) (by decide) (by decide)).1
      (Or.inl (by decide)) (by decide)⟩


/-! ## C24: writing and reloading the VBV table -/

/-- C24 (as stated) fails: the token `411111|3D TRUE|Enrolled` followed by a
line feed and `now` (a two-line `/addvbv` message) stores the response
`Enrolled\nnow`; the file then holds two lines, and reloading it gives the
response `Enrolled`. -/
theorem reload_counterexample :
    (addVbvToken [] "411111|3D TRUE|Enrolled\nnow".toList).2.1 =
      [("411111".toList, { status := "3D TRUE".toList, response := "Enrolled\nnow".toList })] ∧
    loadVbvDatabase [] (addVbvToken [] "411111|3D TRUE|Enrolled\nnow".toList).2.2 =
      [("411111".toList, { status := "3D TRUE".toList, response := "Enrolled".toList })] := by
  decide

theorem vbvFileContent_eq (db : VbvDb) : vbvFileContent db = join ['\n'] (db.map recordLine) :=
  rfl

theorem split_join (sep : Char) : ∀ lines : List Str, lines ≠ [] → (∀ l ∈ lines, sep ∉ l) →
    split sep (join [sep] lines) = lines := by
  intro lines
  induction lines with
  | nil => intro h; exact absurd rfl h
  | cons l rest ih =>
    intro _ hl
    cases rest with
    | nil =>
      have : join [sep] [l] = l := by simp [join, List.intercalate]
      rw [this, split_of_not_mem (hl l (List.mem_cons_self _ _))]
    | cons l2 rest =>
      rw [join_cons_cons, List.append_assoc, List.singleton_append,
        split_append_sep (hl l (List.mem_cons_self _ _)),
        ih (List.cons_ne_nil _ _) (fun x hx => hl x (List.mem_cons_of_mem _ hx))]

theorem mapSet_new {α : Type} : ∀ (m : List (Str × α)) (k : Str) (v : α),
    k ∉ m.map Prod.fst → mapSet m k v = m ++ [(k, v)] := by
  intro m
  induction m with
  | nil => intro k v _; rfl
  | cons e rest ih =>
    intro k v hk
    obtain ⟨k0, v0⟩ := e
    rw [List.map_cons, List.mem_cons, not_or] at hk
    rw [mapSet, if_neg (fun e => hk.1 e.symm), ih k v hk.2]
    rfl

theorem mem_mapSet {α : Type} : ∀ (m : List (Str × α)) (k : Str) (v : α) (e : Str × α),
    e ∈ mapSet m k v → e ∈ m ∨ e = (k, v) := by
  intro m
  induction m with
  | nil => intro k v e h; exact Or.inr (List.mem_singleton.1 h)
  | cons e0 rest ih =>
    intro k v e h
    obtain ⟨k0, v0⟩ := e0
    rw [mapSet] at h
    by_cases hk : k0 = k
    · rw [if_pos hk] at h
      rcases List.mem_cons.1 h with h | h
      · exact Or.inr (by rw [h, hk])
      · exact Or.inl (List.mem_cons_of_mem _ h)
    · rw [if_neg hk] at h
      rcases List.mem_cons.1 h with h | h
      · exact Or.inl (by rw [h]; exact List.mem_cons_self _ _)
      · exact (ih k v e h).imp (List.mem_cons_of_mem _) id

theorem keys_mapSet {α : Type} : ∀ (m : List (Str × α)) (k : Str) (v : α),
    (mapSet m k v).map Prod.fst = if k ∈ m.map Prod.fst then m.map Prod.fst
      else m.map Prod.fst ++ [k] := by
  intro m
  induction m with
  | nil => intro k v; rfl
  | cons e0 rest ih =>
    intro k v
    obtain ⟨k0, v0⟩ := e0
    rw [mapSet]
    by_cases hk : k0 = k
    · rw [if_pos hk, List.map_cons, List.map_cons, if_pos (by rw [hk]; exact List.mem_cons_self _ _)]
    · rw [if_neg hk, List.map_cons, ih, List.map_cons]
      by_cases hm : k ∈ rest.map Prod.fst
      · rw [if_pos hm, if_pos (List.mem_cons_of_mem _ hm)]
      · rw [if_neg hm, if_neg (by
          intro h
          rcases List.mem_cons.1 h with h | h
          · exact hk h.symm
          · exact hm h)]
        rfl

theorem mapDelete_sublist {α : Type} : ∀ (m : List (Str × α)) (k : Str),
    (mapDelete m k).Sublist m := by
  intro m
  induction m with
  | nil => intro k; exact List.Sublist.refl _
  | cons e0 rest ih =>
    intro k
    obtain ⟨k0, v0⟩ := e0
    rw [mapDelete]
    split
    · exact List.sublist_cons_self _ _
    · exact (ih k).cons_cons _

theorem split_recordLine {b st r : Str} (hb : '|' ∉ b) (hs : '|' ∉ st) (hr : '|' ∉ r) :
    split '|' (recordLine (b, { status := st, response := r })) = [b, st, r] := by
  show split '|' (b ++ '|' :: st ++ '|' :: r) = _
  rw [List.append_assoc, List.cons_append, split_append_sep hb, split_append_sep hs,
    split_of_not_mem hr]

theorem loadVbvLines_records : ∀ (db acc : VbvDb),
    (∀ e ∈ db, '|' ∉ e.1 ∧ '|' ∉ e.2.status ∧ '|' ∉ e.2.response ∧ trim (recordLine e) =
      recordLine e) →
    (acc.map Prod.fst ++ db.map Prod.fst).Nodup →
    loadVbvLines acc (db.map recordLine) = acc ++ db := by
  intro db
  induction db with
  | nil => intro acc _ _; exact (List.append_nil _).symm
  | cons e rest ih =>
    intro acc hall hnd
    obtain ⟨b, info⟩ := e
    obtain ⟨st, r⟩ := info
    obtain ⟨hb, hs, hr, ht⟩ := hall _ (List.mem_cons_self _ _)
    have hnew : b ∉ acc.map Prod.fst := by
      intro hm
      rw [List.map_cons, List.nodup_append] at hnd
      exact hnd.2.2 hm (List.mem_cons_self _ _)
    unfold loadVbvLines
    rw [List.map_cons, List.foldl_cons, ht, split_recordLine hb hs hr]
    simp only
    rw [mapSet_new _ _ _ hnew]
    have := ih (acc ++ [(b, { status := st, response := r })])
      (fun e he => hall e (List.mem_cons_of_mem _ he))
      (by simpa [List.map_append, List.append_assoc] using hnd)
    unfold loadVbvLines at this
    rw [this, List.append_assoc]
    rfl

theorem reload_of_records (db : VbvDb)
    (hall : ∀ e ∈ db, '|' ∉ e.1 ∧ '|' ∉ e.2.status ∧ '|' ∉ e.2.response ∧
      CleanLine (recordLine e))
    (hnd : (db.map Prod.fst).Nodup) :
    loadVbvDatabase [] (some (vbvFileContent db)) = db := by
  show loadVbvLines [] (split '\n' (vbvFileContent db)) = db
  by_cases hdb : db = []
  · rw [hdb]
    rfl
  · have hne : db.map recordLine ≠ [] := fun h => hdb (List.map_eq_nil_iff.1 h)
    rw [vbvFileContent_eq, split_join '\n' _ hne (fun l hl => by
        obtain ⟨e, he, rfl⟩ := List.mem_map.1 hl
        exact (hall e he).2.2.2.1),
      loadVbvLines_records db [] (fun e he => ⟨(hall e he).1, (hall e he).2.1,
        (hall e he).2.2.1, (hall e he).2.2.2.2⟩) (by simpa using hnd)]
    rfl

theorem builtVbv_records {db : VbvDb} (h : BuiltVbv db) :
    (db.map Prod.fst).Nodup ∧
    ∀ e ∈ db, '|' ∉ e.1 ∧ '|' ∉ e.2.status ∧ '|' ∉ e.2.response ∧ CleanLine (recordLine e) := by
  induction h with
  | empty => exact ⟨List.nodup_nil, fun e he => nomatch he⟩
  | add db token _ hclean ih =>
    unfold addVbvToken
    split
    · rename_i bin status response more hsplit
      have hmem : ∀ p ∈ split '|' token, '|' ∉ p := fun p hp => (mem_split hp).1
      rw [hsplit] at hmem
      refine ⟨?_, fun e he => ?_⟩
      · show ((mapSet db bin _).map Prod.fst).Nodup
        rw [keys_mapSet]
        split
        · exact ih.1
        · rename_i hk
          exact List.nodup_append.2 ⟨ih.1, List.nodup_singleton _, fun a ha hb => by
            rw [List.mem_singleton.1 hb] at ha; exact hk ha⟩
      · rcases mem_mapSet db bin _ e he with h | h
        · exact ih.2 e h
        · rw [h]
          exact ⟨hmem bin (by simp), hmem status (by simp), hmem response (by simp),
            hclean bin status response more hsplit⟩
    · exact ih
  | remove db bin _ ih =>
    unfold removeVbvToken
    split
    · exact ⟨(ih.1).sublist ((mapDelete_sublist db bin).map Prod.fst),
        fun e he => ih.2 e ((mapDelete_sublist db bin).subset he)⟩
    · exact ih

/-- C24 (as amended): for every table built from the empty one by
`addVbvToken` and `removeVbvToken` calls whose records give lines without a
line feed and without white space at either end, loading the file content
written for the table into an empty table gives back exactly that table; and
the content a successful call writes is the content of the table it leaves. -/
theorem vbv_reload_lossless (db : VbvDb) (h : BuiltVbv db) :
    loadVbvDatabase [] (some (vbvFileContent db)) = db ∧
    (∀ token, (addVbvToken db token).1 = true →
      (addVbvToken db token).2.2 = some (vbvFileContent (addVbvToken db token).2.1)) ∧
    (∀ bin, (removeVbvToken db bin).1 = true →
      (removeVbvToken db bin).2.2 = some (vbvFileContent (removeVbvToken db bin).2.1)) := by
  obtain ⟨hnd, hall⟩ := builtVbv_records h
  refine ⟨reload_of_records db hall hnd, fun token ht => ?_, fun bin hb => ?_⟩
  · unfold addVbvToken at ht ⊢
    split
    · rfl
    · rename_i hne
      split at ht
      · rename_i b st r more hs
        exact absurd hs (hne b st r more)
      · cases ht
  · unfold removeVbvToken at hb ⊢
    split
    · rfl
    · rename_i hne
      rw [if_neg hne] at hb
      cases hb

theorem vbv_reload_lossless_witness :
    BuiltVbv (addVbvToken [] "411111|3D TRUE|Enrolled".toList).2.1 ∧
    (addVbvToken [] "411111|3D TRUE|Enrolled".toList).2.1 =
      [("411111".toList, { status := "3D TRUE".toList, response := "Enrolled".toList })] ∧
    loadVbvDatabase []
        (some (vbvFileContent (addVbvToken [] "411111|3D TRUE|Enrolled".toList).2.1)) =
      (addVbvToken [] "411111|3D TRUE|Enrolled".toList).2.1 :=
  ⟨BuiltVbv.add [] "411111|3D TRUE|Enrolled".toList BuiltVbv.empty
      (fun bin status response more hs => by
        have e : split '|' "411111|3D TRUE|Enrolled".toList =
            ["411111".toList, "3D TRUE".toList, "Enrolled".toList] := by decide
        rw [e] at hs
        simp only [List.cons.injEq] at hs
        obtain ⟨rfl, rfl, rfl, _⟩ := hs
        exact ⟨by decide, by decide⟩),
   by decide,
   (vbv_reload_lossless _
      (BuiltVbv.add [] "411111|3D TRUE|Enrolled".toList BuiltVbv.empty
        (fun bin status response more hs => by
          have e : split '|' "411111|3D TRUE|Enrolled".toList =
              ["411111".toList, "3D TRUE".toList, "Enrolled".toList] := by decide
          rw [e] at hs
          simp only [List.cons.injEq] at hs
          obtain ⟨rfl, rfl, rfl, _⟩ := hs
          exact ⟨by decide, by decide⟩))).1⟩


/-! ## C6, C13: activations that overlap -/

theorem M.bind_assoc {α β γ : Type} (x : M α) (f : α → M β) (g : β → M γ) :
    (x >>= f) >>= g = x >>= fun a => f a >>= g := by
  funext w
  rw [bind_apply, bind_apply, bind_apply]
  cases x w <;> rfl

theorem M.pure_bind {α β : Type} (a : α) (f : α → M β) : (pure a : M α) >>= f = f a := rfl

theorem Activation.run_resume (m : M Activation) :
    (Activation.resume m).run = m >>= Activation.run := by
  funext w
  rw [bind_apply]
  unfold Activation.resume
  rw [Activation.run]
  beta_reduce
  cases m w <;> rfl

theorem run_editFramesAsync (chat : Str) (key delay : Nat) : ∀ (frames : List Msg)
    (k : Activation),
    (editFramesAsync chat key delay frames k).run =
      editFrames chat key delay frames >>= fun _ => k.run := by
  intro frames
  induction frames with
  | nil => intro k; rfl
  | cons frame frames ih =>
    intro k
    rw [editFramesAsync, editFrames, Activation.run_resume]
    simp only [M.bind_assoc, M.pure_bind, Activation.run_resume, ih]

theorem run_simulatePaymentGateAsync (fullcc gateway : Str) (k : GateReply → Activation) :
    (simulatePaymentGateAsync fullcc gateway k).run =
      simulatePaymentGate fullcc gateway >>= fun result => (k result).run := by
  unfold simulatePaymentGateAsync simulatePaymentGate
  simp only [Activation.run_resume, M.bind_assoc, M.pure_bind]
  congr 1; funext _
  congr 1; funext _
  congr 1; funext _
  congr 1; funext p
  split
  · rfl
  · simp only [M.bind_assoc]
    congr 1; funext i
    split <;> rfl

/-- Run with nothing else in between, the activation of `handleSingleGate` is
the run `handleSingleGate` of the sequential embedding. -/
theorem run_handleSingleGateAsync (chat messageText userId command : Str) :
    (Activation.resume (handleSingleGateAsync chat messageText userId command)).run =
      handleSingleGate chat messageText userId command := by
  rw [Activation.run_resume]
  unfold handleSingleGateAsync handleSingleGate
  funext w
  rw [M.bind_assoc, getW_bind, getW_bind]
  simp only
  by_cases h1 : (!checkAntispam w.users w.now userId) = true
  · rw [if_pos h1, if_pos h1, M.bind_assoc]
    rfl
  · rw [if_neg h1, if_neg h1]
    cases getUser w.users userId with
    | none => rfl
    | some user =>
      simp only
      by_cases h2 : user.credit < 1
      · rw [if_pos h2, if_pos h2, M.bind_assoc]
        rfl
      · rw [if_neg h2, if_neg h2]
        cases extractCC messageText with
        | none =>
          simp only
          rw [M.bind_assoc]
          rfl
        | some ccData =>
          simp only [M.bind_assoc, M.pure_bind, run_editFramesAsync,
            run_simulatePaymentGateAsync, Activation.run_resume]
          rfl

theorem run_massGateLoopAsync (chat gatewayName : Str) (key total : Nat) :
    ∀ (cards : List Str) (i : Nat) (resultText : List (Str × GateReply))
      (k : List (Str × GateReply) → Activation),
    (massGateLoopAsync chat gatewayName key total i cards resultText k).run =
      massGateLoop chat gatewayName key total i cards resultText >>= fun r => (k r).run := by
  intro cards
  induction cards with
  | nil => intro i resultText k; rfl
  | cons card cards ih =>
    intro i resultText k
    rw [massGateLoopAsync, massGateLoop, run_simulatePaymentGateAsync]
    simp only [M.bind_assoc]
    congr 1; funext result
    split
    · simp only [Activation.run_resume, M.bind_assoc, M.pure_bind, ih]
    · simp only [Activation.run_resume, M.bind_assoc, M.pure_bind, ih]

/-- Run with nothing else in between, the activation of `handleMassGate` is the
run `handleMassGate` of the sequential embedding. -/
theorem run_handleMassGateAsync (chat messageText senderName userId command : Str) :
    (Activation.resume
        (handleMassGateAsync chat messageText senderName userId command)).run =
      handleMassGate chat messageText senderName userId command := by
  rw [Activation.run_resume]
  unfold handleMassGateAsync handleMassGate
  funext w
  rw [M.bind_assoc, getW_bind, getW_bind]
  simp only
  by_cases h1 : (extractCards messageText).length = 0
  · rw [if_pos h1, if_pos h1, M.bind_assoc]
    rfl
  · rw [if_neg h1, if_neg h1]
    by_cases h2 : (extractCards messageText).length > 10
    · rw [if_pos h2, if_pos h2, M.bind_assoc]
      rfl
    · rw [if_neg h2, if_neg h2]
      cases getUser w.users userId with
      | none => rfl
      | some user =>
        simp only
        by_cases h3 : user.credit < ((extractCards messageText).length : Int)
        · rw [if_pos h3, if_pos h3, M.bind_assoc]
          rfl
        · rw [if_neg h3, if_neg h3]
          simp only [M.bind_assoc, M.pure_bind, run_massGateLoopAsync, Activation.run_resume]
          rfl

/-- C6, the failing input: user `u` holds 1 credit and sends
`/ad 4000000000000000|12|25|123` twice, the second event arriving while the
first activation is suspended at its first `await`.  Both activations pass the
cooldown and the credit test on entry.  The first ends with the balance at 0;
the second then still calls the gate simulator and returns, and its
`deductCredit(userId, 1)` finds 0 credits and deducts nothing: two checks were
served for one credit. -/
theorem overlapping_ad_failing_input :
    (overlappedAd 0).1.map Activation.isDone = [false, false] ∧
    (overlappedAd 0).2.log =
      [Event.send "u@s.whatsapp.net".toList
         (.checking 0 "400000|00|0000|0000".toList "Adyen Auth".toList),
       Event.send "u@s.whatsapp.net".toList
         (.checking 0 "400000|00|0000|0000".toList "Adyen Auth".toList)] ∧
    (overlappedAd 8).1.map Activation.isDone = [true, false] ∧
    (getUser (overlappedAd 8).2.users "u".toList).map (fun u => u.credit) = some 0 ∧
    gateCalls (overlappedAd 8).2.log =
      [("400000|00|0000|0000".toList, "Adyen Auth".toList)] ∧
    (overlappedAd 16).1.map Activation.isDone = [true, true] ∧
    (getUser (overlappedAd 16).2.users "u".toList).map (fun u => u.credit) = some 0 ∧
    gateCalls (overlappedAd 16).2.log =
      [("400000|00|0000|0000".toList, "Adyen Auth".toList),
       ("400000|00|0000|0000".toList, "Adyen Auth".toList)] := by
  decide!

/-- C13, the failing input: user `u` holds 5 credits and sends a `/mad` of one
card and at once a `/mad` of five cards, the second event arriving while the
first activation is suspended at its first `await`.  Both pass the credit test
on entry.  The first ends with the balance at 4; the second then checks its
five cards and returns, and its `deductCredit(userId, 5)` finds 4 credits and
deducts nothing: the balance ends at 4 after six gate calls. -/
theorem overlapping_mad_failing_input :
    (extractCards "/mad 4111".toList).length = 1 ∧ (extractCards fiveCards).length = 5 ∧
    (overlappedMad 0).1.map Activation.isDone = [false, false] ∧
    (overlappedMad 6).1.map Activation.isDone = [true, false] ∧
    (getUser (overlappedMad 6).2.users "u".toList).map (fun u => u.credit) = some 4 ∧
    (overlappedMad 24).1.map Activation.isDone = [true, false] ∧
    (overlappedMad 25).1.map Activation.isDone = [true, true] ∧
    (getUser (overlappedMad 25).2.users "u".toList).map (fun u => u.credit) = some 4 ∧
    (gateCalls (overlappedMad 25).2.log).map Prod.fst =
      extractCards "/mad 4111".toList ++ extractCards fiveCards := by
  decide!

end Wachk
